import Mathlib

/-!
Verification of the beautiful-mermaid ELK layout pipeline and its
cross-implementation interchange contract, as a shallow embedding in Lean.

Coordinates are modelled as rationals (the reference implementation uses
JS doubles; every operation the claims touch is exact on the inputs used).
Insertion-ordered JS `Map`s and plain-object `Record`s are modelled as
association lists in insertion order.  External collaborators that the spec
declares out of scope (the layout solver, text measurement / node sizing,
shape clipping, and the square root used only for label midpoints) are
parameters of the embedding.
-/

namespace BM

/-- 2D point, from `types.ts` `Point`. -/
structure Point where
  x : ℚ
  y : ℚ
deriving DecidableEq, Repr

/-- Flow direction, from `types.ts` `Direction`. -/
inductive Direction where
  | TD | TB | LR | BT | RL
deriving DecidableEq, Repr

/-- Edge style, from `types.ts` `EdgeStyle`. -/
inductive EdgeStyle where
  | solid | dotted | thick
deriving DecidableEq, Repr

/-- Node shape, from `types.ts` `NodeShape`; the pipeline only passes shapes
through, so the string union is modelled as `String`. -/
abbrev NodeShape := String

-- ============================================================================
-- Orthogonal repair (`orthogonalizeEdgePoints` in the layout engine)
-- ============================================================================

/-- Margin routing info for cross-hierarchy edges (`MarginInfo`). -/
structure MarginInfo where
  leftX : ℚ
  rightX : ℚ
deriving DecidableEq, Repr

/-- `EDGE_SPACING` constant inside `orthogonalizeEdgePoints`. -/
def EDGE_SPACING : ℚ := 12

/-- A consecutive pair is diagonal when both the horizontal and vertical
absolute deltas exceed 1 unit (`dx > 1 && dy > 1`). -/
def isDiagonalPair (p q : Point) : Bool :=
  decide (1 < |q.x - p.x|) && decide (1 < |q.y - p.y|)

/-- The `needsWork` scan of `orthogonalizeEdgePoints`: does any consecutive
pair need orthogonalization? -/
def anyDiagonal : List Point → Bool
  | p :: q :: rest => isDiagonalPair p q || anyDiagonal (q :: rest)
  | _ => false

/-- The two intermediate points `orthogonalizeEdgePoints` inserts for one
diagonal pair: margin routing when margins are available, otherwise a Z-path
through the vertical midpoint. -/
def orthoInsert (margins : Option MarginInfo) (edgeIndex : ℕ) (prev curr : Point) :
    List Point :=
  match margins with
  | some m =>
      let useRight := edgeIndex % 2 == 0
      let offset : ℚ := (edgeIndex / 2 : ℕ) * EDGE_SPACING
      let marginX := if useRight then m.rightX + offset else m.leftX - offset
      [⟨marginX, prev.y⟩, ⟨marginX, curr.y⟩]
  | none =>
      let midY := (prev.y + curr.y) / 2
      [⟨prev.x, midY⟩, ⟨curr.x, midY⟩]

/-- The rebuild loop of `orthogonalizeEdgePoints`.  In the source, `prev` is
the last element already pushed to `result`; since the current input point is
pushed at the end of every iteration, `prev` is always the previous input
point, which is how it is threaded here. -/
def orthoGo (margins : Option MarginInfo) (edgeIndex : ℕ) :
    Point → List Point → List Point
  | _, [] => []
  | prev, curr :: rest =>
      (if isDiagonalPair prev curr then orthoInsert margins edgeIndex prev curr else [])
        ++ curr :: orthoGo margins edgeIndex curr rest

/-- `orthogonalizeEdgePoints(points, margins?, edgeIndex)`.  Returns the input
unchanged when it is short or no pair is diagonal (the source returns the same
array reference in those cases). -/
def orthogonalizeEdgePoints (points : List Point) (margins : Option MarginInfo)
    (edgeIndex : ℕ) : List Point :=
  if points.length < 2 then points
  else if !anyDiagonal points then points
  else
    match points with
    | [] => points
    | p0 :: rest => p0 :: orthoGo margins edgeIndex p0 rest

/-- The callers of `orthogonalizeEdgePoints` detect whether repair ran by
reference identity (`orthogonalPoints !== allPoints`); in the source a fresh
array is returned exactly when the input has at least two points and some pair
is diagonal, which this predicate captures. -/
def orthoChanged (points : List Point) : Bool :=
  decide (2 ≤ points.length) && anyDiagonal points

-- ============================================================================
-- Insertion-ordered maps (JS `Map` / plain-object `Record`)
-- ============================================================================

/-- An insertion-ordered string-keyed map (JS `Map<string, V>` or a `Record`
whose keys are not integer-like), as an association list in insertion order. -/
abbrev StrMap (α : Type) := List (String × α)

/-- `Map.get` for maps built without overwriting (unique keys). -/
def mapGet {α : Type} (m : StrMap α) (k : String) : Option α :=
  (m.find? (fun e => e.1 == k)).map (·.2)

/-- `Map.get` for maps built by repeated `Map.set`, where a later `set` of the
same key overwrites the value: the last entry for the key wins. -/
def mapGetLast {α : Type} (m : StrMap α) (k : String) : Option α :=
  mapGet m.reverse k

/-- `map.get(k).push(v)` after `if (!map.has(k)) map.set(k, [])`: appends to an
existing entry in place, otherwise appends a fresh singleton entry. -/
def pushEntry {α : Type} (m : StrMap (List α)) (k : String) (v : α) :
    StrMap (List α) :=
  if (m.find? (fun e => e.1 == k)).isSome then
    m.map (fun e => if e.1 == k then (e.1, e.2 ++ [v]) else e)
  else m ++ [(k, [v])]

-- ============================================================================
-- Parsed graph (`types.ts`)
-- ============================================================================

/-- `MermaidNode` from `types.ts`. -/
structure MermaidNode where
  id : String
  label : String
  shape : NodeShape
deriving DecidableEq, Repr

/-- `MermaidEdge` from `types.ts`. -/
structure MermaidEdge where
  source : String
  target : String
  label : Option String
  style : EdgeStyle
  hasArrowStart : Bool
  hasArrowEnd : Bool
deriving DecidableEq, Repr

/-- `MermaidSubgraph` from `types.ts` (nested tree of groups). -/
inductive MermaidSubgraph where
  | mk (id : String) (label : String) (nodeIds : List String)
       (children : List MermaidSubgraph) (direction : Option Direction)
deriving Repr

def MermaidSubgraph.id : MermaidSubgraph → String
  | .mk i _ _ _ _ => i

def MermaidSubgraph.label : MermaidSubgraph → String
  | .mk _ l _ _ _ => l

def MermaidSubgraph.nodeIds : MermaidSubgraph → List String
  | .mk _ _ n _ _ => n

def MermaidSubgraph.children : MermaidSubgraph → List MermaidSubgraph
  | .mk _ _ _ c _ => c

def MermaidSubgraph.direction : MermaidSubgraph → Option Direction
  | .mk _ _ _ _ d => d

/-- `MermaidGraph` from `types.ts`; the `Map` fields are insertion-ordered
association lists. -/
structure MermaidGraph where
  direction : Direction
  nodes : StrMap MermaidNode
  edges : List MermaidEdge
  subgraphs : List MermaidSubgraph
  classDefs : StrMap (StrMap String)
  classAssignments : StrMap String
  nodeStyles : StrMap (StrMap String)

-- ============================================================================
-- Positioned graph (`types.ts`)
-- ============================================================================

/-- `PositionedNode` from `types.ts`. -/
structure PositionedNode where
  id : String
  label : String
  shape : NodeShape
  x : ℚ
  y : ℚ
  width : ℚ
  height : ℚ
  inlineStyle : Option (StrMap String)
deriving DecidableEq, Repr

/-- `PositionedEdge` from `types.ts`. -/
structure PositionedEdge where
  source : String
  target : String
  label : Option String
  style : EdgeStyle
  hasArrowStart : Bool
  hasArrowEnd : Bool
  points : List Point
  labelPosition : Option Point
deriving DecidableEq, Repr

/-- `PositionedGroup` from `types.ts` (nested tree with absolute bounds). -/
inductive PositionedGroup where
  | mk (id : String) (label : String) (x y width height : ℚ)
       (children : List PositionedGroup)
deriving Repr

def PositionedGroup.id : PositionedGroup → String
  | .mk i _ _ _ _ _ _ => i

def PositionedGroup.label : PositionedGroup → String
  | .mk _ l _ _ _ _ _ => l

def PositionedGroup.x : PositionedGroup → ℚ
  | .mk _ _ v _ _ _ _ => v

def PositionedGroup.y : PositionedGroup → ℚ
  | .mk _ _ _ v _ _ _ => v

def PositionedGroup.width : PositionedGroup → ℚ
  | .mk _ _ _ _ v _ _ => v

def PositionedGroup.height : PositionedGroup → ℚ
  | .mk _ _ _ _ _ v _ => v

def PositionedGroup.children : PositionedGroup → List PositionedGroup
  | .mk _ _ _ _ _ _ c => c

/-- `PositionedGraph` from `types.ts`. -/
structure PositionedGraph where
  width : ℚ
  height : ℚ
  nodes : List PositionedNode
  edges : List PositionedEdge
  groups : List PositionedGroup

-- ============================================================================
-- Layout defaults and options (layout engine)
-- ============================================================================

/-- The `DEFAULTS` constant of the layout engine. -/
structure LayoutDefaults where
  font : String
  padding : ℚ
  nodeSpacing : ℚ
  layerSpacing : ℚ
  mergeEdges : Bool
  thoroughness : ℕ

def DEFAULTS : LayoutDefaults :=
  { font := "Inter", padding := 40, nodeSpacing := 28, layerSpacing := 48,
    mergeEdges := true, thoroughness := 3 }

/-- The caller-facing layout options (the layout-tunable subset of
`RenderOptions`); absent fields fall back to `DEFAULTS`. -/
structure RenderOptions where
  font : Option String := none
  padding : Option ℚ := none
  nodeSpacing : Option ℚ := none
  layerSpacing : Option ℚ := none

/-- The resolved options `Required<Pick<RenderOptions, 'font' | 'padding' |
'nodeSpacing' | 'layerSpacing'>>` that `mermaidToElk` receives. -/
structure LayoutOpts where
  font : String
  padding : ℚ
  nodeSpacing : ℚ
  layerSpacing : ℚ

/-- The `{ ...DEFAULTS, ...options }` merge in `layoutGraphSync`. -/
def resolveOpts (options : RenderOptions) : LayoutOpts :=
  { font := options.font.getD DEFAULTS.font,
    padding := options.padding.getD DEFAULTS.padding,
    nodeSpacing := options.nodeSpacing.getD DEFAULTS.nodeSpacing,
    layerSpacing := options.layerSpacing.getD DEFAULTS.layerSpacing }

/-- `directionToElk` from the layout engine. -/
def directionToElk : Direction → String
  | .LR => "RIGHT"
  | .RL => "LEFT"
  | .BT => "UP"
  | .TD => "DOWN"
  | .TB => "DOWN"

-- ============================================================================
-- ELK input format (`ElkGraphNode` built by `mermaidToElk`)
-- ============================================================================

/-- An ELK label attached to a node or edge in the solver input. -/
structure ElkLabelIn where
  text : String
  width : Option ℚ := none
  height : Option ℚ := none
  layoutOptions : List (String × String) := []
deriving DecidableEq, Repr

/-- An ELK edge in the solver input (`ElkExtendedEdge`). -/
structure ElkEdgeIn where
  id : String
  sources : List String
  targets : List String
  labels : List ElkLabelIn := []
deriving DecidableEq, Repr

/-- An ELK node in the solver input (`ElkGraphNode`), with hierarchical
`ports` (a list of port IDs; the source attaches them as `{ id }` objects). -/
inductive ElkGraphNode where
  | mk (id : String) (width height : Option ℚ)
       (layoutOptions : List (String × String))
       (labels : List ElkLabelIn) (ports : List String)
       (children : List ElkGraphNode) (edges : List ElkEdgeIn)

def ElkGraphNode.id : ElkGraphNode → String
  | .mk i _ _ _ _ _ _ _ => i

def ElkGraphNode.layoutOptions : ElkGraphNode → List (String × String)
  | .mk _ _ _ o _ _ _ _ => o

def ElkGraphNode.children : ElkGraphNode → List ElkGraphNode
  | .mk _ _ _ _ _ _ c _ => c

def ElkGraphNode.edges : ElkGraphNode → List ElkEdgeIn
  | .mk _ _ _ _ _ _ _ e => e

-- ============================================================================
-- `mermaidToElk` — graph conversion MermaidGraph → ELK JSON
-- ============================================================================

mutual
/-- `collectSubgraphNodeIds`: all node IDs belonging to `sg` or any nested
child (the source accumulates them into a shared `Set`). -/
def allSubgraphNodeIds : MermaidSubgraph → List String
  | .mk _ _ nodeIds children _ => nodeIds ++ allSubgraphNodeIdsList children
def allSubgraphNodeIdsList : List MermaidSubgraph → List String
  | [] => []
  | c :: cs => allSubgraphNodeIds c ++ allSubgraphNodeIdsList cs
end

mutual
/-- The `subgraphIds` set of `mermaidToElk`: the IDs of `sg` and of every
nested child subgraph. -/
def allSubgraphIds : MermaidSubgraph → List String
  | .mk id _ _ children _ => id :: allSubgraphIdsList children
def allSubgraphIdsList : List MermaidSubgraph → List String
  | [] => []
  | c :: cs => allSubgraphIds c ++ allSubgraphIdsList cs
end

mutual
/-- `buildNodeToSubgraphMap`: entries `(nodeId, subgraphId)` in traversal
order; nested children are traversed after their parent so their `set` calls
override the parent mapping (the innermost subgraph wins on lookup, which is
`mapGetLast`). -/
def nodeToSubgraphEntries : MermaidSubgraph → StrMap String
  | .mk id _ nodeIds children _ =>
      nodeIds.map (fun n => (n, id)) ++ nodeToSubgraphEntriesList children
def nodeToSubgraphEntriesList : List MermaidSubgraph → StrMap String
  | [] => []
  | c :: cs => nodeToSubgraphEntries c ++ nodeToSubgraphEntriesList cs
end

/-- The node→innermost-subgraph lookup (`nodeToSubgraph.get`). -/
def nodeToSubgraph (subgraphs : List MermaidSubgraph) (nodeId : String) :
    Option String :=
  mapGetLast (nodeToSubgraphEntriesList subgraphs) nodeId

/-- An edge paired with its index in `graph.edges`. -/
structure IndexedEdge where
  index : ℕ
  edge : MermaidEdge
deriving DecidableEq, Repr

/-- A cross-hierarchy edge record of `mermaidToElk`. -/
structure CrossEdge where
  index : ℕ
  edge : MermaidEdge
  sourceSubgraph : Option String
  targetSubgraph : Option String
deriving DecidableEq, Repr

/-- The edge classification loop of `mermaidToElk`: root-level edges, internal
edges per subgraph (insertion-ordered), and cross-hierarchy edges. -/
def classifyEdges (graph : MermaidGraph) :
    List IndexedEdge × StrMap (List IndexedEdge) × List CrossEdge :=
  graph.edges.enum.foldl
    (fun acc ie =>
      let (i, edge) := ie
      let (root, internal, cross) := acc
      let sourceSubgraph := nodeToSubgraph graph.subgraphs edge.source
      let targetSubgraph := nodeToSubgraph graph.subgraphs edge.target
      match sourceSubgraph, targetSubgraph with
      | some s, some t =>
          if s = t then (root, pushEntry internal s ⟨i, edge⟩, cross)
          else (root, internal, cross ++ [⟨i, edge, some s, some t⟩])
      | none, none => (root ++ [⟨i, edge⟩], internal, cross)
      | s?, t? => (root, internal, cross ++ [⟨i, edge, s?, t?⟩]))
    ([], [], [])

/-- A hierarchical port entry of `subgraphPorts` (`incoming = true` models the
source's `direction: 'incoming'`). -/
structure PortEntry where
  portId : String
  edgeIndex : ℕ
  incoming : Bool
  internalNodeId : String
deriving DecidableEq, Repr

/-- The port-creation loop of `mermaidToElk`, run only when a direction
override selects SEPARATE hierarchy handling. -/
def buildSubgraphPorts (cross : List CrossEdge) : StrMap (List PortEntry) :=
  cross.foldl
    (fun acc ce =>
      let acc := match ce.sourceSubgraph with
        | some s =>
            pushEntry acc s
              ⟨s ++ "_out_" ++ toString ce.index, ce.index, false, ce.edge.source⟩
        | none => acc
      match ce.targetSubgraph with
      | some t =>
          pushEntry acc t
            ⟨t ++ "_in_" ++ toString ce.index, ce.index, true, ce.edge.target⟩
      | none => acc)
    []

/-- The edge-label construction shared by every `elkEdge` builder: a measured
label box with inline/center placement, present only when the edge has a
label.  `measureEdgeLabel` stands for the external
`measureMultilineText(label, FONT_SIZES.edgeLabel, FONT_WEIGHTS.edgeLabel)`. -/
def elkEdgeLabels (measureEdgeLabel : String → ℚ × ℚ) (label : Option String) :
    List ElkLabelIn :=
  match label with
  | none => []
  | some text =>
      let m := measureEdgeLabel text
      [{ text := text, width := some (m.1 + 8), height := some (m.2 + 6),
         layoutOptions := [("elk.edgeLabels.inline", "true"),
                           ("elk.edgeLabels.placement", "CENTER")] }]

/-- An ELK edge `{ id: "e{index}", sources, targets }` plus optional label. -/
def mkElkEdge (measureEdgeLabel : String → ℚ × ℚ) (index : ℕ)
    (sources targets : List String) (label : Option String) : ElkEdgeIn :=
  { id := "e" ++ toString index, sources := sources, targets := targets,
    labels := elkEdgeLabels measureEdgeLabel label }

/-- A leaf ELK node for a plain graph node, sized by the external sizing
function (`estimateNodeSize`, which delegates to text measurement). -/
def leafElkNode (estSize : String → String → NodeShape → ℚ × ℚ)
    (id : String) (node : MermaidNode) : ElkGraphNode :=
  let size := estSize id node.label node.shape
  .mk id (some size.1) (some size.2) [] [{ text := node.label }] [] [] []

/-- The `'elk.padding'` template `[top=p,left=p,bottom=p,right=p]`. -/
def elkPaddingStr (p : ℚ) : String :=
  "[top=" ++ toString p ++ ",left=" ++ toString p ++ ",bottom=" ++ toString p
    ++ ",right=" ++ toString p ++ "]"

mutual
/-- `subgraphToElk`: one hierarchical compound node per subgraph, carrying its
own layout options (with an `elk.direction` entry exactly when the subgraph
declares a direction override), direct member nodes, nested children, internal
edges, and port-to-node internal edge segments. -/
def subgraphToElk (estSize : String → String → NodeShape → ℚ × ℚ)
    (measureEdgeLabel : String → ℚ × ℚ) (opts : LayoutOpts)
    (nodes : StrMap MermaidNode)
    (edgesBySubgraph : StrMap (List IndexedEdge))
    (subgraphPorts : StrMap (List PortEntry)) :
    MermaidSubgraph → ElkGraphNode
  | .mk id label nodeIds children dir =>
      let layoutOptions :=
        [("elk.algorithm", "layered"),
         ("elk.padding", "[top=44,left=16,bottom=16,right=16]"),
         ("elk.edgeRouting", "ORTHOGONAL"),
         ("elk.contentAlignment", "H_CENTER V_CENTER"),
         ("elk.spacing.edgeEdge", "12"),
         ("elk.layered.spacing.edgeEdgeBetweenLayers", "12"),
         ("elk.layered.spacing.edgeNodeBetweenLayers", "12"),
         ("elk.layered.nodePlacement.bk.fixedAlignment", "BALANCED"),
         ("elk.layered.spacing.nodeNodeBetweenLayers", toString opts.layerSpacing),
         ("elk.spacing.nodeNode", toString opts.nodeSpacing)]
          ++ (match dir with
              | some d => [("elk.direction", directionToElk d)]
              | none => [])
      let ports := (mapGet subgraphPorts id).getD []
      let memberNodes := nodeIds.filterMap
        (fun nodeId => (mapGet nodes nodeId).map (leafElkNode estSize nodeId))
      let nested := subgraphToElkList estSize measureEdgeLabel opts nodes
        edgesBySubgraph subgraphPorts children
      let internalEdges := ((mapGet edgesBySubgraph id).getD []).map
        (fun ie => mkElkEdge measureEdgeLabel ie.index [ie.edge.source]
          [ie.edge.target] ie.edge.label)
      let portEdges := ports.map (fun p =>
        let internalEdgeId := "e" ++ toString p.edgeIndex ++ "_internal"
        if p.incoming then
          ({ id := internalEdgeId, sources := [p.portId],
             targets := [p.internalNodeId] } : ElkEdgeIn)
        else
          { id := internalEdgeId, sources := [p.internalNodeId],
            targets := [p.portId] })
      .mk id none none layoutOptions
        (if label == "" then [] else [{ text := label }])
        (ports.map (·.portId))
        (memberNodes ++ nested)
        (internalEdges ++ portEdges)
def subgraphToElkList (estSize : String → String → NodeShape → ℚ × ℚ)
    (measureEdgeLabel : String → ℚ × ℚ) (opts : LayoutOpts)
    (nodes : StrMap MermaidNode)
    (edgesBySubgraph : StrMap (List IndexedEdge))
    (subgraphPorts : StrMap (List PortEntry)) :
    List MermaidSubgraph → List ElkGraphNode
  | [] => []
  | c :: cs =>
      subgraphToElk estSize measureEdgeLabel opts nodes edgesBySubgraph
        subgraphPorts c
        :: subgraphToElkList estSize measureEdgeLabel opts nodes
          edgesBySubgraph subgraphPorts cs
end

/-- `mermaidToElk(graph, opts)`: the solver input tree.  `estSize` stands for
the external node sizing (`estimateNodeSize`, which delegates to text
measurement) and `measureEdgeLabel` for edge-label measurement. -/
def mermaidToElk (estSize : String → String → NodeShape → ℚ × ℚ)
    (measureEdgeLabel : String → ℚ × ℚ)
    (graph : MermaidGraph) (opts : LayoutOpts) : ElkGraphNode :=
  let subgraphNodeIds := allSubgraphNodeIdsList graph.subgraphs
  let subgraphIds := allSubgraphIdsList graph.subgraphs
  let (rootEdges, edgesBySubgraph, crossHierarchyEdges) := classifyEdges graph
  let hasDirectionOverride := graph.subgraphs.any (fun sg => sg.direction.isSome)
  let rootLayoutOptions :=
    [("elk.algorithm", "layered"),
     ("elk.direction", directionToElk graph.direction),
     ("elk.spacing.nodeNode", toString opts.nodeSpacing),
     ("elk.layered.spacing.nodeNodeBetweenLayers", toString opts.layerSpacing),
     ("elk.spacing.edgeEdge", "12"),
     ("elk.layered.spacing.edgeEdgeBetweenLayers", "12"),
     ("elk.layered.spacing.edgeNodeBetweenLayers", "12"),
     ("elk.padding", elkPaddingStr opts.padding),
     ("elk.edgeRouting", "ORTHOGONAL"),
     ("elk.layered.nodePlacement.bk.fixedAlignment", "BALANCED"),
     ("elk.contentAlignment", "H_CENTER V_CENTER"),
     ("elk.layered.thoroughness", toString DEFAULTS.thoroughness),
     ("elk.layered.highDegreeNodes.treatment", "true"),
     ("elk.layered.highDegreeNodes.threshold", "8"),
     ("elk.layered.compaction.postCompaction.strategy",
      "LEFT_RIGHT_CONSTRAINT_LOCKING"),
     ("elk.layered.considerModelOrder.strategy", "NODES_AND_EDGES"),
     ("elk.layered.wrapping.strategy", "OFF"),
     ("elk.hierarchyHandling",
      if hasDirectionOverride then "SEPARATE" else "INCLUDE_CHILDREN")]
  let subgraphPorts :=
    if hasDirectionOverride then buildSubgraphPorts crossHierarchyEdges else []
  let topLevelNodes := graph.nodes.filterMap (fun e =>
    if !(subgraphNodeIds.contains e.1) && !(subgraphIds.contains e.1) then
      some (leafElkNode estSize e.1 e.2)
    else none)
  let subgraphChildren := subgraphToElkList estSize measureEdgeLabel opts
    graph.nodes edgesBySubgraph subgraphPorts graph.subgraphs
  let rootLevelEdges := rootEdges.map (fun ie =>
    mkElkEdge measureEdgeLabel ie.index [ie.edge.source] [ie.edge.target]
      ie.edge.label)
  let crossEdges := crossHierarchyEdges.map (fun ce =>
    let sources := match hasDirectionOverride, ce.sourceSubgraph with
      | true, some s => [s ++ "_out_" ++ toString ce.index]
      | _, _ => [ce.edge.source]
    let targets := match hasDirectionOverride, ce.targetSubgraph with
      | true, some t => [t ++ "_in_" ++ toString ce.index]
      | _, _ => [ce.edge.target]
    mkElkEdge measureEdgeLabel ce.index sources targets ce.edge.label)
  .mk "root" none none rootLayoutOptions [] []
    (topLevelNodes ++ subgraphChildren)
    (rootLevelEdges ++ crossEdges)

-- ============================================================================
-- ELK output format (the solver result consumed by `elkToPositioned`)
-- ============================================================================

/-- One routed polyline section of a solver edge. -/
structure ElkSection where
  startPoint : Point
  bendPoints : List Point
  endPoint : Point
deriving DecidableEq, Repr

/-- A laid-out edge label in the solver result. -/
structure ElkLabelOut where
  x : Option ℚ := none
  y : Option ℚ := none
  width : Option ℚ := none
  height : Option ℚ := none
deriving DecidableEq, Repr

/-- A routed edge in the solver result. -/
structure ElkEdgeOut where
  id : String
  sources : List String
  targets : List String
  sections : List ElkSection
  labels : List ElkLabelOut := []
deriving DecidableEq, Repr

/-- A node of the solver result tree (`ElkNode` with coordinates filled in). -/
inductive ElkNodeOut where
  | mk (id : String) (x y width height : Option ℚ)
       (children : List ElkNodeOut) (edges : List ElkEdgeOut)

def ElkNodeOut.id : ElkNodeOut → String
  | .mk i _ _ _ _ _ _ => i

def ElkNodeOut.x : ElkNodeOut → Option ℚ
  | .mk _ v _ _ _ _ _ => v

def ElkNodeOut.y : ElkNodeOut → Option ℚ
  | .mk _ _ v _ _ _ _ => v

def ElkNodeOut.width : ElkNodeOut → Option ℚ
  | .mk _ _ _ v _ _ _ => v

def ElkNodeOut.height : ElkNodeOut → Option ℚ
  | .mk _ _ _ _ v _ _ => v

def ElkNodeOut.children : ElkNodeOut → List ElkNodeOut
  | .mk _ _ _ _ _ c _ => c

def ElkNodeOut.edges : ElkNodeOut → List ElkEdgeOut
  | .mk _ _ _ _ _ _ e => e

-- ============================================================================
-- String helpers (JS `endsWith`, `includes`, `parseInt` on edge IDs)
-- ============================================================================

/-- Character-list prefix test (kernel-reducible replacement for library
string primitives). -/
def charsIsPrefixOf : List Char → List Char → Bool
  | [], _ => true
  | _ :: _, [] => false
  | a :: as, b :: bs => a == b && charsIsPrefixOf as bs

/-- Substring containment on character lists. -/
def charsContainsSub (hay needle : List Char) : Bool :=
  if charsIsPrefixOf needle hay then true
  else
    match hay with
    | [] => false
    | _ :: t => charsContainsSub t needle

/-- JS `s.includes(sub)`. -/
def strContainsSub (s sub : String) : Bool :=
  charsContainsSub s.toList sub.toList

/-- JS `s.endsWith(suffix)`. -/
def strEndsWith (s suffix : String) : Bool :=
  charsIsPrefixOf suffix.toList.reverse s.toList.reverse

/-- JS `parseInt(s, 10)` as used on solver edge IDs of the form
`"{digits}..."`: parses the leading decimal digit run, `none` for `NaN`.
(The full `parseInt` also accepts signs and leading whitespace, which the
generated IDs `e{index}` / `e{index}_internal` never contain.) -/
def parseIntPrefix (s : String) : Option ℕ :=
  let ds := s.toList.takeWhile Char.isDigit
  if ds.isEmpty then none
  else some (ds.foldl (fun acc c => acc * 10 + (c.toNat - 48)) 0)

/-- JS truthiness of an optional string (`undefined` and `""` are falsy). -/
def jsTruthy : Option String → Bool
  | none => false
  | some s => !(s == "")

-- ============================================================================
-- Edge segment collection (`collectEdgeSegments`)
-- ============================================================================

/-- `EdgeSegment` from the layout engine. -/
structure EdgeSegment where
  edgeIndex : ℕ
  isInternal : Bool
  points : List Point
  labelPosition : Option Point
deriving DecidableEq, Repr

/-- The per-edge-index record `{ external?, incoming?, outgoing? }`. -/
structure SegTriple where
  external : Option EdgeSegment := none
  incoming : Option EdgeSegment := none
  outgoing : Option EdgeSegment := none
deriving DecidableEq, Repr

/-- Insertion-ordered `Map<number, V>`. -/
abbrev NatMap (α : Type) := List (ℕ × α)

def natMapGet {α : Type} (m : NatMap α) (k : ℕ) : Option α :=
  (m.find? (fun e => e.1 == k)).map (·.2)

/-- `Map.set`: overwrite in place, or append a fresh entry. -/
def natMapSet {α : Type} (m : NatMap α) (k : ℕ) (v : α) : NatMap α :=
  if (m.find? (fun e => e.1 == k)).isSome then
    m.map (fun e => if e.1 == k then (k, v) else e)
  else m ++ [(k, v)]

/-- Processing of one solver edge inside `collectEdgeSegments`: parse the
edge ID, extract offset points from the first section, extract the label
center, and store the segment in the per-index triple (internal segments are
classified incoming/outgoing by checking whether an endpoint names a port). -/
def collectOneEdge (offsetX offsetY : ℚ) (segments : NatMap SegTriple)
    (elkEdge : ElkEdgeOut) : NatMap SegTriple :=
  let isInternal := strEndsWith elkEdge.id "_internal"
  match parseIntPrefix (elkEdge.id.drop 1) with
  | none => segments
  | some edgeIndex =>
      let points : List Point :=
        match elkEdge.sections with
        | [] => []
        | sec :: _ =>
            ⟨sec.startPoint.x + offsetX, sec.startPoint.y + offsetY⟩
              :: sec.bendPoints.map
                (fun bp => (⟨bp.x + offsetX, bp.y + offsetY⟩ : Point))
              ++ [⟨sec.endPoint.x + offsetX, sec.endPoint.y + offsetY⟩]
      let labelPosition : Option Point :=
        match elkEdge.labels with
        | [] => none
        | label :: _ =>
            match label.x, label.y with
            | some lx, some ly =>
                some ⟨lx + (label.width.getD 0) / 2 + offsetX,
                      ly + (label.height.getD 0) / 2 + offsetY⟩
            | _, _ => none
      let seg := (natMapGet segments edgeIndex).getD {}
      let seg' :=
        if isInternal then
          let source := elkEdge.sources.headD ""
          let target := elkEdge.targets.headD ""
          let sourceIsPort :=
            strContainsSub source "_in_" || strContainsSub source "_out_"
          let targetIsPort :=
            strContainsSub target "_in_" || strContainsSub target "_out_"
          if sourceIsPort then
            { seg with incoming := some ⟨edgeIndex, isInternal, points, labelPosition⟩ }
          else if targetIsPort then
            { seg with outgoing := some ⟨edgeIndex, isInternal, points, labelPosition⟩ }
          else seg
        else
          { seg with external := some ⟨edgeIndex, isInternal, points, labelPosition⟩ }
      natMapSet segments edgeIndex seg'

mutual
/-- `collectEdgeSegments`: walk the solver result, collecting edge segments
with the accumulated coordinate offset. -/
def collectEdgeSegments : ElkNodeOut → ℚ → ℚ → NatMap SegTriple → NatMap SegTriple
  | .mk _ _ _ _ _ children edges, offsetX, offsetY, segments =>
      let segments := edges.foldl (collectOneEdge offsetX offsetY) segments
      collectEdgeSegmentsList children offsetX offsetY segments
/-- Recursion into children, adding each child's local coordinates. -/
def collectEdgeSegmentsList :
    List ElkNodeOut → ℚ → ℚ → NatMap SegTriple → NatMap SegTriple
  | [], _, _, segments => segments
  | child :: rest, offsetX, offsetY, segments =>
      let segments := collectEdgeSegments child
        (offsetX + child.x.getD 0) (offsetY + child.y.getD 0) segments
      collectEdgeSegmentsList rest offsetX offsetY segments
end

-- ============================================================================
-- Label midpoint (`calculatePathMidpoint`)
-- ============================================================================

/-- Euclidean length of one segment; `sqrtQ` stands for `Math.sqrt`, which has
no exact rational counterpart and is a parameter of the embedding. -/
def segmentLength (sqrtQ : ℚ → ℚ) (p q : Point) : ℚ :=
  sqrtQ ((q.x - p.x) * (q.x - p.x) + (q.y - p.y) * (q.y - p.y))

/-- Total polyline length of `calculatePathMidpoint`. -/
def totalPolylineLength (sqrtQ : ℚ → ℚ) : List Point → ℚ
  | p :: q :: rest => segmentLength sqrtQ p q + totalPolylineLength sqrtQ (q :: rest)
  | _ => 0

/-- The walking loop of `calculatePathMidpoint`.  (In JS a zero-length segment
with `remaining = 0` produces `t = 0/0 = NaN`; rational division by zero gives
`t = 0`, i.e. the segment start, never reached by the claims.) -/
def walkToMidpoint (sqrtQ : ℚ → ℚ) : ℚ → Point → List Point → Point
  | _, prev, [] => prev
  | remaining, prev, curr :: rest =>
      let segLen := segmentLength sqrtQ prev curr
      if remaining ≤ segLen then
        let t := remaining / segLen
        ⟨prev.x + t * (curr.x - prev.x), prev.y + t * (curr.y - prev.y)⟩
      else walkToMidpoint sqrtQ (remaining - segLen) curr rest

/-- `calculatePathMidpoint(points)`: the point at half the cumulative length. -/
def calculatePathMidpoint (sqrtQ : ℚ → ℚ) (points : List Point) : Point :=
  match points with
  | [] => ⟨0, 0⟩
  | [p] => p
  | p :: rest =>
      walkToMidpoint sqrtQ (totalPolylineLength sqrtQ points / 2) p rest

-- ============================================================================
-- Segment assembly (`extractEdgesRecursively`)
-- ============================================================================

/-- Points of an optional segment (`seg.xxx && seg.xxx.points.length > 0`
treats an absent segment and an empty point list alike). -/
def segPoints (s : Option EdgeSegment) : List Point :=
  match s with
  | some seg => seg.points
  | none => []

/-- The fixed-order combination loop of `extractEdgesRecursively`: outgoing
internal segment, then external (its first point skipped whenever points were
already accumulated), then incoming internal (same rule). -/
def combineSegmentPoints (o e i : List Point) : List Point :=
  let a1 := o
  let a2 := if e.isEmpty then a1 else if a1.isEmpty then e else a1 ++ e.drop 1
  if i.isEmpty then a2 else if a2.isEmpty then i else a2 ++ i.drop 1

/-- The per-original-edge step of `extractEdgesRecursively`: combine segments,
compute the label anchor, orthogonalize (counting margin-routed edges), and
emit the positioned edge.  The source's `orthogonalPoints !== allPoints`
reference test is modelled by `orthoChanged`. -/
def extractOneEdge (sqrtQ : ℚ → ℚ) (graph : MermaidGraph)
    (margins : Option MarginInfo)
    (acc : List PositionedEdge × ℕ) (entry : ℕ × SegTriple) :
    List PositionedEdge × ℕ :=
  let (edges, marginEdgeIndex) := acc
  let (edgeIndex, seg) := entry
  match graph.edges[edgeIndex]? with
  | none => acc
  | some originalEdge =>
      let allPoints := combineSegmentPoints (segPoints seg.outgoing)
        (segPoints seg.external) (segPoints seg.incoming)
      let labelPosition0 : Option Point :=
        if jsTruthy originalEdge.label && decide (2 ≤ allPoints.length) then
          some ((seg.external.bind (·.labelPosition)).getD
            (calculatePathMidpoint sqrtQ allPoints))
        else none
      let orthogonalPoints := orthogonalizeEdgePoints allPoints margins marginEdgeIndex
      let changed := orthoChanged allPoints
      let marginEdgeIndex' := if changed then marginEdgeIndex + 1 else marginEdgeIndex
      let labelPosition :=
        if jsTruthy originalEdge.label && changed
            && decide (2 ≤ orthogonalPoints.length) then
          some (calculatePathMidpoint sqrtQ orthogonalPoints)
        else labelPosition0
      (edges ++ [{ source := originalEdge.source, target := originalEdge.target,
                   label := originalEdge.label, style := originalEdge.style,
                   hasArrowStart := originalEdge.hasArrowStart,
                   hasArrowEnd := originalEdge.hasArrowEnd,
                   points := orthogonalPoints,
                   labelPosition := labelPosition }],
       marginEdgeIndex')

/-- `extractEdgesRecursively(elkNode, graph, edges, 0, 0, margins)`. -/
def extractEdgesRecursively (sqrtQ : ℚ → ℚ) (elkNode : ElkNodeOut)
    (graph : MermaidGraph) (margins : Option MarginInfo) : List PositionedEdge :=
  let segments := collectEdgeSegments elkNode 0 0 []
  (segments.foldl (extractOneEdge sqrtQ graph margins) ([], 0)).1

-- ============================================================================
-- Node and group extraction (`extractNodesAndGroups`, `resolveNodeStyle`)
-- ============================================================================

/-- `{ ...a, ...b }` on string records: keys of `a` keep their position with
values overridden by `b`, then keys only in `b` follow in `b` order. -/
def spreadRecord (a b : StrMap String) : StrMap String :=
  a.map (fun e => match mapGetLast b e.1 with
    | some v => (e.1, v)
    | none => e)
    ++ b.filter (fun e => !(a.any (fun e2 => e2.1 == e.1)))

/-- `resolveNodeStyle(nodeId, graph)`: class styles first, explicit style
directives override (`className` is checked for JS truthiness, so an empty
class name is ignored). -/
def resolveNodeStyle (nodeId : String) (graph : MermaidGraph) :
    Option (StrMap String) :=
  let fromClass : Option (StrMap String) :=
    match mapGet graph.classAssignments nodeId with
    | some className =>
        if className == "" then none
        else mapGet graph.classDefs className
    | none => none
  match mapGet graph.nodeStyles nodeId with
  | some nodeStyle =>
      match fromClass with
      | some r => some (spreadRecord r nodeStyle)
      | none => some nodeStyle
  | none => fromClass

/-- `findSubgraph(subgraphs, id)`: depth-first search in the nested forest. -/
def findSubgraph : List MermaidSubgraph → String → Option MermaidSubgraph
  | [], _ => none
  | .mk i l n cs d :: rest, id =>
      if i = id then some (.mk i l n cs d)
      else
        match findSubgraph cs id with
        | some found => some found
        | none => findSubgraph rest id

mutual
/-- One child step of `extractNodesAndGroups` plus the recursion (the source
appends flat nodes to a shared accumulator and nests groups per level; a leaf
node found in `graph.nodes` is emitted with resolved styles, an unknown leaf
is skipped, and a non-subgraph child with children is recursed into at the
same group level). -/
def extractChild (graph : MermaidGraph) (subgraphIds : List String) :
    ElkNodeOut → ℚ → ℚ → List PositionedNode × List PositionedGroup
  | .mk id cx cy cw ch children _, offsetX, offsetY =>
      let x := cx.getD 0 + offsetX
      let y := cy.getD 0 + offsetY
      let width := cw.getD 0
      let height := ch.getD 0
      if subgraphIds.contains id then
        let sub := extractChildren graph subgraphIds children x y
        (sub.1,
         [.mk id (((findSubgraph graph.subgraphs id).map
             MermaidSubgraph.label).getD "") x y width height sub.2])
      else
        let selfNodes : List PositionedNode :=
          match mapGet graph.nodes id with
          | some mNode =>
              [{ id := id, label := mNode.label, shape := mNode.shape,
                 x := x, y := y, width := width, height := height,
                 inlineStyle := resolveNodeStyle id graph }]
          | none => []
        if children.isEmpty then (selfNodes, [])
        else
          let extra := extractChildren graph subgraphIds children x y
          (selfNodes ++ extra.1, extra.2)
def extractChildren (graph : MermaidGraph) (subgraphIds : List String) :
    List ElkNodeOut → ℚ → ℚ → List PositionedNode × List PositionedGroup
  | [], _, _ => ([], [])
  | child :: rest, offsetX, offsetY =>
      let this := extractChild graph subgraphIds child offsetX offsetY
      let restR := extractChildren graph subgraphIds rest offsetX offsetY
      (this.1 ++ restR.1, this.2 ++ restR.2)
end

/-- `extractNodesAndGroups(elkResult, graph, subgraphIds, nodes, groups, 0, 0)`
at the root: processes the root children. -/
def extractNodesAndGroups (graph : MermaidGraph) (subgraphIds : List String)
    (elkNode : ElkNodeOut) (offsetX offsetY : ℚ) :
    List PositionedNode × List PositionedGroup :=
  extractChildren graph subgraphIds elkNode.children offsetX offsetY

-- ============================================================================
-- Group bounds and margins (`flattenGroupBounds`)
-- ============================================================================

/-- One absolute group bounding box. -/
structure GroupBounds where
  x : ℚ
  y : ℚ
  right : ℚ
  bottom : ℚ
deriving DecidableEq, Repr

/-- `flattenGroupBounds(groups)`: every group box, nested children included. -/
def flattenGroupBounds : List PositionedGroup → List GroupBounds
  | [] => []
  | .mk _ _ x y w h cs :: gs =>
      ⟨x, y, x + w, y + h⟩ :: (flattenGroupBounds cs ++ flattenGroupBounds gs)

/-- `Math.min(q, ...l)` on a rational and a list. -/
def qListMin (q : ℚ) (l : List ℚ) : ℚ := l.foldl min q

/-- `Math.max(q, ...l)` on a rational and a list. -/
def qListMax (q : ℚ) (l : List ℚ) : ℚ := l.foldl max q

/-- The margin computation of `elkToPositioned`: 20 units outside the extreme
group bounds, `none` when there are no groups. -/
def computeMargins (allBounds : List GroupBounds) : Option MarginInfo :=
  match allBounds with
  | [] => none
  | b :: bs =>
      some ⟨qListMin b.x (bs.map (·.x)) - 20,
            qListMax b.right (bs.map (·.right)) + 20⟩

-- ============================================================================
-- Layer alignment (`alignLayerNodes`)
-- ============================================================================

/-- Flow-axis position of a node (X for horizontal flow, Y otherwise). -/
def flowPos (isHorizontal : Bool) (n : PositionedNode) : ℚ :=
  if isHorizontal then n.x else n.y

/-- Write the flow-axis position of a node. -/
def setFlowPos (isHorizontal : Bool) (n : PositionedNode) (v : ℚ) :
    PositionedNode :=
  if isHorizontal then { n with x := v } else { n with y := v }

/-- The `connectedPairs` set of `alignLayerNodes`: the strings
`source + ":" + target` and `target + ":" + source` for every edge. -/
def connectedPairs (edges : List PositionedEdge) : List String :=
  edges.foldl
    (fun acc e =>
      acc ++ [e.source ++ ":" ++ e.target, e.target ++ ":" ++ e.source]) []

/-- The `THRESHOLD` constant of `alignLayerNodes`:
`DEFAULTS.layerSpacing * 0.6`, computed from the module-level default, not
from the options of the current layout call. -/
def LAYER_ALIGN_THRESHOLD : ℚ := DEFAULTS.layerSpacing * 0.6

/-- The single-linkage clustering walk of `alignLayerNodes`: `prev` is the
immediately preceding node in sorted order (which is always the node most
recently appended to `currentLayer`). -/
def buildLayersGo (connected : List String) (isHorizontal : Bool)
    (doneLayers : List (List PositionedNode))
    (currentLayer : List PositionedNode) (prev : PositionedNode) :
    List PositionedNode → List (List PositionedNode)
  | [] => doneLayers ++ [currentLayer]
  | n :: rest =>
      let gap := flowPos isHorizontal n - flowPos isHorizontal prev
      let hasEdgeToLayer :=
        currentLayer.any (fun m => connected.contains (m.id ++ ":" ++ n.id))
      if decide (gap ≤ LAYER_ALIGN_THRESHOLD) && !hasEdgeToLayer then
        buildLayersGo connected isHorizontal doneLayers (currentLayer ++ [n]) n rest
      else
        buildLayersGo connected isHorizontal (doneLayers ++ [currentLayer]) [n] n rest

/-- Clustering of the sorted node list into layers. -/
def buildLayers (connected : List String) (isHorizontal : Bool) :
    List PositionedNode → List (List PositionedNode)
  | [] => []
  | x :: rest => buildLayersGo connected isHorizontal [] [x] x rest

/-- The snap target of one layer: the center of the layer coordinate range,
but only for layers with more than one member whose range exceeds 1 unit
(the source `continue`s otherwise). -/
def layerSnapTarget (isHorizontal : Bool) (L : List PositionedNode) : Option ℚ :=
  match L with
  | [] => none
  | p :: ps =>
      if L.length ≤ 1 then none
      else
        let mn := qListMin (flowPos isHorizontal p) (ps.map (flowPos isHorizontal))
        let mx := qListMax (flowPos isHorizontal p) (ps.map (flowPos isHorizontal))
        if mx - mn ≤ 1 then none
        else some ((mn + mx) / 2)

/-- The recorded shifts of one layer: `target - oldPos` for every member moved
by more than 0.5 units (the others keep their position and get no delta). -/
def layerDeltas (isHorizontal : Bool) (L : List PositionedNode) : StrMap ℚ :=
  match layerSnapTarget isHorizontal L with
  | none => []
  | some target =>
      L.filterMap (fun n =>
        let old := flowPos isHorizontal n
        if decide ((1 : ℚ) / 2 < |target - old|) then some (n.id, target - old)
        else none)

/-- The `deltas` map of `alignLayerNodes` over all layers. -/
def collectDeltas (isHorizontal : Bool)
    (layers : List (List PositionedNode)) : StrMap ℚ :=
  layers.foldl (fun acc L => acc ++ layerDeltas isHorizontal L) []

/-- The source-endpoint adjustment of `alignLayerNodes`: shift the first
point, and the second point as well when it formed a straight flow-axis run
with the (pre-shift) first point. -/
def shiftFirstRun (isHorizontal : Bool) (d : ℚ) : List Point → List Point
  | [] => []
  | p0 :: rest =>
      let p0' : Point :=
        if isHorizontal then { p0 with x := p0.x + d } else { p0 with y := p0.y + d }
      match rest with
      | [] => [p0']
      | p1 :: rest' =>
          if (if isHorizontal then p1.x == p0.x else p1.y == p0.y) then
            p0' :: (if isHorizontal then ({ p1 with x := p1.x + d } : Point)
                    else { p1 with y := p1.y + d }) :: rest'
          else p0' :: p1 :: rest'

/-- The target-endpoint adjustment, operating on the last two points (the
mirror image of `shiftFirstRun`). -/
def shiftLastRun (isHorizontal : Bool) (d : ℚ) (pts : List Point) : List Point :=
  (shiftFirstRun isHorizontal d pts.reverse).reverse

/-- The per-edge endpoint adjustment of `alignLayerNodes`. -/
def adjustEdgeForDeltas (deltas : StrMap ℚ) (isHorizontal : Bool)
    (e : PositionedEdge) : PositionedEdge :=
  if e.points.length < 2 then e
  else
    let pts := match mapGetLast deltas e.source with
      | some d => shiftFirstRun isHorizontal d e.points
      | none => e.points
    let pts := match mapGetLast deltas e.target with
      | some d => shiftLastRun isHorizontal d pts
      | none => pts
    { e with points := pts }

/-- `alignLayerNodes(nodes, edges, direction)` as a pure function: the updated
node list (original order) and adjusted edges.  A node whose id has a recorded
delta moves by it (for unique ids this lands exactly on the snap target). -/
def alignLayerNodes (nodes : List PositionedNode) (edges : List PositionedEdge)
    (direction : Direction) : List PositionedNode × List PositionedEdge :=
  if nodes.isEmpty then (nodes, edges)
  else
    let isHorizontal := direction == .LR || direction == .RL
    let connected := connectedPairs edges
    let sorted := nodes.mergeSort
      (fun a b => decide (flowPos isHorizontal a ≤ flowPos isHorizontal b))
    let layers := buildLayers connected isHorizontal sorted
    let deltas := collectDeltas isHorizontal layers
    let nodes' := nodes.map (fun n =>
      match mapGetLast deltas n.id with
      | some d => setFlowPos isHorizontal n (flowPos isHorizontal n + d)
      | none => n)
    if deltas.isEmpty then (nodes', edges)
    else (nodes', edges.map (adjustEdgeForDeltas deltas isHorizontal))

-- ============================================================================
-- Edge bundling (`bundleEdgePaths`)
-- ============================================================================

/-- `findGroupsContainingPoint(x, y, groups)`: every group box containing the
point, outermost first. -/
def findGroupsContainingPoint (x y : ℚ) :
    List PositionedGroup → List PositionedGroup
  | [] => []
  | .mk id l gx gy gw gh cs :: gs =>
      (if decide (gx ≤ x) && decide (x ≤ gx + gw)
          && decide (gy ≤ y) && decide (y ≤ gy + gh) then
        PositionedGroup.mk id l gx gy gw gh cs :: findGroupsContainingPoint x y cs
      else [])
        ++ findGroupsContainingPoint x y gs

/-- `adjustJunctionForGroups`: move a trunk junction just outside the first
group that contains it but not the reference node. -/
def adjustJunctionForGroups (junctionMain refX refY : ℚ)
    (groups : List PositionedGroup) (direction : Direction) : ℚ :=
  let GAP : ℚ := 12
  let isLR := direction == .LR
  let isRL := direction == .RL
  let isBT := direction == .BT
  let isHorizontal := isLR || isRL
  let refGroupIds := (findGroupsContainingPoint refX refY groups).map (·.id)
  let probeX := if isHorizontal then junctionMain else refX
  let probeY := if isHorizontal then refY else junctionMain
  let junctionGroups := findGroupsContainingPoint probeX probeY groups
  match junctionGroups.find? (fun g => !(refGroupIds.contains g.id)) with
  | none => junctionMain
  | some crossingGroup =>
      if isLR then crossingGroup.x - GAP
      else if isRL then crossingGroup.x + crossingGroup.width + GAP
      else if isBT then crossingGroup.y + crossingGroup.height + GAP
      else crossingGroup.y - GAP

/-- Last-wins lookup modelling `new Map(nodes.map(n => [n.id, n])).get(id)`. -/
def nodeMapGet (nodes : List PositionedNode) (id : String) :
    Option PositionedNode :=
  mapGetLast (nodes.map (fun n => (n.id, n))) id

/-- The fan-out grouping `fanOutGroups` (self-loops excluded), as edge indices
per source in insertion order. -/
def groupBySource (edges : List PositionedEdge) : StrMap (List ℕ) :=
  edges.enum.foldl
    (fun acc ie =>
      if ie.2.source == ie.2.target then acc
      else pushEntry acc ie.2.source ie.1) []

/-- The fan-in grouping `fanInGroups` (already-bundled edges and self-loops
excluded). -/
def groupByTarget (processed : List ℕ) (edges : List PositionedEdge) :
    StrMap (List ℕ) :=
  edges.enum.foldl
    (fun acc ie =>
      if processed.contains ie.1 || ie.2.source == ie.2.target then acc
      else pushEntry acc ie.2.target ie.1) []

/-- Replace the point list of the edge at one index. -/
def updatePointsAt (edges : List PositionedEdge) (i : ℕ) (pts : List Point) :
    List PositionedEdge :=
  edges.mapIdx (fun j e => if j == i then { e with points := pts } else e)

/-- Processing of one fan-out group of `bundleEdgePaths`: skip when fewer than
two members, mixed styles, a labeled member, an unknown source node, or fewer
than two forward targets; otherwise rewrite every forward edge to the shared
4-point trunk path and mark it processed. -/
def processFanOutGroup (nodes : List PositionedNode)
    (groups : List PositionedGroup) (direction : Direction)
    (st : List PositionedEdge × List ℕ) (entry : String × List ℕ) :
    List PositionedEdge × List ℕ :=
  let (edges, processed) := st
  let (sourceId, idxs) := entry
  let group := idxs.filterMap (fun i => (edges[i]?).map (fun e => (i, e)))
  match group with
  | [] => st
  | (_, e0) :: _ =>
    if group.length < 2 then st
    else
      let style := e0.style
      if group.any (fun g => jsTruthy g.2.label || g.2.style != style) then st
      else
        match nodeMapGet nodes sourceId with
        | none => st
        | some source =>
          let isLR := direction == .LR
          let isRL := direction == .RL
          let isBT := direction == .BT
          let isHorizontal := isLR || isRL
          let forward := group.filterMap (fun g =>
            match nodeMapGet nodes g.2.target with
            | none => none
            | some t =>
                let ok :=
                  if isLR then decide (source.x + source.width < t.x)
                  else if isRL then decide (t.x + t.width < source.x)
                  else if isBT then decide (t.y + t.height < source.y)
                  else decide (source.y + source.height < t.y)
                if ok then some (g.1, g.2, t) else none)
          match forward with
          | [] => st
          | f0 :: frest =>
            if forward.length < 2 then st
            else
              let srcCX := source.x + source.width / 2
              let srcCY := source.y + source.height / 2
              if isHorizontal then
                let exitX := if isLR then source.x + source.width else source.x
                let exitY := srcCY
                let nearestX :=
                  if isLR then qListMin f0.2.2.x (frest.map (fun f => f.2.2.x))
                  else qListMax (f0.2.2.x + f0.2.2.width)
                    (frest.map (fun f => f.2.2.x + f.2.2.width))
                let junctionX := adjustJunctionForGroups
                  (exitX + (nearestX - exitX) / 2) srcCX srcCY groups direction
                forward.foldl (fun st' fwd =>
                  let entryX := if isLR then fwd.2.2.x else fwd.2.2.x + fwd.2.2.width
                  let entryY := fwd.2.2.y + fwd.2.2.height / 2
                  (updatePointsAt st'.1 fwd.1
                    [⟨exitX, exitY⟩, ⟨junctionX, exitY⟩,
                     ⟨junctionX, entryY⟩, ⟨entryX, entryY⟩],
                   st'.2 ++ [fwd.1])) (edges, processed)
              else
                let exitX := srcCX
                let exitY := if isBT then source.y else source.y + source.height
                let nearestY :=
                  if isBT then qListMax (f0.2.2.y + f0.2.2.height)
                    (frest.map (fun f => f.2.2.y + f.2.2.height))
                  else qListMin f0.2.2.y (frest.map (fun f => f.2.2.y))
                let junctionY := adjustJunctionForGroups
                  (exitY + (nearestY - exitY) / 2) srcCX srcCY groups direction
                forward.foldl (fun st' fwd =>
                  let entryX := fwd.2.2.x + fwd.2.2.width / 2
                  let entryY := if isBT then fwd.2.2.y + fwd.2.2.height else fwd.2.2.y
                  (updatePointsAt st'.1 fwd.1
                    [⟨exitX, exitY⟩, ⟨exitX, junctionY⟩,
                     ⟨entryX, junctionY⟩, ⟨entryX, entryY⟩],
                   st'.2 ++ [fwd.1])) (edges, processed)

/-- Processing of one fan-in group of `bundleEdgePaths` (mirror geometry;
fan-in does not mark edges processed). -/
def processFanInGroup (nodes : List PositionedNode)
    (groups : List PositionedGroup) (direction : Direction)
    (st : List PositionedEdge × List ℕ) (entry : String × List ℕ) :
    List PositionedEdge × List ℕ :=
  let (edges, processed) := st
  let (targetId, idxs) := entry
  let group := idxs.filterMap (fun i => (edges[i]?).map (fun e => (i, e)))
  match group with
  | [] => st
  | (_, e0) :: _ =>
    if group.length < 2 then st
    else
      let style := e0.style
      if group.any (fun g => jsTruthy g.2.label || g.2.style != style) then st
      else
        match nodeMapGet nodes targetId with
        | none => st
        | some target =>
          let isLR := direction == .LR
          let isRL := direction == .RL
          let isBT := direction == .BT
          let isHorizontal := isLR || isRL
          let forward := group.filterMap (fun g =>
            match nodeMapGet nodes g.2.source with
            | none => none
            | some s =>
                let ok :=
                  if isLR then decide (s.x + s.width < target.x)
                  else if isRL then decide (target.x + target.width < s.x)
                  else if isBT then decide (target.y + target.height < s.y)
                  else decide (s.y + s.height < target.y)
                if ok then some (g.1, g.2, s) else none)
          match forward with
          | [] => st
          | f0 :: frest =>
            if forward.length < 2 then st
            else
              let tgtCX := target.x + target.width / 2
              let tgtCY := target.y + target.height / 2
              if isHorizontal then
                let entryX := if isLR then target.x else target.x + target.width
                let entryY := tgtCY
                let farthestX :=
                  if isLR then qListMax (f0.2.2.x + f0.2.2.width)
                    (frest.map (fun f => f.2.2.x + f.2.2.width))
                  else qListMin f0.2.2.x (frest.map (fun f => f.2.2.x))
                let junctionX := adjustJunctionForGroups
                  (farthestX + (entryX - farthestX) / 2) tgtCX tgtCY groups direction
                forward.foldl (fun st' fwd =>
                  let exitX := if isLR then fwd.2.2.x + fwd.2.2.width else fwd.2.2.x
                  let exitY := fwd.2.2.y + fwd.2.2.height / 2
                  (updatePointsAt st'.1 fwd.1
                    [⟨exitX, exitY⟩, ⟨junctionX, exitY⟩,
                     ⟨junctionX, entryY⟩, ⟨entryX, entryY⟩],
                   st'.2)) (edges, processed)
              else
                let entryX := tgtCX
                let entryY := if isBT then target.y + target.height else target.y
                let farthestY :=
                  if isBT then qListMin f0.2.2.y (frest.map (fun f => f.2.2.y))
                  else qListMax (f0.2.2.y + f0.2.2.height)
                    (frest.map (fun f => f.2.2.y + f.2.2.height))
                let junctionY := adjustJunctionForGroups
                  (farthestY + (entryY - farthestY) / 2) tgtCX tgtCY groups direction
                forward.foldl (fun st' fwd =>
                  let exitX := fwd.2.2.x + fwd.2.2.width / 2
                  let exitY := if isBT then fwd.2.2.y else fwd.2.2.y + fwd.2.2.height
                  (updatePointsAt st'.1 fwd.1
                    [⟨exitX, exitY⟩, ⟨exitX, junctionY⟩,
                     ⟨entryX, junctionY⟩, ⟨entryX, entryY⟩],
                   st'.2)) (edges, processed)

/-- `bundleEdgePaths(edges, nodes, groups, direction)`: the fan-out sub-pass,
then the fan-in sub-pass over the edges the fan-out pass did not rewrite. -/
def bundleEdgePaths (edges : List PositionedEdge) (nodes : List PositionedNode)
    (groups : List PositionedGroup) (direction : Direction) :
    List PositionedEdge :=
  let fanOut := groupBySource edges
  let st := fanOut.foldl (processFanOutGroup nodes groups direction) (edges, [])
  let fanIn := groupByTarget st.2 st.1
  (fanIn.foldl (processFanInGroup nodes groups direction) st).1

-- ============================================================================
-- `elkToPositioned` and `layoutGraphSync`
-- ============================================================================

/-- One point of the final-bounds loop of `elkToPositioned`: expand the
canvas to cover `p + arrowhead margin + padding` on the positive side. -/
def pointBoundStep (arrowMargin padding : ℚ) (wh : ℚ × ℚ) (p : Point) : ℚ × ℚ :=
  (max wh.1 (p.x + arrowMargin + padding), max wh.2 (p.y + arrowMargin + padding))

/-- One edge of the final-bounds loop of `elkToPositioned`: all its points,
then its label anchor with the fixed 60-by-20 label extent. -/
def edgeBoundStep (arrowMargin padding : ℚ) (wh : ℚ × ℚ)
    (edge : PositionedEdge) : ℚ × ℚ :=
  let wh := edge.points.foldl (pointBoundStep arrowMargin padding) wh
  match edge.labelPosition with
  | some l => (max wh.1 (l.x + 60 + padding), max wh.2 (l.y + 20 + padding))
  | none => wh

/-- `elkToPositioned(elkResult, graph, mergeEdges)`.  `clip` stands for the
external `clipEdgeToShape(points, node, isSourceEnd)` collaborator,
`arrowMargin` for `ARROW_HEAD.width` from the styles module, and `sqrtQ` for
`Math.sqrt` inside the label-midpoint computation. -/
def elkToPositioned (clip : List Point → PositionedNode → Bool → List Point)
    (sqrtℚ : ℚ → ℚ) (arrowMargin : ℚ)
    (elkResult : ElkNodeOut) (graph : MermaidGraph) (mergeEdges : Bool) :
    PositionedGraph :=
  let subgraphIds := allSubgraphIdsList graph.subgraphs
  let ng := extractNodesAndGroups graph subgraphIds elkResult 0 0
  let nodes0 := ng.1
  let groups := ng.2
  let margins := computeMargins (flattenGroupBounds groups)
  let edges0 := extractEdgesRecursively sqrtℚ elkResult graph margins
  let ne := alignLayerNodes nodes0 edges0 graph.direction
  let nodes := ne.1
  let edges1 := ne.2
  let edges2 :=
    if mergeEdges then bundleEdgePaths edges1 nodes groups graph.direction
    else edges1
  let edges3 := edges2.map (fun edge =>
    let pts := match nodeMapGet nodes edge.source with
      | some sourceNode => clip edge.points sourceNode true
      | none => edge.points
    let pts := match nodeMapGet nodes edge.target with
      | some targetNode => clip pts targetNode false
      | none => pts
    { edge with points := pts })
  let wh := edges3.foldl (edgeBoundStep arrowMargin DEFAULTS.padding)
    (elkResult.width.getD 800, elkResult.height.getD 600)
  { width := wh.1, height := wh.2, nodes := nodes, edges := edges3,
    groups := groups }

/-- `layoutGraphSync(graph, options)`: resolve options against `DEFAULTS`,
convert, invoke the (external, synchronous) solver, and convert back with
`DEFAULTS.mergeEdges`. -/
def layoutGraphSync (solver : ElkGraphNode → ElkNodeOut)
    (clip : List Point → PositionedNode → Bool → List Point)
    (sqrtℚ : ℚ → ℚ) (arrowMargin : ℚ)
    (estSize : String → String → NodeShape → ℚ × ℚ)
    (measureEdgeLabel : String → ℚ × ℚ)
    (graph : MermaidGraph) (options : RenderOptions) : PositionedGraph :=
  let opts := resolveOpts options
  let elkGraph := mermaidToElk estSize measureEdgeLabel graph opts
  let result := solver elkGraph
  elkToPositioned clip sqrtℚ arrowMargin result graph DEFAULTS.mergeEdges

-- ============================================================================
-- Cross-implementation interchange contract (types contract adapter)
-- ============================================================================

/-- `MAX_SUBGRAPH_CONTRACT_DEPTH`. -/
def MAX_SUBGRAPH_CONTRACT_DEPTH : ℕ := 256

/-- `MAX_GROUP_CONTRACT_DEPTH`. -/
def MAX_GROUP_CONTRACT_DEPTH : ℕ := 256

/-- `isIntegerLikeKey` — the regex test `/^\d+$/`. -/
def isIntegerLikeKey (key : String) : Bool :=
  !key.toList.isEmpty && key.toList.all Char.isDigit

/-- `mapToRecord`: a `Map` serialized as a `Record` preserving insertion order
(both are association lists here); throws on the first integer-like key, whose
native `Record` iteration order would not be stable. -/
def mapToRecord {α : Type} (m : StrMap α) : Except String (StrMap α) :=
  match m.find? (fun e => isIntegerLikeKey e.1) with
  | some e => .error ("integer-like map key " ++ e.1)
  | none => .ok m

/-- `recordToMap` (`new Map(Object.entries(record))`): with no integer-like
keys, `Record` iteration order is insertion order, so this is the identity on
the association-list model. -/
def recordToMap {α : Type} (m : StrMap α) : StrMap α := m

mutual
/-- `cloneMermaidSubgraphTree`: a deep structural clone — the identity in
value semantics (the `direction !== undefined` conditional is exactly the
`Option` copy) — that throws when any node sits at depth > 256.  The source
walks an explicit stack checking `frame.depth > MAX_SUBGRAPH_CONTRACT_DEPTH`
on every popped frame; a frame exists for every node of the tree, so the
error fires exactly when some node is nested deeper than the limit, which is
what this structural recursion with the same depth counter computes. -/
def cloneMermaidSubgraphTree : MermaidSubgraph → ℕ → Except String MermaidSubgraph
  | .mk id label nodeIds children dir, depth =>
      if MAX_SUBGRAPH_CONTRACT_DEPTH < depth then
        .error "subgraph depth exceeds limit"
      else
        match cloneMermaidSubgraphList children (depth + 1) with
        | .ok cs => .ok (.mk id label nodeIds cs dir)
        | .error e => .error e
def cloneMermaidSubgraphList :
    List MermaidSubgraph → ℕ → Except String (List MermaidSubgraph)
  | [], _ => .ok []
  | c :: cs, depth =>
      match cloneMermaidSubgraphTree c depth with
      | .error e => .error e
      | .ok c2 =>
          match cloneMermaidSubgraphList cs depth with
          | .error e => .error e
          | .ok cs2 => .ok (c2 :: cs2)
end

/-- `toMermaidSubgraphContract`. -/
def toMermaidSubgraphContract (sg : MermaidSubgraph) :
    Except String MermaidSubgraph :=
  cloneMermaidSubgraphTree sg 0

/-- `fromMermaidSubgraphContract`. -/
def fromMermaidSubgraphContract (sg : MermaidSubgraph) :
    Except String MermaidSubgraph :=
  cloneMermaidSubgraphTree sg 0

/-- The per-edge copy of `toMermaidGraphContract` /
`fromMermaidGraphContract`: all required fields copied, the optional `label`
assigned only when present — i.e. the `Option` is copied and an absent label
stays absent (never an explicit null). -/
def cloneMermaidEdge (edge : MermaidEdge) : MermaidEdge :=
  { source := edge.source, target := edge.target, style := edge.style,
    hasArrowStart := edge.hasArrowStart, hasArrowEnd := edge.hasArrowEnd,
    label := edge.label }

/-- The contract form of a `MermaidGraph` (`MermaidGraphContract`): the same
shape with `Record`s in place of `Map`s, which the association-list model
shares. -/
structure MermaidGraphContract where
  direction : Direction
  nodes : StrMap MermaidNode
  edges : List MermaidEdge
  subgraphs : List MermaidSubgraph
  classDefs : StrMap (StrMap String)
  classAssignments : StrMap String
  nodeStyles : StrMap (StrMap String)

/-- `toMermaidGraphContract(graph)`: field order as in the source object
literal; `mapToRecord` throws on integer-like keys and the subgraph clone
throws past the depth limit. -/
def toMermaidGraphContract (graph : MermaidGraph) :
    Except String MermaidGraphContract := do
  let nodes ← mapToRecord graph.nodes
  let edges := graph.edges.map cloneMermaidEdge
  let subgraphs ← cloneMermaidSubgraphList graph.subgraphs 0
  let classDefs ← mapToRecord graph.classDefs
  let classAssignments ← mapToRecord graph.classAssignments
  let nodeStyles ← mapToRecord graph.nodeStyles
  return { direction := graph.direction, nodes := nodes, edges := edges,
           subgraphs := subgraphs, classDefs := classDefs,
           classAssignments := classAssignments, nodeStyles := nodeStyles }

/-- `fromMermaidGraphContract(contract)`: `recordToMap` restores the maps in
iteration order; the subgraph clone re-runs with the same depth guard. -/
def fromMermaidGraphContract (contract : MermaidGraphContract) :
    Except String MermaidGraph := do
  let subgraphs ← cloneMermaidSubgraphList contract.subgraphs 0
  return { direction := contract.direction,
           nodes := recordToMap contract.nodes,
           edges := contract.edges.map cloneMermaidEdge,
           subgraphs := subgraphs,
           classDefs := recordToMap contract.classDefs,
           classAssignments := recordToMap contract.classAssignments,
           nodeStyles := recordToMap contract.nodeStyles }

mutual
/-- `toPositionedGroupContract` / `fromPositionedGroupContract`: a plain
recursive clone (no depth guard on this side). -/
def toPositionedGroupContract : PositionedGroup → PositionedGroup
  | .mk id label x y w h cs => .mk id label x y w h (toPositionedGroupContractList cs)
def toPositionedGroupContractList : List PositionedGroup → List PositionedGroup
  | [] => []
  | c :: cs => toPositionedGroupContract c :: toPositionedGroupContractList cs
end

/-- The per-node copy of the positioned contract: required fields copied,
`inlineStyle` assigned only when present. -/
def clonePositionedNode (node : PositionedNode) : PositionedNode :=
  { id := node.id, label := node.label, shape := node.shape, x := node.x,
    y := node.y, width := node.width, height := node.height,
    inlineStyle := node.inlineStyle }

/-- The per-edge copy of the positioned contract: `points` cloned point by
point, the optional `label` and `labelPosition` assigned only when present. -/
def clonePositionedEdge (edge : PositionedEdge) : PositionedEdge :=
  { source := edge.source, target := edge.target, label := edge.label,
    style := edge.style, hasArrowStart := edge.hasArrowStart,
    hasArrowEnd := edge.hasArrowEnd,
    points := edge.points.map (fun p => (⟨p.x, p.y⟩ : Point)),
    labelPosition := edge.labelPosition.map (fun p => (⟨p.x, p.y⟩ : Point)) }

/-- `toPositionedGraphContract(graph)` (the contract shape coincides with
`PositionedGraph` in the model). -/
def toPositionedGraphContract (graph : PositionedGraph) : PositionedGraph :=
  { width := graph.width, height := graph.height,
    nodes := graph.nodes.map clonePositionedNode,
    edges := graph.edges.map clonePositionedEdge,
    groups := graph.groups.map toPositionedGroupContract }

/-- `fromPositionedGraphContract(contract)`. -/
def fromPositionedGraphContract (contract : PositionedGraph) : PositionedGraph :=
  { width := contract.width, height := contract.height,
    nodes := contract.nodes.map clonePositionedNode,
    edges := contract.edges.map clonePositionedEdge,
    groups := contract.groups.map toPositionedGroupContract }

mutual
/-- Number of nesting levels of a subgraph tree (a leaf counts 1); a node at
depth d (root = 0) exists iff the height exceeds d. -/
def subgraphHeight : MermaidSubgraph → ℕ
  | .mk _ _ _ cs _ => 1 + subgraphListHeight cs
def subgraphListHeight : List MermaidSubgraph → ℕ
  | [] => 0
  | c :: cs => max (subgraphHeight c) (subgraphListHeight cs)
end

mutual
/-- Number of nesting levels of a positioned group tree. -/
def groupHeight : PositionedGroup → ℕ
  | .mk _ _ _ _ _ _ cs => 1 + groupListHeight cs
def groupListHeight : List PositionedGroup → ℕ
  | [] => 0
  | c :: cs => max (groupHeight c) (groupListHeight cs)
end

/-- A straight chain of nested subgraphs with n+1 levels. -/
def chainSg : ℕ → MermaidSubgraph
  | 0 => .mk "g" "" [] [] none
  | n + 1 => .mk "g" "" [] [chainSg n] none

/-- A straight chain of nested positioned groups with n+1 levels. -/
def chainGroup : ℕ → PositionedGroup
  | 0 => .mk "g" "" 0 0 10 10 []
  | n + 1 => .mk "g" "" 0 0 10 10 [chainGroup n]

-- ============================================================================
-- Contract validators over dynamic values (`isMermaidSubgraphContract`,
-- `isPositionedGroupContract`)
-- ============================================================================

/-- A JS `unknown` value as the validators see it (JSON-like; `num` carries a
rational, so the non-finite doubles rejected by `isFiniteNumber` have no
representation and `isFiniteNumber` holds of every `num`). -/
inductive UVal where
  | null
  | bool (b : Bool)
  | num (q : ℚ)
  | str (s : String)
  | arr (items : List UVal)
  | obj (fields : List (String × UVal))

/-- `isPlainObject`. -/
def isPlainObject : UVal → Bool
  | .obj _ => true
  | _ => false

/-- Property access `value.k` on a plain object (`none` = `undefined`). -/
def getField (fields : List (String × UVal)) (k : String) : Option UVal :=
  (fields.find? (fun e => e.1 == k)).map (·.2)

/-- `isDirection` on a dynamic value. -/
def isDirectionU : UVal → Bool
  | .str s => ["TD", "TB", "LR", "BT", "RL"].contains s
  | _ => false

/-- `typeof value === "string"`. -/
def isStrU : UVal → Bool
  | .str _ => true
  | _ => false

/-- `isFiniteNumber` on a dynamic value. -/
def isFiniteNumberU : UVal → Bool
  | .num _ => true
  | _ => false

mutual
/-- Structural size of a dynamic value (the derived `sizeOf` of a nested
inductive is not executable, so the measure is defined by hand). -/
def uvalSize : UVal → ℕ
  | .null => 1
  | .bool _ => 1
  | .num _ => 1
  | .str _ => 1
  | .arr items => 1 + uvalListSize items
  | .obj fields => 1 + uvalFieldsSize fields
def uvalListSize : List UVal → ℕ
  | [] => 0
  | v :: vs => uvalSize v + uvalListSize vs
def uvalFieldsSize : List (String × UVal) → ℕ
  | [] => 0
  | f :: fs => uvalSize f.2 + uvalFieldsSize fs
end

/-- Total size of the values still on a validator work stack (the measure of
the stack walk). -/
def stackMeasure : List (UVal × ℕ) → ℕ
  | [] => 0
  | f :: r => uvalSize f.1 + stackMeasure r

/-- The stack walk of `isMermaidSubgraphContract`: pop a frame, reject past
the depth limit or on any malformed field, and push every child with
depth + 1 (children are pushed in order, so they pop in reverse — the result
is order-independent, but the traversal is kept faithful). -/
def isMermaidSubgraphStack : List (UVal × ℕ) → Bool
  | [] => true
  | (v, depth) :: rest =>
    match v with
    | .obj fields =>
      if MAX_SUBGRAPH_CONTRACT_DEPTH < depth then false
      else if !isStrU ((getField fields "id").getD .null) then false
      else if !isStrU ((getField fields "label").getD .null) then false
      else if !(match getField fields "nodeIds" with
                | some (.arr ids) => ids.all isStrU
                | _ => false) then false
      else
        match _hc : getField fields "children" with
        | some (.arr cs) =>
            if !(match getField fields "direction" with
                 | none => true
                 | some d => isDirectionU d) then false
            else if cs.all isPlainObject then
              isMermaidSubgraphStack (cs.reverse.map (fun c => (c, depth + 1)) ++ rest)
            else false
        | _ => false
    | _ => false
termination_by stack => stackMeasure stack
decreasing_by
  rename_i fields _h1 _h2 _h3 _h4 _h5 _h6
  have hApp : ∀ (a b : List (UVal × ℕ)),
      stackMeasure (a ++ b) = stackMeasure a + stackMeasure b := by
    intro a b
    induction a with
    | nil => simp [stackMeasure]
    | cons f r ih => simp [stackMeasure, ih]; ring
  have hMap : ∀ (l : List UVal) (d : ℕ),
      stackMeasure (l.map (fun c => (c, d))) = uvalListSize l := by
    intro l d
    induction l with
    | nil => simp [stackMeasure, uvalListSize]
    | cons v vs ih => simp [stackMeasure, uvalListSize, ih]
  have hSizeApp : ∀ (a b : List UVal),
      uvalListSize (a ++ b) = uvalListSize a + uvalListSize b := by
    intro a b
    induction a with
    | nil => simp [uvalListSize]
    | cons v vs ih => simp [uvalListSize, ih]; ring
  have hRev : ∀ (l : List UVal), uvalListSize l.reverse = uvalListSize l := by
    intro l
    induction l with
    | nil => rfl
    | cons v vs ih => simp [List.reverse_cons, hSizeApp, uvalListSize, ih]; ring
  have hFieldMem : ∀ (fs : List (String × UVal)) (e : String × UVal), e ∈ fs →
      uvalSize e.2 ≤ uvalFieldsSize fs := by
    intro fs
    induction fs with
    | nil => intro e h; cases h
    | cons f fs ih =>
        intro e h
        rcases List.mem_cons.mp h with h1 | h2
        · subst h1; simp [uvalFieldsSize]
        · have := ih e h2; simp [uvalFieldsSize]; omega
  have hcMem : uvalSize (UVal.arr cs) ≤ uvalFieldsSize fields := by
    have h1 := _hc
    unfold getField at h1
    cases hfind : fields.find? (fun e => e.1 == "children") with
    | none => rw [hfind] at h1; simp at h1
    | some e =>
        rw [hfind] at h1
        simp at h1
        have hmem := List.mem_of_find?_eq_some hfind
        have := hFieldMem fields e hmem
        rw [h1] at this
        exact this
  simp only [hApp, hMap, hRev]
  have harr : uvalSize (UVal.arr cs) = 1 + uvalListSize cs := rfl
  have hobj : uvalSize (UVal.obj fields) = 1 + uvalFieldsSize fields := rfl
  simp only [stackMeasure]
  omega

/-- `isMermaidSubgraphContract(value)`. -/
def isMermaidSubgraphContract (value : UVal) : Bool :=
  isPlainObject value && isMermaidSubgraphStack [(value, 0)]

/-- The stack walk of `isPositionedGroupContract`: same depth-guarded
traversal with the positioned-group field checks. -/
def isPositionedGroupStack : List (UVal × ℕ) → Bool
  | [] => true
  | (v, depth) :: rest =>
    match v with
    | .obj fields =>
      if MAX_GROUP_CONTRACT_DEPTH < depth then false
      else if !isStrU ((getField fields "id").getD .null) then false
      else if !isStrU ((getField fields "label").getD .null) then false
      else if !isFiniteNumberU ((getField fields "x").getD .null) then false
      else if !isFiniteNumberU ((getField fields "y").getD .null) then false
      else if !isFiniteNumberU ((getField fields "width").getD .null) then false
      else if !isFiniteNumberU ((getField fields "height").getD .null) then false
      else
        match _hc : getField fields "children" with
        | some (.arr cs) =>
            if cs.all isPlainObject then
              isPositionedGroupStack (cs.reverse.map (fun c => (c, depth + 1)) ++ rest)
            else false
        | _ => false
    | _ => false
termination_by stack => stackMeasure stack
decreasing_by
  rename_i fields _h1 _h2 _h3 _h4 _h5 _h6 _h7 _h8
  have hApp : ∀ (a b : List (UVal × ℕ)),
      stackMeasure (a ++ b) = stackMeasure a + stackMeasure b := by
    intro a b
    induction a with
    | nil => simp [stackMeasure]
    | cons f r ih => simp [stackMeasure, ih]; ring
  have hMap : ∀ (l : List UVal) (d : ℕ),
      stackMeasure (l.map (fun c => (c, d))) = uvalListSize l := by
    intro l d
    induction l with
    | nil => simp [stackMeasure, uvalListSize]
    | cons v vs ih => simp [stackMeasure, uvalListSize, ih]
  have hSizeApp : ∀ (a b : List UVal),
      uvalListSize (a ++ b) = uvalListSize a + uvalListSize b := by
    intro a b
    induction a with
    | nil => simp [uvalListSize]
    | cons v vs ih => simp [uvalListSize, ih]; ring
  have hRev : ∀ (l : List UVal), uvalListSize l.reverse = uvalListSize l := by
    intro l
    induction l with
    | nil => rfl
    | cons v vs ih => simp [List.reverse_cons, hSizeApp, uvalListSize, ih]; ring
  have hFieldMem : ∀ (fs : List (String × UVal)) (e : String × UVal), e ∈ fs →
      uvalSize e.2 ≤ uvalFieldsSize fs := by
    intro fs
    induction fs with
    | nil => intro e h; cases h
    | cons f fs ih =>
        intro e h
        rcases List.mem_cons.mp h with h1 | h2
        · subst h1; simp [uvalFieldsSize]
        · have := ih e h2; simp [uvalFieldsSize]; omega
  have hcMem : uvalSize (UVal.arr cs) ≤ uvalFieldsSize fields := by
    have h1 := _hc
    unfold getField at h1
    cases hfind : fields.find? (fun e => e.1 == "children") with
    | none => rw [hfind] at h1; simp at h1
    | some e =>
        rw [hfind] at h1
        simp at h1
        have hmem := List.mem_of_find?_eq_some hfind
        have := hFieldMem fields e hmem
        rw [h1] at this
        exact this
  simp only [hApp, hMap, hRev]
  have harr : uvalSize (UVal.arr cs) = 1 + uvalListSize cs := rfl
  have hobj : uvalSize (UVal.obj fields) = 1 + uvalFieldsSize fields := rfl
  simp only [stackMeasure]
  omega

/-- `isPositionedGroupContract(value)`. -/
def isPositionedGroupContract (value : UVal) : Bool :=
  isPlainObject value && isPositionedGroupStack [(value, 0)]

/-- The serialized string of a `Direction`. -/
def dirString : Direction → String
  | .TD => "TD"
  | .TB => "TB"
  | .LR => "LR"
  | .BT => "BT"
  | .RL => "RL"

mutual
/-- The dynamic-value encoding of a well-formed subgraph contract payload
(the optional `direction` field is omitted when absent). -/
def encodeSubgraph : MermaidSubgraph → UVal
  | .mk id label nodeIds children dir =>
      .obj ([("id", .str id), ("label", .str label),
             ("nodeIds", .arr (nodeIds.map UVal.str)),
             ("children", .arr (encodeSubgraphList children))]
        ++ (match dir with
            | some d => [("direction", .str (dirString d))]
            | none => []))
def encodeSubgraphList : List MermaidSubgraph → List UVal
  | [] => []
  | c :: cs => encodeSubgraph c :: encodeSubgraphList cs
end

mutual
/-- The dynamic-value encoding of a well-formed positioned-group contract
payload. -/
def encodeGroup : PositionedGroup → UVal
  | .mk id label x y w h children =>
      .obj [("id", .str id), ("label", .str label), ("x", .num x),
            ("y", .num y), ("width", .num w), ("height", .num h),
            ("children", .arr (encodeGroupList children))]
def encodeGroupList : List PositionedGroup → List UVal
  | [] => []
  | c :: cs => encodeGroup c :: encodeGroupList cs
end

/-- `c` is an element of the `children` array of the plain object `p` (one
step of contract-tree nesting). -/
def childOfU (c p : UVal) : Prop :=
  ∃ fields cs, p = .obj fields ∧ getField fields "children" = some (.arr cs)
    ∧ c ∈ cs

/-- `w` lies exactly `n` nesting levels below `v` in the children tree. -/
def descendsU : ℕ → UVal → UVal → Prop
  | 0, v, w => v = w
  | n + 1, v, w => ∃ c, childOfU c v ∧ descendsU n c w

-- ============================================================================
-- Claim-side predicates and concrete instances used by the verification
-- ============================================================================

mutual
/-- The claim-level reading of "any group at any nesting depth declares a
direction override" (the source only scans top-level subgraphs). -/
def subgraphAnyDirection : MermaidSubgraph → Bool
  | .mk _ _ _ cs d => d.isSome || subgraphListAnyDirection cs
def subgraphListAnyDirection : List MermaidSubgraph → Bool
  | [] => false
  | c :: cs => subgraphAnyDirection c || subgraphListAnyDirection cs
end

/-- `x` and `y` are the endpoints of some edge (in either orientation). -/
def edgeBetween (edges : List PositionedEdge) (x y : String) : Prop :=
  ∃ e ∈ edges, (e.source = x ∧ e.target = y) ∨ (e.source = y ∧ e.target = x)

/-- The post-alignment flow position of one member of one layer: the snap
target when the layer snaps and the member moved farther than 0.5, its old
position otherwise. -/
def snapResult (isHorizontal : Bool) (L : List PositionedNode)
    (x : PositionedNode) : ℚ :=
  match layerSnapTarget isHorizontal L with
  | some t => if 1 / 2 < |t - flowPos isHorizontal x| then t
              else flowPos isHorizontal x
  | none => flowPos isHorizontal x

/-- A concrete sizing function standing in for the external node sizing. -/
def constSize : String → String → NodeShape → ℚ × ℚ := fun _ _ _ => (60, 36)

/-- A concrete edge-label measurement function. -/
def constMeasure : String → ℚ × ℚ := fun _ => (40, 14)

/-- The resolved default layout options. -/
def optsDefault : LayoutOpts :=
  { font := "Inter", padding := 40, nodeSpacing := 28, layerSpacing := 48 }

/-- An identity shape clipper instance (a legal `ShapeClipper` collaborator;
the counterexample runs never reach it because their edges have dangling
endpoints). -/
def idClip : List Point → PositionedNode → Bool → List Point := fun pts _ _ => pts

/-- A concrete stand-in for `Math.sqrt` (never forced by the concrete runs,
which have no edge labels). -/
def trivSqrt : ℚ → ℚ := fun q => q

/-- C1 counterexample graph: a top-level group with no direction override
whose nested child group declares one. -/
def c1graph : MermaidGraph :=
  { direction := .TD, nodes := [], edges := [],
    subgraphs := [.mk "outer" "" [] [.mk "inner" "" [] [] (some .LR)] none],
    classDefs := [], classAssignments := [], nodeStyles := [] }

/-- C2 counterexample graph: one group (so margins exist) and two unlabeled
edges with dangling endpoints. -/
def c2graph : MermaidGraph :=
  { direction := .TD, nodes := [],
    edges :=
      [{ source := "x", target := "y", label := none, style := .solid,
         hasArrowStart := false, hasArrowEnd := true },
       { source := "z", target := "w", label := none, style := .solid,
         hasArrowStart := false, hasArrowEnd := true }],
    subgraphs := [.mk "g" "" [] [] none],
    classDefs := [], classAssignments := [], nodeStyles := [] }

/-- C2 counterexample solver result: the group box at (5,5) 50x50 and two
diagonal root-level edge sections. -/
def c2result : ElkNodeOut :=
  .mk "root" (some 0) (some 0) (some 100) (some 100)
    [.mk "g" (some 5) (some 5) (some 50) (some 50) [] []]
    [{ id := "e0", sources := ["x"], targets := ["y"],
       sections := [{ startPoint := ⟨0, 0⟩, bendPoints := [],
                      endPoint := ⟨30, 40⟩ }] },
     { id := "e1", sources := ["z"], targets := ["w"],
       sections := [{ startPoint := ⟨0, 50⟩, bendPoints := [],
                      endPoint := ⟨30, 90⟩ }] }]

/-- C3 counterexample graph: two unconnected nodes. -/
def c3graph : MermaidGraph :=
  { direction := .TD,
    nodes := [("a", { id := "a", label := "A", shape := "rectangle" }),
              ("b", { id := "b", label := "B", shape := "rectangle" })],
    edges := [], subgraphs := [], classDefs := [], classAssignments := [],
    nodeStyles := [] }

/-- C3 counterexample solver result: the two nodes 50 units apart along the
flow axis. -/
def c3result : ElkNodeOut :=
  .mk "root" (some 0) (some 0) (some 200) (some 200)
    [.mk "a" (some 10) (some 0) (some 60) (some 36) [] [],
     .mk "b" (some 10) (some 50) (some 60) (some 36) [] []]
    []

/-- A constant solver returning the C3 result. -/
def c3solver : ElkGraphNode → ElkNodeOut := fun _ => c3result

/-- C3 counterexample render options: layer spacing configured to 100. -/
def c3options : RenderOptions := { layerSpacing := some 100 }

/-- C6 counterexample nodes: A and B above C and D. -/
def c6nodes : List PositionedNode :=
  [{ id := "A", label := "A", shape := "rectangle", x := 0, y := 0,
     width := 10, height := 10, inlineStyle := none },
   { id := "B", label := "B", shape := "rectangle", x := 20, y := 0,
     width := 10, height := 10, inlineStyle := none },
   { id := "C", label := "C", shape := "rectangle", x := 0, y := 50,
     width := 10, height := 10, inlineStyle := none },
   { id := "D", label := "D", shape := "rectangle", x := 20, y := 50,
     width := 10, height := 10, inlineStyle := none }]

/-- C6 counterexample edges: the fan-out group at A mixes styles (its second
member is dotted), while the fan-in group at C is uniform. -/
def c6edges : List PositionedEdge :=
  [{ source := "A", target := "C", label := none, style := .solid,
     hasArrowStart := false, hasArrowEnd := true,
     points := [⟨0, 0⟩, ⟨1, 1⟩], labelPosition := none },
   { source := "A", target := "D", label := none, style := .dotted,
     hasArrowStart := false, hasArrowEnd := true,
     points := [⟨2, 2⟩, ⟨3, 3⟩], labelPosition := none },
   { source := "B", target := "C", label := none, style := .solid,
     hasArrowStart := false, hasArrowEnd := true,
     points := [⟨4, 4⟩, ⟨5, 5⟩], labelPosition := none }]

/-- The fan-out sub-pass of `bundleEdgePaths` in isolation. -/
def fanOutPhase (edges : List PositionedEdge) (nodes : List PositionedNode)
    (groups : List PositionedGroup) (direction : Direction) :
    List PositionedEdge × List ℕ :=
  (groupBySource edges).foldl (processFanOutGroup nodes groups direction)
    (edges, [])

/-- The fan-in sub-pass of `bundleEdgePaths` in isolation. -/
def fanInPhase (st : List PositionedEdge × List ℕ)
    (nodes : List PositionedNode) (groups : List PositionedGroup)
    (direction : Direction) : List PositionedEdge × List ℕ :=
  (groupByTarget st.2 st.1).foldl (processFanInGroup nodes groups direction) st

/-- C8 counterexample: a graph whose only subgraph is a 258-level chain
(deepest node at depth 257 > 256), with no integer-like keys anywhere. -/
def c8deepGraph : MermaidGraph :=
  { direction := .TD, nodes := [], edges := [], subgraphs := [chainSg 257],
    classDefs := [], classAssignments := [], nodeStyles := [] }

/-- The "no integer-like keys in any map-like field" hypothesis of the
round-trip claim. -/
def noIntegerLikeKeys (g : MermaidGraph) : Bool :=
  g.nodes.all (fun e => !isIntegerLikeKey e.1)
    && g.classDefs.all (fun e => !isIntegerLikeKey e.1)
    && g.classAssignments.all (fun e => !isIntegerLikeKey e.1)
    && g.nodeStyles.all (fun e => !isIntegerLikeKey e.1)

/-- The per-node update performed by `alignLayerNodes` (the body of its
`nodes.map`), factored out. -/
def alignedNode (iH : Bool) (nodes : List PositionedNode)
    (edges : List PositionedEdge) (n : PositionedNode) : PositionedNode :=
  match mapGetLast
      (collectDeltas iH
        (buildLayers (connectedPairs edges) iH
          (nodes.mergeSort
            (fun x y => decide (flowPos iH x ≤ flowPos iH y)))))
      n.id with
  | some d => setFlowPos iH n (flowPos iH n + d)
  | none => n

/-- C5 witness nodes: two nodes ten units apart on the flow axis. -/
def c5nodes : List PositionedNode :=
  [{ id := "p", label := "P", shape := "rectangle", x := 0, y := 0,
     width := 10, height := 10, inlineStyle := none },
   { id := "q", label := "Q", shape := "rectangle", x := 0, y := 10,
     width := 10, height := 10, inlineStyle := none }]

/-- C5 witness edges: a single direct edge between the two nodes. -/
def c5edges : List PositionedEdge :=
  [{ source := "p", target := "q", label := none, style := .solid,
     hasArrowStart := false, hasArrowEnd := true,
     points := [⟨5, 10⟩, ⟨5, 10⟩], labelPosition := none }]

/-- C2 node-enclosure counterexample graph: a single leaf node. -/
def c2bgraph : MermaidGraph :=
  { direction := .TD,
    nodes := [("n", { id := "n", label := "N", shape := "rectangle" })],
    edges := [], subgraphs := [], classDefs := [], classAssignments := [],
    nodeStyles := [] }

/-- C2 node-enclosure counterexample solver result: the node box extends to
x = 260 while the reported root size is 100 by 100. -/
def c2bresult : ElkNodeOut :=
  .mk "root" (some 0) (some 0) (some 100) (some 100)
    [.mk "n" (some 200) (some 5) (some 60) (some 36) [] []] []

/-- C2 configured-padding counterexample options: padding set to 100. -/
def c2coptions : RenderOptions := { padding := some 100 }

/-- A wide edge-label measurement collaborator (300 units wide). -/
def bigMeasure : String → ℚ × ℚ := fun _ => (300, 14)

/-- C2 label-extent counterexample graph: one labeled edge with dangling
endpoints. -/
def c2dgraph : MermaidGraph :=
  { direction := .TD, nodes := [],
    edges := [{ source := "x", target := "y", label := some "L",
                style := .solid, hasArrowStart := false, hasArrowEnd := true }],
    subgraphs := [], classDefs := [], classAssignments := [], nodeStyles := [] }

/-- C2 label-extent counterexample solver result: a straight vertical edge
section with a 300-wide laid-out label at (50, 50). -/
def c2dresult : ElkNodeOut :=
  .mk "root" (some 0) (some 0) (some 100) (some 100) []
    [{ id := "e0", sources := ["x"], targets := ["y"],
       sections := [{ startPoint := ⟨0, 0⟩, bendPoints := [],
                      endPoint := ⟨0, 40⟩ }],
       labels := [{ x := some 50, y := some 50, width := some 300,
                    height := some 14 }] }]

-- ============================================================================
-- Theorems
-- ============================================================================

theorem orthoGo_sublist (margins : Option MarginInfo) (edgeIndex : ℕ) :
    ∀ (prev : Point) (rest : List Point),
      rest.Sublist (orthoGo margins edgeIndex prev rest)
  | _, [] => List.Sublist.refl _
  | prev, curr :: rest => by
      unfold orthoGo
      refine List.Sublist.trans
        (List.Sublist.cons₂ curr (orthoGo_sublist margins edgeIndex curr rest))
        (List.sublist_append_right _ _)

theorem orthoGo_getLast (margins : Option MarginInfo) (edgeIndex : ℕ) :
    ∀ (prev : Point) (rest : List Point), rest ≠ [] →
      (orthoGo margins edgeIndex prev rest).getLast? = rest.getLast?
  | _, [], h => absurd rfl h
  | prev, curr :: rest, _ => by
      unfold orthoGo
      cases rest with
      | nil =>
          show (_ ++ [curr]).getLast? = _
          rw [List.getLast?_concat]
          rfl
      | cons d r =>
          have ih := orthoGo_getLast margins edgeIndex curr (d :: r) (by simp)
          have hne : orthoGo margins edgeIndex curr (d :: r) ≠ [] := by
            intro hnil
            have hsub := orthoGo_sublist margins edgeIndex curr (d :: r)
            rw [hnil] at hsub
            exact absurd (List.eq_nil_of_sublist_nil hsub) (by simp)
          show (_ ++ curr :: orthoGo margins edgeIndex curr (d :: r)).getLast? = _
          rw [List.getLast?_append]
          obtain ⟨z, zs, hz⟩ := List.exists_cons_of_ne_nil hne
          rw [hz]
          rw [List.getLast?_cons_cons]
          have hsome : (d :: r).getLast?.isSome := by
            rw [List.getLast?_isSome]
            simp
          obtain ⟨v, hv⟩ := Option.isSome_iff_exists.mp hsome
          rw [hz] at ih
          rw [ih, hv, List.getLast?_cons_cons, hv]
          rfl

/-- C7: a point list with no diagonal consecutive pair — both absolute deltas
exceeding 1 — is returned unchanged by the orthogonal-repair operation, and
the change detector used by callers reports that repair did not run. -/
theorem claim_C7 (points : List Point) (margins : Option MarginInfo)
    (edgeIndex : ℕ) (h : anyDiagonal points = false) :
    orthogonalizeEdgePoints points margins edgeIndex = points
      ∧ orthoChanged points = false := by
  constructor
  · unfold orthogonalizeEdgePoints
    split
    · rfl
    · rw [h]
      simp
  · unfold orthoChanged
    rw [h]
    simp

/-- Witness for C7 at a concrete orthogonal path. -/
theorem claim_C7_witness :
    anyDiagonal [(⟨0, 0⟩ : Point), ⟨100, 0⟩, ⟨100, 50⟩] = false
      ∧ (orthogonalizeEdgePoints [(⟨0, 0⟩ : Point), ⟨100, 0⟩, ⟨100, 50⟩] none 0
          = [(⟨0, 0⟩ : Point), ⟨100, 0⟩, ⟨100, 50⟩]
        ∧ orthoChanged [(⟨0, 0⟩ : Point), ⟨100, 0⟩, ⟨100, 50⟩] = false) := by
  have h : anyDiagonal [(⟨0, 0⟩ : Point), ⟨100, 0⟩, ⟨100, 50⟩] = false := by
    norm_num [anyDiagonal, isDiagonalPair]
  exact ⟨h, claim_C7 _ none 0 h⟩

/-- C10: on any input with at least two points, orthogonal repair preserves
the first point, the last point, and every input point in order (the input is
a sublist of the output) — it only inserts intermediate bend points. -/
theorem claim_C10 (points : List Point) (margins : Option MarginInfo)
    (edgeIndex : ℕ) (h : 2 ≤ points.length) :
    (orthogonalizeEdgePoints points margins edgeIndex).head? = points.head?
      ∧ (orthogonalizeEdgePoints points margins edgeIndex).getLast?
          = points.getLast?
      ∧ points.Sublist (orthogonalizeEdgePoints points margins edgeIndex) := by
  unfold orthogonalizeEdgePoints
  split
  · exact ⟨rfl, rfl, List.Sublist.refl _⟩
  · split
    · exact ⟨rfl, rfl, List.Sublist.refl _⟩
    · match points, h with
      | p0 :: p1 :: rest, _ =>
          refine ⟨rfl, ?_, ?_⟩
          · have hgl := orthoGo_getLast margins edgeIndex p0 (p1 :: rest) (by simp)
            obtain ⟨z, zs, hz⟩ := List.exists_cons_of_ne_nil
              (show orthoGo margins edgeIndex p0 (p1 :: rest) ≠ [] by
                intro hnil
                have hsub := orthoGo_sublist margins edgeIndex p0 (p1 :: rest)
                rw [hnil] at hsub
                exact absurd (List.eq_nil_of_sublist_nil hsub) (by simp))
            show (p0 :: orthoGo margins edgeIndex p0 (p1 :: rest)).getLast?
              = (p0 :: p1 :: rest).getLast?
            rw [hz, List.getLast?_cons_cons, ← hz, hgl, List.getLast?_cons_cons]
          · show (p0 :: p1 :: rest).Sublist
              (p0 :: orthoGo margins edgeIndex p0 (p1 :: rest))
            exact List.Sublist.cons₂ p0 (orthoGo_sublist margins edgeIndex p0 (p1 :: rest))

/-- Witness for C10 at a concrete 2-point diagonal edge. -/
theorem claim_C10_witness :
    2 ≤ ([(⟨0, 0⟩ : Point), ⟨5, 5⟩] : List Point).length
      ∧ ((orthogonalizeEdgePoints [(⟨0, 0⟩ : Point), ⟨5, 5⟩] none 0).head?
            = ([(⟨0, 0⟩ : Point), ⟨5, 5⟩] : List Point).head?
        ∧ (orthogonalizeEdgePoints [(⟨0, 0⟩ : Point), ⟨5, 5⟩] none 0).getLast?
            = ([(⟨0, 0⟩ : Point), ⟨5, 5⟩] : List Point).getLast?
        ∧ ([(⟨0, 0⟩ : Point), ⟨5, 5⟩] : List Point).Sublist
            (orthogonalizeEdgePoints [(⟨0, 0⟩ : Point), ⟨5, 5⟩] none 0)) :=
  ⟨by simp, claim_C10 _ none 0 (by simp)⟩

/-- C4 counterexample: the external segment's first point (99,99) does not
duplicate the outgoing segment's last point (10,0), yet it is dropped — the
assembly drops the first point of a later segment whenever any points were
already accumulated, not only on duplication, refuting "a non-duplicate first
point is kept". -/
theorem claim_C4_cex :
    combineSegmentPoints [⟨0, 0⟩, ⟨10, 0⟩] [⟨99, 99⟩, ⟨10, 10⟩] []
        = [⟨0, 0⟩, ⟨10, 0⟩, ⟨10, 10⟩]
      ∧ (⟨99, 99⟩ : Point) ≠ ⟨10, 0⟩
      ∧ (⟨99, 99⟩ : Point)
          ∉ combineSegmentPoints [⟨0, 0⟩, ⟨10, 0⟩] [⟨99, 99⟩, ⟨10, 10⟩] [] := by
  refine ⟨rfl, ?_, ?_⟩
  · intro h
    have := congrArg Point.x h
    norm_num at this
  · intro h
    have : combineSegmentPoints [(⟨0, 0⟩ : Point), ⟨10, 0⟩] [⟨99, 99⟩, ⟨10, 10⟩] []
        = [⟨0, 0⟩, ⟨10, 0⟩, ⟨10, 10⟩] := rfl
    rw [this] at h
    simp only [List.mem_cons, List.not_mem_nil, or_false] at h
    rcases h with h | h | h <;>
      · have hx := congrArg Point.x h
        norm_num at hx

/-- C4 amended: the assembled point list concatenates the available segments
in the fixed order outgoing-internal, external, incoming-internal, and the
first point of a later segment is dropped exactly when a preceding segment
already contributed points — regardless of whether it duplicates the last
accumulated point.  (When the outgoing segment is absent, the external
segment opens the list intact and only the incoming segment is trimmed.) -/
theorem claim_C4 (o e i : List Point) :
    (o ≠ [] → combineSegmentPoints o e i = o ++ e.drop 1 ++ i.drop 1)
      ∧ (o = [] → e ≠ [] → combineSegmentPoints o e i = e ++ i.drop 1) := by
  constructor
  · intro ho
    unfold combineSegmentPoints
    rcases e with _ | ⟨e0, es⟩ <;> rcases i with _ | ⟨i0, is'⟩ <;>
      simp [List.isEmpty_iff, ho]
  · intro ho he
    subst ho
    unfold combineSegmentPoints
    rcases e with _ | ⟨e0, es⟩
    · exact absurd rfl he
    · rcases i with _ | ⟨i0, is'⟩ <;> simp [List.isEmpty_iff]

/-- Witness for C4 at concrete segments. -/
theorem claim_C4_witness :
    (([(⟨0, 0⟩ : Point), ⟨10, 0⟩] : List Point) ≠ []
      ∧ combineSegmentPoints [⟨0, 0⟩, ⟨10, 0⟩] [⟨10, 0⟩, ⟨10, 10⟩] [⟨10, 10⟩, ⟨10, 20⟩]
          = [(⟨0, 0⟩ : Point), ⟨10, 0⟩] ++ [(⟨10, 0⟩ : Point), ⟨10, 10⟩].drop 1
              ++ [(⟨10, 10⟩ : Point), ⟨10, 20⟩].drop 1)
      ∧ (([] : List Point) = []
        ∧ ([(⟨5, 5⟩ : Point)] : List Point) ≠ []
        ∧ combineSegmentPoints [] [⟨5, 5⟩] [⟨5, 5⟩, ⟨5, 9⟩]
            = [(⟨5, 5⟩ : Point)] ++ [(⟨5, 5⟩ : Point), ⟨5, 9⟩].drop 1) :=
  ⟨⟨by simp, (claim_C4 _ _ _).1 (by simp)⟩,
   ⟨rfl, by simp, (claim_C4 _ _ _).2 rfl (by simp)⟩⟩

/-- C1 amended: the pipeline decides the single global hierarchy mode before
invoking the solver, but the scan covers only the top-level groups:
`elk.hierarchyHandling` is SEPARATE exactly when some top-level subgraph
declares a direction override, and INCLUDE_CHILDREN otherwise — a direction
override on a nested child group alone does not select SEPARATE. -/
theorem claim_C1 (estSize : String → String → NodeShape → ℚ × ℚ)
    (measureEdgeLabel : String → ℚ × ℚ) (graph : MermaidGraph)
    (opts : LayoutOpts) :
    mapGet (mermaidToElk estSize measureEdgeLabel graph opts).layoutOptions
        "elk.hierarchyHandling"
      = some (if graph.subgraphs.any (fun sg => sg.direction.isSome)
              then "SEPARATE" else "INCLUDE_CHILDREN") := by
  unfold mermaidToElk
  simp only [ElkGraphNode.layoutOptions]
  unfold mapGet
  simp [List.find?]

/-- C1 counterexample: `c1graph` has a direction override on a nested child
group (so the claim demands SEPARATE), yet the generated root options select
INCLUDE_CHILDREN because only top-level subgraphs are scanned. -/
theorem claim_C1_cex :
    subgraphListAnyDirection c1graph.subgraphs = true
      ∧ mapGet (mermaidToElk constSize constMeasure c1graph optsDefault).layoutOptions
            "elk.hierarchyHandling"
          = some "INCLUDE_CHILDREN" := by
  constructor
  · rfl
  · unfold mermaidToElk
    simp only [ElkGraphNode.layoutOptions]
    unfold mapGet
    simp [List.find?, c1graph, MermaidSubgraph.direction]

mutual
theorem cloneTree_ok : ∀ (sg : MermaidSubgraph) (d : ℕ),
    subgraphHeight sg + d ≤ 257 → cloneMermaidSubgraphTree sg d = .ok sg
  | .mk id label nodeIds cs dir, d, h => by
      have hh : subgraphHeight (.mk id label nodeIds cs dir)
          = 1 + subgraphListHeight cs := rfl
      unfold cloneMermaidSubgraphTree
      rw [if_neg (by unfold MAX_SUBGRAPH_CONTRACT_DEPTH; omega)]
      rw [cloneList_ok cs (d + 1) (by omega)]
theorem cloneList_ok : ∀ (cs : List MermaidSubgraph) (d : ℕ),
    subgraphListHeight cs + d ≤ 257 → cloneMermaidSubgraphList cs d = .ok cs
  | [], _, _ => rfl
  | c :: cs, d, h => by
      have hh : subgraphListHeight (c :: cs)
          = max (subgraphHeight c) (subgraphListHeight cs) := rfl
      unfold cloneMermaidSubgraphList
      rw [cloneTree_ok c d (by omega)]
      rw [cloneList_ok cs d (by omega)]
end

mutual
theorem cloneTree_err : ∀ (sg : MermaidSubgraph) (d : ℕ),
    257 < subgraphHeight sg + d → (cloneMermaidSubgraphTree sg d).isOk = false
  | .mk id label nodeIds cs dir, d, h => by
      have hh : subgraphHeight (.mk id label nodeIds cs dir)
          = 1 + subgraphListHeight cs := rfl
      unfold cloneMermaidSubgraphTree
      by_cases hd : MAX_SUBGRAPH_CONTRACT_DEPTH < d
      · rw [if_pos hd]
        rfl
      · rw [if_neg hd]
        have herr := cloneList_err cs (d + 1)
          (by unfold MAX_SUBGRAPH_CONTRACT_DEPTH at hd; omega)
          (by unfold MAX_SUBGRAPH_CONTRACT_DEPTH at hd; omega)
        rcases hval : cloneMermaidSubgraphList cs (d + 1) with m | v
        · rfl
        · rw [hval] at herr
          simp [Except.isOk, Except.toBool] at herr
theorem cloneList_err : ∀ (cs : List MermaidSubgraph) (d : ℕ),
    0 < subgraphListHeight cs → 257 < subgraphListHeight cs + d →
      (cloneMermaidSubgraphList cs d).isOk = false
  | [], d, h0, h => by
      have : subgraphListHeight ([] : List MermaidSubgraph) = 0 := rfl
      omega
  | c :: cs, d, h0, h => by
      have hh : subgraphListHeight (c :: cs)
          = max (subgraphHeight c) (subgraphListHeight cs) := rfl
      have hc1 : 1 ≤ subgraphHeight c := by
        rcases c with ⟨i, l, n, cc, dd⟩
        have : subgraphHeight (.mk i l n cc dd) = 1 + subgraphListHeight cc := rfl
        omega
      unfold cloneMermaidSubgraphList
      by_cases hc : 257 < subgraphHeight c + d
      · have herr := cloneTree_err c d hc
        rcases hval : cloneMermaidSubgraphTree c d with m | v
        · rfl
        · rw [hval] at herr
          simp [Except.isOk, Except.toBool] at herr
      · rw [cloneTree_ok c d (by omega)]
        have herr := cloneList_err cs d (by omega) (by omega)
        rcases hval : cloneMermaidSubgraphList cs d with m | v
        · rfl
        · rw [hval] at herr
          simp [Except.isOk, Except.toBool] at herr
end

theorem chainSg_height : ∀ n : ℕ, subgraphHeight (chainSg n) = n + 1
  | 0 => rfl
  | n + 1 => by
      have ih := chainSg_height n
      show 1 + subgraphListHeight [chainSg n] = n + 2
      have : subgraphListHeight [chainSg n] = max (subgraphHeight (chainSg n)) 0 := rfl
      omega

theorem mapToRecord_ok {α : Type} (m : StrMap α)
    (h : m.all (fun e => !isIntegerLikeKey e.1) = true) :
    mapToRecord m = .ok m := by
  unfold mapToRecord
  have hnone : m.find? (fun e => isIntegerLikeKey e.1) = none := by
    rw [List.find?_eq_none]
    intro x hx
    have := List.all_eq_true.mp h x hx
    simp at this
    simp [this]
  rw [hnone]

mutual
theorem toPositionedGroupContract_id : ∀ g : PositionedGroup,
    toPositionedGroupContract g = g
  | .mk id label x y w h cs => by
      unfold toPositionedGroupContract
      rw [toPositionedGroupContractList_id cs]
theorem toPositionedGroupContractList_id : ∀ cs : List PositionedGroup,
    toPositionedGroupContractList cs = cs
  | [] => rfl
  | c :: cs => by
      unfold toPositionedGroupContractList
      rw [toPositionedGroupContract_id c, toPositionedGroupContractList_id cs]
end

theorem clonePositionedEdge_id (e : PositionedEdge) : clonePositionedEdge e = e := by
  have hpt : (fun p : Point => (⟨p.x, p.y⟩ : Point)) = id := funext fun p => rfl
  simp [clonePositionedEdge, hpt]

/-- C8 amended: for graphs whose map-like fields have no integer-like keys
AND whose subgraph forest stays within the 256 nesting limit, the interchange
round trip reproduces the original value exactly — including the insertion
order of every ordered map field (maps are modelled as insertion-ordered
association lists, and equality is order-sensitive); absent optional fields
stay absent (`none`), never an explicit null, which the contract types cannot
even express.  The positioned-graph round trip holds unconditionally. -/
theorem claim_C8 (g : MermaidGraph) (p : PositionedGraph)
    (hkeys : noIntegerLikeKeys g = true)
    (hdepth : subgraphListHeight g.subgraphs ≤ 257) :
    (toMermaidGraphContract g).bind fromMermaidGraphContract = Except.ok g
      ∧ fromPositionedGraphContract (toPositionedGraphContract p) = p := by
  constructor
  · unfold noIntegerLikeKeys at hkeys
    simp only [Bool.and_eq_true] at hkeys
    obtain ⟨⟨⟨h1, h2⟩, h3⟩, h4⟩ := hkeys
    have hedge : cloneMermaidEdge = id := funext fun e => rfl
    have hsub := cloneList_ok g.subgraphs 0 (by omega)
    simp [toMermaidGraphContract, fromMermaidGraphContract,
      mapToRecord_ok _ h1, mapToRecord_ok _ h2, mapToRecord_ok _ h3,
      mapToRecord_ok _ h4, hsub, hedge, recordToMap, bind, Except.bind,
      Except.map, Functor.map, pure, Except.pure]
  · have hedge : clonePositionedEdge = id := funext clonePositionedEdge_id
    have hnode : clonePositionedNode = id := funext fun n => rfl
    have hgrp : toPositionedGroupContract = id := funext toPositionedGroupContract_id
    simp [toPositionedGraphContract, fromPositionedGraphContract, hedge,
      hnode, hgrp]

/-- Witness for C8 at a concrete graph and positioned graph. -/
theorem claim_C8_witness :
    noIntegerLikeKeys c3graph = true
      ∧ subgraphListHeight c3graph.subgraphs ≤ 257
      ∧ ((toMermaidGraphContract c3graph).bind fromMermaidGraphContract
            = Except.ok c3graph
        ∧ fromPositionedGraphContract (toPositionedGraphContract
            { width := 0, height := 0, nodes := [], edges := [], groups := [] })
            = { width := 0, height := 0, nodes := [], edges := [], groups := [] }) :=
  ⟨rfl, by simp [c3graph, subgraphListHeight],
   claim_C8 c3graph _ rfl (by simp [c3graph, subgraphListHeight])⟩

/-- C8 counterexample: a graph with no integer-like keys anywhere whose only
subgraph is a 258-level chain; the conversion to the contract form throws
(depth > 256), so the round trip cannot reproduce the original — the claim
needs the depth hypothesis. -/
theorem claim_C8_cex :
    noIntegerLikeKeys c8deepGraph = true
      ∧ (toMermaidGraphContract c8deepGraph).bind fromMermaidGraphContract
          ≠ Except.ok c8deepGraph := by
  constructor
  · rfl
  · have hh : subgraphListHeight c8deepGraph.subgraphs
        = max (subgraphHeight (chainSg 257)) 0 := rfl
    have hht := chainSg_height 257
    have herr := cloneList_err c8deepGraph.subgraphs 0 (by omega) (by omega)
    intro hcontra
    rcases hval : cloneMermaidSubgraphList c8deepGraph.subgraphs 0 with m | v
    · have : (toMermaidGraphContract c8deepGraph).bind fromMermaidGraphContract
          = Except.error m := by
        have hlist : cloneMermaidSubgraphList [chainSg 257] 0 = Except.error m := by
          have hg : c8deepGraph.subgraphs = [chainSg 257] := rfl
          rw [← hg, hval]
        simp [toMermaidGraphContract, c8deepGraph, mapToRecord, bind,
          Except.bind, hlist, isIntegerLikeKey]
      rw [this] at hcontra
      cases hcontra
    · rw [hval] at herr
      simp [Except.isOk, Except.toBool] at herr

theorem stackMeasure_append (a b : List (UVal × ℕ)) :
    stackMeasure (a ++ b) = stackMeasure a + stackMeasure b := by
  induction a with
  | nil => simp [stackMeasure]
  | cons f r ih => simp [stackMeasure, ih]; ring

theorem uvalListSize_append (a b : List UVal) :
    uvalListSize (a ++ b) = uvalListSize a + uvalListSize b := by
  induction a with
  | nil => simp [uvalListSize]
  | cons v vs ih => simp [uvalListSize, ih]; ring

theorem uvalListSize_reverse (l : List UVal) :
    uvalListSize l.reverse = uvalListSize l := by
  induction l with
  | nil => rfl
  | cons v vs ih => simp [List.reverse_cons, uvalListSize_append, uvalListSize, ih]; ring

theorem stackMeasure_push (cs : List UVal) (d : ℕ) (rest : List (UVal × ℕ)) :
    stackMeasure (cs.reverse.map (fun c => (c, d)) ++ rest)
      = uvalListSize cs + stackMeasure rest := by
  rw [stackMeasure_append]
  have hmap : ∀ (l : List UVal), stackMeasure (l.map (fun c => (c, d)))
      = uvalListSize l := by
    intro l
    induction l with
    | nil => simp [stackMeasure, uvalListSize]
    | cons v vs ih => simp [stackMeasure, uvalListSize, ih]
  rw [hmap, uvalListSize_reverse]

theorem getField_size {fields : List (String × UVal)} {k : String} {w : UVal}
    (h : getField fields k = some w) : uvalSize w < uvalSize (UVal.obj fields) := by
  have hFieldMem : ∀ (fs : List (String × UVal)) (e : String × UVal), e ∈ fs →
      uvalSize e.2 ≤ uvalFieldsSize fs := by
    intro fs
    induction fs with
    | nil => intro e h; cases h
    | cons f fs ih =>
        intro e hm
        rcases List.mem_cons.mp hm with h1 | h2
        · subst h1; simp [uvalFieldsSize]
        · have := ih e h2; simp [uvalFieldsSize]; omega
  unfold getField at h
  cases hfind : fields.find? (fun e => e.1 == k) with
  | none => rw [hfind] at h; simp at h
  | some e =>
      rw [hfind] at h
      simp at h
      have hmem := List.mem_of_find?_eq_some hfind
      have hle := hFieldMem fields e hmem
      rw [h] at hle
      have : uvalSize (UVal.obj fields) = 1 + uvalFieldsSize fields := rfl
      omega

theorem stackMeasure_rec_lt {fields : List (String × UVal)} {cs : List UVal}
    {d : ℕ} {rest : List (UVal × ℕ)}
    (h : getField fields "children" = some (.arr cs)) :
    stackMeasure (cs.reverse.map (fun c => (c, d)) ++ rest)
      < stackMeasure ((UVal.obj fields, d) :: rest) := by
  have hlt := getField_size h
  have harr : uvalSize (UVal.arr cs) = 1 + uvalListSize cs := rfl
  have hcons : stackMeasure ((UVal.obj fields, d) :: rest)
      = uvalSize (UVal.obj fields) + stackMeasure rest := rfl
  rw [stackMeasure_push, hcons]
  omega

/-- Inversion of one successful step of the subgraph-contract stack walk. -/
theorem sgStack_cons_true {v : UVal} {d : ℕ} {rest : List (UVal × ℕ)}
    (htrue : isMermaidSubgraphStack ((v, d) :: rest) = true) :
    ∃ fields cs, v = .obj fields ∧ ¬(MAX_SUBGRAPH_CONTRACT_DEPTH < d)
      ∧ getField fields "children" = some (.arr cs)
      ∧ cs.all isPlainObject = true
      ∧ isMermaidSubgraphStack
          (cs.reverse.map (fun c => (c, d + 1)) ++ rest) = true := by
  rcases v with _ | b | q | s | items | fields
  case null =>
    simp only [isMermaidSubgraphStack] at htrue
    exact Bool.noConfusion htrue
  case bool =>
    simp only [isMermaidSubgraphStack] at htrue
    exact Bool.noConfusion htrue
  case num =>
    simp only [isMermaidSubgraphStack] at htrue
    exact Bool.noConfusion htrue
  case str =>
    simp only [isMermaidSubgraphStack] at htrue
    exact Bool.noConfusion htrue
  case arr =>
    simp only [isMermaidSubgraphStack] at htrue
    exact Bool.noConfusion htrue
  case obj =>
    refine ⟨fields, ?_⟩
    simp only [isMermaidSubgraphStack] at htrue
    by_cases h1 : MAX_SUBGRAPH_CONTRACT_DEPTH < d
    · rw [if_pos h1] at htrue; exact Bool.noConfusion htrue
    · rw [if_neg h1] at htrue
      by_cases h2 : (!isStrU ((getField fields "id").getD UVal.null)) = true
      · rw [if_pos h2] at htrue; exact Bool.noConfusion htrue
      · rw [if_neg h2] at htrue
        by_cases h3 : (!isStrU ((getField fields "label").getD UVal.null)) = true
        · rw [if_pos h3] at htrue; exact Bool.noConfusion htrue
        · rw [if_neg h3] at htrue
          by_cases h4 : (!(match getField fields "nodeIds" with
              | some (UVal.arr ids) => ids.all isStrU
              | _ => false)) = true
          · rw [if_pos h4] at htrue; exact Bool.noConfusion htrue
          · rw [if_neg h4] at htrue
            split at htrue
            · rename_i cs hch
              by_cases h5 : (!(match getField fields "direction" with
                  | none => true
                  | some dd => isDirectionU dd)) = true
              · rw [if_pos h5] at htrue; exact Bool.noConfusion htrue
              · rw [if_neg h5] at htrue
                by_cases h6 : cs.all isPlainObject = true
                · rw [if_pos h6] at htrue
                  exact ⟨cs, rfl, h1, hch, h6, htrue⟩
                · rw [if_neg h6] at htrue; exact Bool.noConfusion htrue
            · exact Bool.noConfusion htrue

/-- True runs of the subgraph-contract stack walk bound the depth of every
children-chain reachable from any frame. -/
theorem sgStack_bound : ∀ (stack : List (UVal × ℕ)),
    isMermaidSubgraphStack stack = true →
    ∀ p ∈ stack, ∀ n w, descendsU n p.1 w → p.2 + n ≤ 256
  | [], _, p, hp, _, _, _ => absurd hp (List.not_mem_nil p)
  | (v, d) :: rest, htrue, p, hp, n, w, hdesc => by
      obtain ⟨fields, cs, hv, hd, hch, _hall, htrue'⟩ := sgStack_cons_true htrue
      rcases List.mem_cons.mp hp with rfl | hrest
      · rcases n with _ | n
        · show d + 0 ≤ 256
          unfold MAX_SUBGRAPH_CONTRACT_DEPTH at hd
          omega
        · obtain ⟨c, hc, hdesc'⟩ := hdesc
          obtain ⟨fields', cs', hvf, hgf, hcmem⟩ := hc
          have hfe : fields' = fields := by
            rw [hv] at hvf
            injection hvf.symm
          subst hfe
          rw [hch] at hgf
          injection hgf with h1
          injection h1 with h2
          subst h2
          have hmem : (c, d + 1)
              ∈ cs.reverse.map (fun z => (z, d + 1)) ++ rest := by
            apply List.mem_append_left
            exact List.mem_map.mpr ⟨c, List.mem_reverse.mpr hcmem, rfl⟩
          have hb := sgStack_bound (cs.reverse.map (fun z => (z, d + 1)) ++ rest)
            htrue' (c, d + 1) hmem n w hdesc'
          simp only at hb
          show d + (n + 1) ≤ 256
          unfold MAX_SUBGRAPH_CONTRACT_DEPTH at hd
          omega
      · exact sgStack_bound (cs.reverse.map (fun z => (z, d + 1)) ++ rest)
          htrue' p (List.mem_append_right _ hrest) n w hdesc
termination_by stack => stackMeasure stack
decreasing_by
  all_goals rw [hv]; exact stackMeasure_rec_lt hch

theorem encodeSubgraphList_mem : ∀ (cs : List MermaidSubgraph) (v : UVal),
    v ∈ encodeSubgraphList cs → ∃ c ∈ cs, v = encodeSubgraph c
  | [], v, h => absurd h (List.not_mem_nil v)
  | c :: cs, v, h => by
      unfold encodeSubgraphList at h
      rcases List.mem_cons.mp h with rfl | h2
      · exact ⟨c, List.mem_cons_self c cs, rfl⟩
      · obtain ⟨c2, hc2, hv⟩ := encodeSubgraphList_mem cs v h2
        exact ⟨c2, List.mem_cons_of_mem c hc2, hv⟩

theorem encodeSubgraphList_all_plain : ∀ (cs : List MermaidSubgraph),
    (encodeSubgraphList cs).all isPlainObject = true
  | [] => rfl
  | c :: cs => by
      unfold encodeSubgraphList
      rcases c with ⟨i, l, n, cc, dd⟩
      simp [List.all_cons, encodeSubgraph, isPlainObject,
        encodeSubgraphList_all_plain cs]

theorem subgraphHeight_mem_le : ∀ (cs : List MermaidSubgraph) (c : MermaidSubgraph),
    c ∈ cs → subgraphHeight c ≤ subgraphListHeight cs
  | [], c, h => absurd h (List.not_mem_nil c)
  | x :: cs, c, h => by
      have hh : subgraphListHeight (x :: cs)
          = max (subgraphHeight x) (subgraphListHeight cs) := rfl
      rcases List.mem_cons.mp h with rfl | h2
      · omega
      · have := subgraphHeight_mem_le cs c h2
        omega

theorem isDirectionU_dirString (dd : Direction) :
    isDirectionU (.str (dirString dd)) = true := by
  cases dd <;> rfl

theorem mapStr_all_str (l : List String) :
    (l.map UVal.str).all isStrU = true := by
  induction l with
  | nil => rfl
  | cons s rest ih => simp [List.all_cons, isStrU, ih]

/-- Introduction of one successful step of the subgraph-contract stack walk. -/
theorem sgStack_cons_intro {fields : List (String × UVal)} {d : ℕ}
    {rest : List (UVal × ℕ)} {cs : List UVal}
    (hd : ¬(MAX_SUBGRAPH_CONTRACT_DEPTH < d))
    (hid : isStrU ((getField fields "id").getD .null) = true)
    (hlabel : isStrU ((getField fields "label").getD .null) = true)
    (hnodeIds : (match getField fields "nodeIds" with
        | some (.arr ids) => ids.all isStrU
        | _ => false) = true)
    (hch : getField fields "children" = some (.arr cs))
    (hdir : (match getField fields "direction" with
        | none => true
        | some dd => isDirectionU dd) = true)
    (hplain : cs.all isPlainObject = true)
    (hrec : isMermaidSubgraphStack
        (cs.reverse.map (fun c => (c, d + 1)) ++ rest) = true) :
    isMermaidSubgraphStack ((UVal.obj fields, d) :: rest) = true := by
  simp only [isMermaidSubgraphStack]
  rw [if_neg hd, if_neg (by simp [hid]), if_neg (by simp [hlabel]),
    if_neg (by simp [hnodeIds])]
  split
  · rename_i cs2 hch2
    rw [hch] at hch2
    injection hch2 with h1
    injection h1 with h2
    subst h2
    rw [if_neg (by simp [hdir]), if_pos hplain]
    exact hrec
  · rename_i hno
    exact absurd hch (hno cs)

theorem stackMeasure_rec_lt_encode (id label : String) (nodeIds : List String)
    (children : List MermaidSubgraph) (dir : Option Direction) (d : ℕ)
    (rest : List (UVal × ℕ)) :
    stackMeasure
        ((encodeSubgraphList children).reverse.map (fun c => (c, d + 1)) ++ rest)
      < stackMeasure
          ((encodeSubgraph (.mk id label nodeIds children dir), d) :: rest) := by
  cases dir <;> exact stackMeasure_rec_lt rfl

/-- Every stack of encoded subgraph frames whose depth plus remaining height
fits inside the limit passes the stack walk. -/
theorem sgStack_encode_ok : ∀ (stack : List (UVal × ℕ)),
    (∀ p ∈ stack, ∃ t, p.1 = encodeSubgraph t ∧ p.2 + subgraphHeight t ≤ 257) →
    isMermaidSubgraphStack stack = true
  | [], _ => by simp only [isMermaidSubgraphStack]
  | (v, d) :: rest, hall => by
      obtain ⟨t, hv, hht⟩ := hall (v, d) (List.mem_cons_self _ _)
      rcases t with ⟨id, label, nodeIds, children, dir⟩
      have hheq : subgraphHeight (.mk id label nodeIds children dir)
          = 1 + subgraphListHeight children := rfl
      simp only at hv
      have step : isMermaidSubgraphStack
          (((encodeSubgraphList children).reverse.map (fun c => (c, d + 1)))
            ++ rest) = true := by
        apply sgStack_encode_ok
        intro p hp
        rcases List.mem_append.mp hp with hleft | hright
        · obtain ⟨cv, hcv, hpe⟩ := List.mem_map.mp hleft
          obtain ⟨c, hcmem, hcv2⟩ := encodeSubgraphList_mem children cv
            (List.mem_reverse.mp hcv)
          refine ⟨c, ?_, ?_⟩
          · rw [← hpe]
            exact hcv2
          · rw [← hpe]
            have := subgraphHeight_mem_le children c hcmem
            simp only at hht ⊢
            omega
        · exact hall p (List.mem_cons_of_mem _ hright)
      have hdn : ¬(MAX_SUBGRAPH_CONTRACT_DEPTH < d) := by
        unfold MAX_SUBGRAPH_CONTRACT_DEPTH
        omega
      rw [hv]
      cases dir with
      | none =>
          exact sgStack_cons_intro hdn rfl rfl (mapStr_all_str nodeIds) rfl rfl
            (encodeSubgraphList_all_plain children) step
      | some dd =>
          exact sgStack_cons_intro hdn rfl rfl (mapStr_all_str nodeIds) rfl
            (isDirectionU_dirString dd)
            (encodeSubgraphList_all_plain children) step
termination_by stack => stackMeasure stack
decreasing_by
  rw [show v = encodeSubgraph (.mk id label nodeIds children dir) from hv]
  exact stackMeasure_rec_lt_encode id label nodeIds children dir d rest

/-- Inversion of one successful step of the group-contract stack walk. -/
theorem gpStack_cons_true {v : UVal} {d : ℕ} {rest : List (UVal × ℕ)}
    (htrue : isPositionedGroupStack ((v, d) :: rest) = true) :
    ∃ fields cs, v = .obj fields ∧ ¬(MAX_GROUP_CONTRACT_DEPTH < d)
      ∧ getField fields "children" = some (.arr cs)
      ∧ cs.all isPlainObject = true
      ∧ isPositionedGroupStack
          (cs.reverse.map (fun c => (c, d + 1)) ++ rest) = true := by
  rcases v with _ | b | q | s | items | fields
  case null =>
    simp only [isPositionedGroupStack] at htrue
    exact Bool.noConfusion htrue
  case bool =>
    simp only [isPositionedGroupStack] at htrue
    exact Bool.noConfusion htrue
  case num =>
    simp only [isPositionedGroupStack] at htrue
    exact Bool.noConfusion htrue
  case str =>
    simp only [isPositionedGroupStack] at htrue
    exact Bool.noConfusion htrue
  case arr =>
    simp only [isPositionedGroupStack] at htrue
    exact Bool.noConfusion htrue
  case obj =>
    refine ⟨fields, ?_⟩
    simp only [isPositionedGroupStack] at htrue
    by_cases h1 : MAX_GROUP_CONTRACT_DEPTH < d
    · rw [if_pos h1] at htrue; exact Bool.noConfusion htrue
    · rw [if_neg h1] at htrue
      by_cases h2 : (!isStrU ((getField fields "id").getD UVal.null)) = true
      · rw [if_pos h2] at htrue; exact Bool.noConfusion htrue
      · rw [if_neg h2] at htrue
        by_cases h3 : (!isStrU ((getField fields "label").getD UVal.null)) = true
        · rw [if_pos h3] at htrue; exact Bool.noConfusion htrue
        · rw [if_neg h3] at htrue
          by_cases h4 : (!isFiniteNumberU ((getField fields "x").getD UVal.null)) = true
          · rw [if_pos h4] at htrue; exact Bool.noConfusion htrue
          · rw [if_neg h4] at htrue
            by_cases h5 : (!isFiniteNumberU ((getField fields "y").getD UVal.null)) = true
            · rw [if_pos h5] at htrue; exact Bool.noConfusion htrue
            · rw [if_neg h5] at htrue
              by_cases h6 : (!isFiniteNumberU ((getField fields "width").getD UVal.null)) = true
              · rw [if_pos h6] at htrue; exact Bool.noConfusion htrue
              · rw [if_neg h6] at htrue
                by_cases h7 : (!isFiniteNumberU ((getField fields "height").getD UVal.null)) = true
                · rw [if_pos h7] at htrue; exact Bool.noConfusion htrue
                · rw [if_neg h7] at htrue
                  split at htrue
                  · rename_i cs hch
                    by_cases h8 : cs.all isPlainObject = true
                    · rw [if_pos h8] at htrue
                      exact ⟨cs, rfl, h1, hch, h8, htrue⟩
                    · rw [if_neg h8] at htrue; exact Bool.noConfusion htrue
                  · exact Bool.noConfusion htrue

/-- True runs of the group-contract stack walk bound the depth of every
children-chain reachable from any frame. -/
theorem gpStack_bound : ∀ (stack : List (UVal × ℕ)),
    isPositionedGroupStack stack = true →
    ∀ p ∈ stack, ∀ n w, descendsU n p.1 w → p.2 + n ≤ 256
  | [], _, p, hp, _, _, _ => absurd hp (List.not_mem_nil p)
  | (v, d) :: rest, htrue, p, hp, n, w, hdesc => by
      obtain ⟨fields, cs, hv, hd, hch, _hall, htrue'⟩ := gpStack_cons_true htrue
      rcases List.mem_cons.mp hp with rfl | hrest
      · rcases n with _ | n
        · show d + 0 ≤ 256
          unfold MAX_GROUP_CONTRACT_DEPTH at hd
          omega
        · obtain ⟨c, hc, hdesc'⟩ := hdesc
          obtain ⟨fields', cs', hvf, hgf, hcmem⟩ := hc
          have hfe : fields' = fields := by
            rw [hv] at hvf
            injection hvf.symm
          subst hfe
          rw [hch] at hgf
          injection hgf with h1
          injection h1 with h2
          subst h2
          have hmem : (c, d + 1)
              ∈ cs.reverse.map (fun z => (z, d + 1)) ++ rest := by
            apply List.mem_append_left
            exact List.mem_map.mpr ⟨c, List.mem_reverse.mpr hcmem, rfl⟩
          have hb := gpStack_bound (cs.reverse.map (fun z => (z, d + 1)) ++ rest)
            htrue' (c, d + 1) hmem n w hdesc'
          simp only at hb
          show d + (n + 1) ≤ 256
          unfold MAX_GROUP_CONTRACT_DEPTH at hd
          omega
      · exact gpStack_bound (cs.reverse.map (fun z => (z, d + 1)) ++ rest)
          htrue' p (List.mem_append_right _ hrest) n w hdesc
termination_by stack => stackMeasure stack
decreasing_by
  all_goals rw [hv]; exact stackMeasure_rec_lt hch

theorem encodeGroupList_mem : ∀ (cs : List PositionedGroup) (v : UVal),
    v ∈ encodeGroupList cs → ∃ c ∈ cs, v = encodeGroup c
  | [], v, h => absurd h (List.not_mem_nil v)
  | c :: cs, v, h => by
      unfold encodeGroupList at h
      rcases List.mem_cons.mp h with rfl | h2
      · exact ⟨c, List.mem_cons_self c cs, rfl⟩
      · obtain ⟨c2, hc2, hv⟩ := encodeGroupList_mem cs v h2
        exact ⟨c2, List.mem_cons_of_mem c hc2, hv⟩

theorem encodeGroupList_all_plain : ∀ (cs : List PositionedGroup),
    (encodeGroupList cs).all isPlainObject = true
  | [] => rfl
  | c :: cs => by
      unfold encodeGroupList
      rcases c with ⟨i, l, x, y, w, h, cc⟩
      simp [List.all_cons, encodeGroup, isPlainObject,
        encodeGroupList_all_plain cs]

theorem groupHeight_mem_le : ∀ (cs : List PositionedGroup) (c : PositionedGroup),
    c ∈ cs → groupHeight c ≤ groupListHeight cs
  | [], c, h => absurd h (List.not_mem_nil c)
  | x :: cs, c, h => by
      have hh : groupListHeight (x :: cs)
          = max (groupHeight x) (groupListHeight cs) := rfl
      rcases List.mem_cons.mp h with rfl | h2
      · omega
      · have := groupHeight_mem_le cs c h2
        omega

/-- Introduction of one successful step of the group-contract stack walk. -/
theorem gpStack_cons_intro {fields : List (String × UVal)} {d : ℕ}
    {rest : List (UVal × ℕ)} {cs : List UVal}
    (hd : ¬(MAX_GROUP_CONTRACT_DEPTH < d))
    (hid : isStrU ((getField fields "id").getD .null) = true)
    (hlabel : isStrU ((getField fields "label").getD .null) = true)
    (hx : isFiniteNumberU ((getField fields "x").getD .null) = true)
    (hy : isFiniteNumberU ((getField fields "y").getD .null) = true)
    (hw : isFiniteNumberU ((getField fields "width").getD .null) = true)
    (hh : isFiniteNumberU ((getField fields "height").getD .null) = true)
    (hch : getField fields "children" = some (.arr cs))
    (hplain : cs.all isPlainObject = true)
    (hrec : isPositionedGroupStack
        (cs.reverse.map (fun c => (c, d + 1)) ++ rest) = true) :
    isPositionedGroupStack ((UVal.obj fields, d) :: rest) = true := by
  simp only [isPositionedGroupStack]
  rw [if_neg hd, if_neg (by simp [hid]), if_neg (by simp [hlabel]),
    if_neg (by simp [hx]), if_neg (by simp [hy]), if_neg (by simp [hw]),
    if_neg (by simp [hh])]
  split
  · rename_i cs2 hch2
    rw [hch] at hch2
    injection hch2 with h1
    injection h1 with h2
    subst h2
    rw [if_pos hplain]
    exact hrec
  · rename_i hno
    exact absurd hch (hno cs)

theorem stackMeasure_rec_lt_encodeGroup (id label : String) (x y w h : ℚ)
    (children : List PositionedGroup) (d : ℕ) (rest : List (UVal × ℕ)) :
    stackMeasure
        ((encodeGroupList children).reverse.map (fun c => (c, d + 1)) ++ rest)
      < stackMeasure ((encodeGroup (.mk id label x y w h children), d) :: rest) :=
  stackMeasure_rec_lt rfl

/-- Every stack of encoded group frames whose depth plus remaining height
fits inside the limit passes the stack walk. -/
theorem gpStack_encode_ok : ∀ (stack : List (UVal × ℕ)),
    (∀ p ∈ stack, ∃ g, p.1 = encodeGroup g ∧ p.2 + groupHeight g ≤ 257) →
    isPositionedGroupStack stack = true
  | [], _ => by simp only [isPositionedGroupStack]
  | (v, d) :: rest, hall => by
      obtain ⟨g, hv, hht⟩ := hall (v, d) (List.mem_cons_self _ _)
      rcases g with ⟨id, label, x, y, w, h, children⟩
      have hheq : groupHeight (.mk id label x y w h children)
          = 1 + groupListHeight children := rfl
      simp only at hv
      have step : isPositionedGroupStack
          (((encodeGroupList children).reverse.map (fun c => (c, d + 1)))
            ++ rest) = true := by
        apply gpStack_encode_ok
        intro p hp
        rcases List.mem_append.mp hp with hleft | hright
        · obtain ⟨cv, hcv, hpe⟩ := List.mem_map.mp hleft
          obtain ⟨c, hcmem, hcv2⟩ := encodeGroupList_mem children cv
            (List.mem_reverse.mp hcv)
          refine ⟨c, ?_, ?_⟩
          · rw [← hpe]
            exact hcv2
          · rw [← hpe]
            have := groupHeight_mem_le children c hcmem
            simp only at hht ⊢
            omega
        · exact hall p (List.mem_cons_of_mem _ hright)
      have hdn : ¬(MAX_GROUP_CONTRACT_DEPTH < d) := by
        unfold MAX_GROUP_CONTRACT_DEPTH
        omega
      rw [hv]
      exact gpStack_cons_intro hdn rfl rfl rfl rfl rfl rfl rfl
        (encodeGroupList_all_plain children) step
termination_by stack => stackMeasure stack
decreasing_by
  rw [show v = encodeGroup (.mk id label x y w h children) from hv]
  exact stackMeasure_rec_lt_encodeGroup id label x y w h children d rest

theorem chainGroup_height : ∀ n : ℕ, groupHeight (chainGroup n) = n + 1
  | 0 => rfl
  | n + 1 => by
      have ih := chainGroup_height n
      show 1 + groupListHeight [chainGroup n] = n + 2
      have : groupListHeight [chainGroup n]
          = max (groupHeight (chainGroup n)) 0 := rfl
      omega

theorem descends_chainSg : ∀ (n k : ℕ),
    descendsU n (encodeSubgraph (chainSg (k + n))) (encodeSubgraph (chainSg k))
  | 0, _ => rfl
  | n + 1, k => by
      show ∃ c, childOfU c (encodeSubgraph (chainSg (k + n + 1)))
        ∧ descendsU n c (encodeSubgraph (chainSg k))
      refine ⟨encodeSubgraph (chainSg (k + n)), ?_, descends_chainSg n k⟩
      exact ⟨_, [encodeSubgraph (chainSg (k + n))], rfl, rfl,
        List.mem_singleton.mpr rfl⟩

theorem descends_chainGroup : ∀ (n k : ℕ),
    descendsU n (encodeGroup (chainGroup (k + n))) (encodeGroup (chainGroup k))
  | 0, _ => rfl
  | n + 1, k => by
      show ∃ c, childOfU c (encodeGroup (chainGroup (k + n + 1)))
        ∧ descendsU n c (encodeGroup (chainGroup k))
      refine ⟨encodeGroup (chainGroup (k + n)), ?_, descends_chainGroup n k⟩
      exact ⟨_, [encodeGroup (chainGroup (k + n))], rfl, rfl,
        List.mem_singleton.mpr rfl⟩

/-- C9: both interchange tree validators reject any payload containing a
children-chain nested deeper than the fixed limit of 256 (a node 257 levels
below the root forces a `false` verdict), and payloads within the depth limit
are not rejected on depth grounds: every well-formed encoded tree of height
at most 257 levels (deepest node at depth 256) validates to `true`. -/
theorem claim_C9 :
    (∀ v w, descendsU 257 v w → isMermaidSubgraphContract v = false)
      ∧ (∀ v w, descendsU 257 v w → isPositionedGroupContract v = false)
      ∧ (∀ t : MermaidSubgraph, subgraphHeight t ≤ 257 →
          isMermaidSubgraphContract (encodeSubgraph t) = true)
      ∧ (∀ g : PositionedGroup, groupHeight g ≤ 257 →
          isPositionedGroupContract (encodeGroup g) = true) := by
  refine ⟨?_, ?_, ?_, ?_⟩
  · intro v w hdesc
    cases hb : isMermaidSubgraphContract v with
    | false => rfl
    | true =>
        exfalso
        unfold isMermaidSubgraphContract at hb
        rw [Bool.and_eq_true] at hb
        obtain ⟨_, hstack⟩ := hb
        have := sgStack_bound [(v, 0)] hstack (v, 0)
          (List.mem_singleton.mpr rfl) 257 w hdesc
        simp only at this
        omega
  · intro v w hdesc
    cases hb : isPositionedGroupContract v with
    | false => rfl
    | true =>
        exfalso
        unfold isPositionedGroupContract at hb
        rw [Bool.and_eq_true] at hb
        obtain ⟨_, hstack⟩ := hb
        have := gpStack_bound [(v, 0)] hstack (v, 0)
          (List.mem_singleton.mpr rfl) 257 w hdesc
        simp only at this
        omega
  · intro t ht
    unfold isMermaidSubgraphContract
    have hplain : isPlainObject (encodeSubgraph t) = true := by
      rcases t with ⟨i, l, n, cc, dd⟩
      rfl
    rw [hplain]
    rw [sgStack_encode_ok [(encodeSubgraph t, 0)]
      (fun p hp => by
        rw [List.mem_singleton.mp hp]
        exact ⟨t, rfl, by omega⟩)]
    rfl
  · intro g hg
    unfold isPositionedGroupContract
    have hplain : isPlainObject (encodeGroup g) = true := by
      rcases g with ⟨i, l, x, y, w, h, cc⟩
      rfl
    rw [hplain]
    rw [gpStack_encode_ok [(encodeGroup g, 0)]
      (fun p hp => by
        rw [List.mem_singleton.mp hp]
        exact ⟨g, rfl, by omega⟩)]
    rfl

/-- Witness for C9: a 258-level chain is rejected by both validators, while a
2-level chain is accepted. -/
theorem claim_C9_witness :
    isMermaidSubgraphContract (encodeSubgraph (chainSg 257)) = false
      ∧ isPositionedGroupContract (encodeGroup (chainGroup 257)) = false
      ∧ isMermaidSubgraphContract (encodeSubgraph (chainSg 1)) = true
      ∧ isPositionedGroupContract (encodeGroup (chainGroup 1)) = true :=
  ⟨claim_C9.1 _ _ (descends_chainSg 257 0),
   claim_C9.2.1 _ _ (descends_chainGroup 257 0),
   claim_C9.2.2.1 _ (by rw [chainSg_height]; norm_num),
   claim_C9.2.2.2 _ (by rw [chainGroup_height]; norm_num)⟩

theorem pointFold_ge (a pad : ℚ) : ∀ (l : List Point) (wh : ℚ × ℚ),
    wh.1 ≤ (l.foldl (pointBoundStep a pad) wh).1
      ∧ wh.2 ≤ (l.foldl (pointBoundStep a pad) wh).2
  | [], _ => ⟨le_refl _, le_refl _⟩
  | p :: l, wh => by
      simp only [List.foldl_cons]
      have ih := pointFold_ge a pad l (pointBoundStep a pad wh p)
      exact ⟨le_trans (le_max_left _ _) ih.1, le_trans (le_max_left _ _) ih.2⟩

theorem pointFold_mem (a pad : ℚ) : ∀ (l : List Point) (wh : ℚ × ℚ) (p : Point),
    p ∈ l →
    p.x + a + pad ≤ (l.foldl (pointBoundStep a pad) wh).1
      ∧ p.y + a + pad ≤ (l.foldl (pointBoundStep a pad) wh).2
  | [], _, p, hp => absurd hp (List.not_mem_nil p)
  | q :: l, wh, p, hp => by
      simp only [List.foldl_cons]
      rcases List.mem_cons.mp hp with rfl | h2
      · have ih := pointFold_ge a pad l (pointBoundStep a pad wh p)
        exact ⟨le_trans (le_max_right _ _) ih.1,
          le_trans (le_max_right _ _) ih.2⟩
      · exact pointFold_mem a pad l (pointBoundStep a pad wh q) p h2

theorem edgeStep_ge (a pad : ℚ) (wh : ℚ × ℚ) (e : PositionedEdge) :
    wh.1 ≤ (edgeBoundStep a pad wh e).1 ∧ wh.2 ≤ (edgeBoundStep a pad wh e).2 := by
  rcases hl : e.labelPosition with _ | l
  · simp only [edgeBoundStep, hl]
    exact pointFold_ge a pad e.points wh
  · simp only [edgeBoundStep, hl]
    have h := pointFold_ge a pad e.points wh
    exact ⟨le_trans h.1 (le_max_left _ _), le_trans h.2 (le_max_left _ _)⟩

theorem edgeStep_mem (a pad : ℚ) (wh : ℚ × ℚ) (e : PositionedEdge) :
    (∀ p ∈ e.points, p.x + a + pad ≤ (edgeBoundStep a pad wh e).1
        ∧ p.y + a + pad ≤ (edgeBoundStep a pad wh e).2)
    ∧ (∀ l, e.labelPosition = some l →
        l.x + 60 + pad ≤ (edgeBoundStep a pad wh e).1
          ∧ l.y + 20 + pad ≤ (edgeBoundStep a pad wh e).2) := by
  rcases hl : e.labelPosition with _ | l
  · refine ⟨fun p hp => ?_, fun l hl2 => ?_⟩
    · simp only [edgeBoundStep, hl]
      exact pointFold_mem a pad e.points wh p hp
    · exact Option.noConfusion hl2
  · refine ⟨fun p hp => ?_, fun l2 hl2 => ?_⟩
    · simp only [edgeBoundStep, hl]
      have h := pointFold_mem a pad e.points wh p hp
      exact ⟨le_trans h.1 (le_max_left _ _), le_trans h.2 (le_max_left _ _)⟩
    · injection hl2 with h2
      subst h2
      simp only [edgeBoundStep, hl]
      exact ⟨le_max_right _ _, le_max_right _ _⟩

theorem edgeFold_ge (a pad : ℚ) : ∀ (l : List PositionedEdge) (wh : ℚ × ℚ),
    wh.1 ≤ (l.foldl (edgeBoundStep a pad) wh).1
      ∧ wh.2 ≤ (l.foldl (edgeBoundStep a pad) wh).2
  | [], _ => ⟨le_refl _, le_refl _⟩
  | e :: l, wh => by
      simp only [List.foldl_cons]
      have ih := edgeFold_ge a pad l (edgeBoundStep a pad wh e)
      have h := edgeStep_ge a pad wh e
      exact ⟨le_trans h.1 ih.1, le_trans h.2 ih.2⟩

theorem boundsFold_encloses (a pad : ℚ) :
    ∀ (edges : List PositionedEdge) (wh : ℚ × ℚ) (e : PositionedEdge),
    e ∈ edges →
    (∀ p ∈ e.points,
        p.x + a + pad ≤ (edges.foldl (edgeBoundStep a pad) wh).1
          ∧ p.y + a + pad ≤ (edges.foldl (edgeBoundStep a pad) wh).2)
    ∧ (∀ l, e.labelPosition = some l →
        l.x + 60 + pad ≤ (edges.foldl (edgeBoundStep a pad) wh).1
          ∧ l.y + 20 + pad ≤ (edges.foldl (edgeBoundStep a pad) wh).2)
  | [], _, e, he => absurd he (List.not_mem_nil e)
  | f :: edges, wh, e, he => by
      simp only [List.foldl_cons]
      rcases List.mem_cons.mp he with rfl | h2
      · have hstep := edgeStep_mem a pad wh e
        have hge := edgeFold_ge a pad edges (edgeBoundStep a pad wh e)
        refine ⟨fun p hp => ?_, fun l hl => ?_⟩
        · have h := hstep.1 p hp
          exact ⟨le_trans h.1 hge.1, le_trans h.2 hge.2⟩
        · have h := hstep.2 l hl
          exact ⟨le_trans h.1 hge.1, le_trans h.2 hge.2⟩
      · exact boundsFold_encloses a pad edges (edgeBoundStep a pad wh f) e h2

/-- The edge list of the concrete C2 run, fully evaluated. -/
theorem c2edges_eq :
    (elkToPositioned idClip trivSqrt 8 c2result c2graph true).edges
    = [{ source := "x", target := "y", label := none, style := .solid,
         hasArrowStart := false, hasArrowEnd := true,
         points := [⟨0, 0⟩, ⟨75, 0⟩, ⟨75, 40⟩, ⟨30, 40⟩],
         labelPosition := none },
       { source := "z", target := "w", label := none, style := .solid,
         hasArrowStart := false, hasArrowEnd := true,
         points := [⟨0, 50⟩, ⟨-15, 50⟩, ⟨-15, 90⟩, ⟨30, 90⟩],
         labelPosition := none }] := by
  norm_num [elkToPositioned, allSubgraphIdsList, allSubgraphIds,
    extractNodesAndGroups, extractChildren, extractChild, findSubgraph,
    resolveNodeStyle, spreadRecord, mapGet, mapGetLast, computeMargins,
    flattenGroupBounds, qListMin, qListMax, extractEdgesRecursively,
    extractOneEdge, combineSegmentPoints, segPoints, collectEdgeSegmentsList,
    collectEdgeSegments, collectOneEdge, calculatePathMidpoint, walkToMidpoint,
    totalPolylineLength, segmentLength, orthogonalizeEdgePoints, orthoGo,
    orthoInsert, anyDiagonal, isDiagonalPair, orthoChanged, alignLayerNodes,
    buildLayers, buildLayersGo, flowPos, setFlowPos, connectedPairs,
    LAYER_ALIGN_THRESHOLD, layerSnapTarget, layerDeltas, collectDeltas,
    shiftFirstRun, shiftLastRun, adjustEdgeForDeltas, bundleEdgePaths,
    groupBySource, groupByTarget, processFanOutGroup, processFanInGroup,
    updatePointsAt, nodeMapGet, findGroupsContainingPoint,
    adjustJunctionForGroups, idClip, trivSqrt, c2result, c2graph, DEFAULTS,
    EDGE_SPACING, natMapGet, natMapSet, parseIntPrefix, jsTruthy, strEndsWith,
    charsIsPrefixOf, charsContainsSub, strContainsSub, pushEntry,
    elkEdgeLabels,
    show (("x":String) == "y") = false from by decide,
    show ¬ ("x":String) = "y" from by decide,
    show (("x":String) == "z") = false from by decide,
    show ¬ ("x":String) = "z" from by decide,
    show (("x":String) == "w") = false from by decide,
    show ¬ ("x":String) = "w" from by decide,
    show (("y":String) == "x") = false from by decide,
    show ¬ ("y":String) = "x" from by decide,
    show (("y":String) == "z") = false from by decide,
    show ¬ ("y":String) = "z" from by decide,
    show (("y":String) == "w") = false from by decide,
    show ¬ ("y":String) = "w" from by decide,
    show (("z":String) == "x") = false from by decide,
    show ¬ ("z":String) = "x" from by decide,
    show (("z":String) == "y") = false from by decide,
    show ¬ ("z":String) = "y" from by decide,
    show (("z":String) == "w") = false from by decide,
    show ¬ ("z":String) = "w" from by decide,
    show (("w":String) == "x") = false from by decide,
    show ¬ ("w":String) = "x" from by decide,
    show (("w":String) == "y") = false from by decide,
    show ¬ ("w":String) = "y" from by decide,
    show (("w":String) == "z") = false from by decide,
    show ¬ ("w":String) = "z" from by decide,
    List.takeWhile, show Char.isDigit (Char.ofNat 48) = true from rfl,
    show Char.isDigit (Char.ofNat 49) = true from rfl,
    show Char.toNat (Char.ofNat 48) = 48 from rfl,
    show Char.toNat (Char.ofNat 49) = 49 from rfl,
    List.enum, List.enumFrom, Option.getD, String.toList, List.find?_cons,
    List.find?_nil, List.filter, List.isEmpty, Option.map, Option.isSome,
    Option.or, List.mergeSort, List.filterMap_cons, List.filterMap_nil,
    List.getElem?_cons_zero, List.getElem?_cons_succ, List.getElem?_nil]

/-- C2 (corrected): the final bounds pass of `elkToPositioned` encloses every
edge point with the arrowhead margin plus the module default padding, and
every edge label anchor with the fixed 60-by-20 label allowance plus that
padding, on the positive side: canvas width and height dominate all of them.
(The original claim asserts more on four counts, each refuted by the
counterexample: points can lie outside `[0,width] times [0,height]` at
negative coordinates; node boxes are not re-checked against the canvas; the
padding used is the module default, not the configured one; and the label
allowance is the fixed box, not the label's measured extent.) -/
theorem claim_C2 (clip : List Point → PositionedNode → Bool → List Point)
    (sqrtℚ : ℚ → ℚ) (arrowMargin : ℚ) (elkResult : ElkNodeOut)
    (graph : MermaidGraph) (mergeEdges : Bool) (e : PositionedEdge)
    (he : e ∈ (elkToPositioned clip sqrtℚ arrowMargin elkResult graph
      mergeEdges).edges) :
    (∀ p ∈ e.points,
        p.x + arrowMargin + DEFAULTS.padding
            ≤ (elkToPositioned clip sqrtℚ arrowMargin elkResult graph
                mergeEdges).width
          ∧ p.y + arrowMargin + DEFAULTS.padding
            ≤ (elkToPositioned clip sqrtℚ arrowMargin elkResult graph
                mergeEdges).height)
      ∧ (∀ l, e.labelPosition = some l →
          l.x + 60 + DEFAULTS.padding
              ≤ (elkToPositioned clip sqrtℚ arrowMargin elkResult graph
                  mergeEdges).width
            ∧ l.y + 20 + DEFAULTS.padding
              ≤ (elkToPositioned clip sqrtℚ arrowMargin elkResult graph
                  mergeEdges).height) :=
  boundsFold_encloses arrowMargin DEFAULTS.padding _ _ e he

/-- Witness for C2 at a concrete run: the second extracted edge of the
counterexample graph satisfies the corrected positive-side bound. -/
theorem claim_C2_witness :
    (∀ p ∈ ({ source := "z", target := "w", label := none, style := .solid,
              hasArrowStart := false, hasArrowEnd := true,
              points := [⟨0, 50⟩, ⟨-15, 50⟩, ⟨-15, 90⟩, ⟨30, 90⟩],
              labelPosition := none } : PositionedEdge).points,
        p.x + 8 + DEFAULTS.padding
            ≤ (elkToPositioned idClip trivSqrt 8 c2result c2graph true).width
          ∧ p.y + 8 + DEFAULTS.padding
            ≤ (elkToPositioned idClip trivSqrt 8 c2result c2graph
                true).height)
      ∧ (∀ l, ({ source := "z", target := "w", label := none, style := .solid,
                 hasArrowStart := false, hasArrowEnd := true,
                 points := [⟨0, 50⟩, ⟨-15, 50⟩, ⟨-15, 90⟩, ⟨30, 90⟩],
                 labelPosition := none } : PositionedEdge).labelPosition
            = some l →
          l.x + 60 + DEFAULTS.padding
              ≤ (elkToPositioned idClip trivSqrt 8 c2result c2graph true).width
            ∧ l.y + 20 + DEFAULTS.padding
              ≤ (elkToPositioned idClip trivSqrt 8 c2result c2graph
                  true).height) :=
  claim_C2 idClip trivSqrt 8 c2result c2graph true
    { source := "z", target := "w", label := none, style := .solid,
      hasArrowStart := false, hasArrowEnd := true,
      points := [⟨0, 50⟩, ⟨-15, 50⟩, ⟨-15, 90⟩, ⟨30, 90⟩],
      labelPosition := none }
    (by rw [c2edges_eq]
        exact List.mem_cons_of_mem _ (List.mem_cons_self _ _))


/-- The canvas width of the concrete C2 run, fully evaluated. -/
theorem c2width_eq :
    (elkToPositioned idClip trivSqrt 8 c2result c2graph true).width = 123 := by
  norm_num [elkToPositioned, allSubgraphIdsList, allSubgraphIds,
    extractNodesAndGroups, extractChildren, extractChild, findSubgraph,
    resolveNodeStyle, spreadRecord, mapGet, mapGetLast, computeMargins,
    flattenGroupBounds, qListMin, qListMax, extractEdgesRecursively,
    extractOneEdge, combineSegmentPoints, segPoints, collectEdgeSegmentsList,
    collectEdgeSegments, collectOneEdge, calculatePathMidpoint, walkToMidpoint,
    totalPolylineLength, segmentLength, orthogonalizeEdgePoints, orthoGo,
    orthoInsert, anyDiagonal, isDiagonalPair, orthoChanged, alignLayerNodes,
    buildLayers, buildLayersGo, flowPos, setFlowPos, connectedPairs,
    LAYER_ALIGN_THRESHOLD, layerSnapTarget, layerDeltas, collectDeltas,
    shiftFirstRun, shiftLastRun, adjustEdgeForDeltas, bundleEdgePaths,
    groupBySource, groupByTarget, processFanOutGroup, processFanInGroup,
    updatePointsAt, nodeMapGet, findGroupsContainingPoint,
    adjustJunctionForGroups, idClip, trivSqrt, c2result, c2graph, DEFAULTS,
    EDGE_SPACING, natMapGet, natMapSet, parseIntPrefix, jsTruthy, strEndsWith,
    charsIsPrefixOf, charsContainsSub, strContainsSub, pushEntry,
    elkEdgeLabels, pointBoundStep, edgeBoundStep, ElkNodeOut.width,
    ElkNodeOut.height,
    show (("x":String) == "y") = false from by decide,
    show ¬ ("x":String) = "y" from by decide,
    show (("x":String) == "z") = false from by decide,
    show ¬ ("x":String) = "z" from by decide,
    show (("x":String) == "w") = false from by decide,
    show ¬ ("x":String) = "w" from by decide,
    show (("y":String) == "x") = false from by decide,
    show ¬ ("y":String) = "x" from by decide,
    show (("y":String) == "z") = false from by decide,
    show ¬ ("y":String) = "z" from by decide,
    show (("y":String) == "w") = false from by decide,
    show ¬ ("y":String) = "w" from by decide,
    show (("z":String) == "x") = false from by decide,
    show ¬ ("z":String) = "x" from by decide,
    show (("z":String) == "y") = false from by decide,
    show ¬ ("z":String) = "y" from by decide,
    show (("z":String) == "w") = false from by decide,
    show ¬ ("z":String) = "w" from by decide,
    show (("w":String) == "x") = false from by decide,
    show ¬ ("w":String) = "x" from by decide,
    show (("w":String) == "y") = false from by decide,
    show ¬ ("w":String) = "y" from by decide,
    show (("w":String) == "z") = false from by decide,
    show ¬ ("w":String) = "z" from by decide,
    List.takeWhile, show Char.isDigit (Char.ofNat 48) = true from rfl,
    show Char.isDigit (Char.ofNat 49) = true from rfl,
    show Char.toNat (Char.ofNat 48) = 48 from rfl,
    show Char.toNat (Char.ofNat 49) = 49 from rfl,
    List.enum, List.enumFrom, Option.getD, Option.bind, String.toList,
    List.find?_cons, List.find?_nil, List.filter, List.isEmpty, Option.map,
    Option.isSome, Option.or, List.mergeSort, List.filterMap_cons,
    List.filterMap_nil, List.getElem?_cons_zero, List.getElem?_cons_succ,
    List.getElem?_nil]

/-- The node list and canvas size of the C2 node-enclosure run: the node box
reaches x = 260 while the canvas keeps the solver-reported width 100. -/
theorem c2brun_eq :
    (elkToPositioned idClip trivSqrt 8 c2bresult c2bgraph true).nodes
        = [{ id := "n", label := "N", shape := "rectangle", x := 200, y := 5,
             width := 60, height := 36, inlineStyle := none }]
      ∧ (elkToPositioned idClip trivSqrt 8 c2bresult c2bgraph true).width
        = 100 := by
  constructor <;>
  norm_num [elkToPositioned, allSubgraphIdsList, allSubgraphIds,
    extractNodesAndGroups, extractChildren, extractChild, findSubgraph,
    resolveNodeStyle, spreadRecord, mapGet, mapGetLast, computeMargins,
    flattenGroupBounds, qListMin, qListMax, extractEdgesRecursively,
    extractOneEdge, combineSegmentPoints, segPoints, collectEdgeSegmentsList,
    collectEdgeSegments, collectOneEdge, calculatePathMidpoint, walkToMidpoint,
    totalPolylineLength, segmentLength, orthogonalizeEdgePoints, orthoGo,
    orthoInsert, anyDiagonal, isDiagonalPair, orthoChanged, alignLayerNodes,
    buildLayers, buildLayersGo, flowPos, setFlowPos, connectedPairs,
    LAYER_ALIGN_THRESHOLD, layerSnapTarget, layerDeltas, collectDeltas,
    shiftFirstRun, shiftLastRun, adjustEdgeForDeltas, bundleEdgePaths,
    groupBySource, groupByTarget, processFanOutGroup, processFanInGroup,
    updatePointsAt, nodeMapGet, findGroupsContainingPoint,
    adjustJunctionForGroups, idClip, trivSqrt, c2bresult, c2bgraph, DEFAULTS,
    EDGE_SPACING, natMapGet, natMapSet, parseIntPrefix, jsTruthy, strEndsWith,
    charsIsPrefixOf, charsContainsSub, strContainsSub, pushEntry,
    elkEdgeLabels, pointBoundStep, edgeBoundStep, ElkNodeOut.width,
    ElkNodeOut.height,
    show (("x":String) == "y") = false from by decide,
    show ¬ ("x":String) = "y" from by decide,
    show (("x":String) == "z") = false from by decide,
    show ¬ ("x":String) = "z" from by decide,
    show (("x":String) == "w") = false from by decide,
    show ¬ ("x":String) = "w" from by decide,
    show (("y":String) == "x") = false from by decide,
    show ¬ ("y":String) = "x" from by decide,
    show (("y":String) == "z") = false from by decide,
    show ¬ ("y":String) = "z" from by decide,
    show (("y":String) == "w") = false from by decide,
    show ¬ ("y":String) = "w" from by decide,
    show (("z":String) == "x") = false from by decide,
    show ¬ ("z":String) = "x" from by decide,
    show (("z":String) == "y") = false from by decide,
    show ¬ ("z":String) = "y" from by decide,
    show (("z":String) == "w") = false from by decide,
    show ¬ ("z":String) = "w" from by decide,
    show (("w":String) == "x") = false from by decide,
    show ¬ ("w":String) = "x" from by decide,
    show (("w":String) == "y") = false from by decide,
    show ¬ ("w":String) = "y" from by decide,
    show (("w":String) == "z") = false from by decide,
    show ¬ ("w":String) = "z" from by decide,
    List.takeWhile, show Char.isDigit (Char.ofNat 48) = true from rfl,
    show Char.isDigit (Char.ofNat 49) = true from rfl,
    show Char.toNat (Char.ofNat 48) = 48 from rfl,
    show Char.toNat (Char.ofNat 49) = 49 from rfl,
    List.enum, List.enumFrom, Option.getD, Option.bind, String.toList,
    List.find?_cons, List.find?_nil, List.filter, List.isEmpty, Option.map,
    Option.isSome, Option.or, List.mergeSort, List.filterMap_cons,
    List.filterMap_nil, List.getElem?_cons_zero, List.getElem?_cons_succ,
    List.getElem?_nil]

/-- The edge list and canvas size of the C2 label-extent run: the label anchor
sits at (200, 57) with the 300-wide measured label, and the canvas stops at
the fixed allowance `200 + 60 + 40 = 300`. -/
theorem c2drun_eq :
    (elkToPositioned idClip trivSqrt 8 c2dresult c2dgraph true).edges
        = [{ source := "x", target := "y", label := some "L", style := .solid,
             hasArrowStart := false, hasArrowEnd := true,
             points := [⟨0, 0⟩, ⟨0, 40⟩], labelPosition := some ⟨200, 57⟩ }]
      ∧ (elkToPositioned idClip trivSqrt 8 c2dresult c2dgraph true).width
        = 300 := by
  constructor <;>
  norm_num [elkToPositioned, allSubgraphIdsList, allSubgraphIds,
    extractNodesAndGroups, extractChildren, extractChild, findSubgraph,
    resolveNodeStyle, spreadRecord, mapGet, mapGetLast, computeMargins,
    flattenGroupBounds, qListMin, qListMax, extractEdgesRecursively,
    extractOneEdge, combineSegmentPoints, segPoints, collectEdgeSegmentsList,
    collectEdgeSegments, collectOneEdge, calculatePathMidpoint, walkToMidpoint,
    totalPolylineLength, segmentLength, orthogonalizeEdgePoints, orthoGo,
    orthoInsert, anyDiagonal, isDiagonalPair, orthoChanged, alignLayerNodes,
    buildLayers, buildLayersGo, flowPos, setFlowPos, connectedPairs,
    LAYER_ALIGN_THRESHOLD, layerSnapTarget, layerDeltas, collectDeltas,
    shiftFirstRun, shiftLastRun, adjustEdgeForDeltas, bundleEdgePaths,
    groupBySource, groupByTarget, processFanOutGroup, processFanInGroup,
    updatePointsAt, nodeMapGet, findGroupsContainingPoint,
    adjustJunctionForGroups, idClip, trivSqrt, c2dresult, c2dgraph, DEFAULTS,
    EDGE_SPACING, natMapGet, natMapSet, parseIntPrefix, jsTruthy, strEndsWith,
    charsIsPrefixOf, charsContainsSub, strContainsSub, pushEntry,
    elkEdgeLabels, pointBoundStep,
    show (("L":String) == "") = false from by decide,
    show ¬ ("L":String) = "" from by decide, edgeBoundStep, ElkNodeOut.width,
    ElkNodeOut.height,
    show (("x":String) == "y") = false from by decide,
    show ¬ ("x":String) = "y" from by decide,
    show (("x":String) == "z") = false from by decide,
    show ¬ ("x":String) = "z" from by decide,
    show (("x":String) == "w") = false from by decide,
    show ¬ ("x":String) = "w" from by decide,
    show (("y":String) == "x") = false from by decide,
    show ¬ ("y":String) = "x" from by decide,
    show (("y":String) == "z") = false from by decide,
    show ¬ ("y":String) = "z" from by decide,
    show (("y":String) == "w") = false from by decide,
    show ¬ ("y":String) = "w" from by decide,
    show (("z":String) == "x") = false from by decide,
    show ¬ ("z":String) = "x" from by decide,
    show (("z":String) == "y") = false from by decide,
    show ¬ ("z":String) = "y" from by decide,
    show (("z":String) == "w") = false from by decide,
    show ¬ ("z":String) = "w" from by decide,
    show (("w":String) == "x") = false from by decide,
    show ¬ ("w":String) = "x" from by decide,
    show (("w":String) == "y") = false from by decide,
    show ¬ ("w":String) = "y" from by decide,
    show (("w":String) == "z") = false from by decide,
    show ¬ ("w":String) = "z" from by decide,
    List.takeWhile, show Char.isDigit (Char.ofNat 48) = true from rfl,
    show Char.isDigit (Char.ofNat 49) = true from rfl,
    show Char.toNat (Char.ofNat 48) = 48 from rfl,
    show Char.toNat (Char.ofNat 49) = 49 from rfl,
    List.enum, List.enumFrom, Option.getD, Option.bind, String.toList,
    List.find?_cons, List.find?_nil, List.filter, List.isEmpty, Option.map,
    Option.isSome, Option.or, List.mergeSort, List.filterMap_cons,
    List.filterMap_nil, List.getElem?_cons_zero, List.getElem?_cons_succ,
    List.getElem?_nil]

/-- C2 counterexample, refuting four aspects of the original claim.
(1) Left-margin routing emits the point `(-15, 50)`, outside the claimed
`[0,width] times [0,height]` canvas.  (2) The bounds pass never re-checks node
boxes: a node reaching x = 260 sits outside the width-100 canvas.  (3) The
bounds pass uses the module default padding, not the configured padding: with
padding configured to 100, the point (75, 0) violates the claimed
configured-padding enclosure (123 < 75 + 8 + 100).  (4) The label allowance is
the fixed 60-by-20 box, not the label's rendered extent: a 300-wide measured
label anchored at x = 200 exceeds the width-300 canvas
(300 < 200 + 300/2 + 40). -/
theorem claim_C2_cex :
    (∃ e ∈ (elkToPositioned idClip trivSqrt 8 c2result c2graph true).edges,
        ∃ p ∈ e.points, p.x < 0)
      ∧ (∃ nd ∈ (elkToPositioned idClip trivSqrt 8 c2bresult c2bgraph
            true).nodes,
          (elkToPositioned idClip trivSqrt 8 c2bresult c2bgraph true).width
            < nd.x + nd.width)
      ∧ ((resolveOpts c2coptions).padding = 100
          ∧ ∃ e ∈ (layoutGraphSync (fun _ => c2result) idClip trivSqrt 8
              constSize constMeasure c2graph c2coptions).edges,
            ∃ p ∈ e.points,
              (layoutGraphSync (fun _ => c2result) idClip trivSqrt 8 constSize
                constMeasure c2graph c2coptions).width
                < p.x + 8 + (resolveOpts c2coptions).padding)
      ∧ (∃ e ∈ (layoutGraphSync (fun _ => c2dresult) idClip trivSqrt 8
            constSize bigMeasure c2dgraph ({} : RenderOptions)).edges,
          ∃ l, e.labelPosition = some l ∧ e.label = some "L"
            ∧ (layoutGraphSync (fun _ => c2dresult) idClip trivSqrt 8 constSize
                bigMeasure c2dgraph ({} : RenderOptions)).width
              < l.x + (bigMeasure "L").1 / 2 + DEFAULTS.padding) := by
  have hc : layoutGraphSync (fun _ => c2result) idClip trivSqrt 8 constSize
      constMeasure c2graph c2coptions
      = elkToPositioned idClip trivSqrt 8 c2result c2graph true := rfl
  have hd : layoutGraphSync (fun _ => c2dresult) idClip trivSqrt 8 constSize
      bigMeasure c2dgraph ({} : RenderOptions)
      = elkToPositioned idClip trivSqrt 8 c2dresult c2dgraph true := rfl
  refine ⟨⟨{ source := "z", target := "w", label := none, style := .solid,
             hasArrowStart := false, hasArrowEnd := true,
             points := [⟨0, 50⟩, ⟨-15, 50⟩, ⟨-15, 90⟩, ⟨30, 90⟩],
             labelPosition := none }, ?_, ⟨-15, 50⟩, ?_, ?_⟩,
    ⟨{ id := "n", label := "N", shape := "rectangle", x := 200, y := 5,
       width := 60, height := 36, inlineStyle := none }, ?_, ?_⟩,
    ⟨?_, ?_⟩, ?_⟩
  · rw [c2edges_eq]
    exact List.mem_cons_of_mem _ (List.mem_cons_self _ _)
  · exact List.mem_cons_of_mem _ (List.mem_cons_self _ _)
  · norm_num
  · rw [c2brun_eq.1]
    exact List.mem_cons_self _ _
  · rw [c2brun_eq.2]
    norm_num
  · norm_num [resolveOpts, c2coptions]
  · rw [hc]
    refine ⟨{ source := "x", target := "y", label := none, style := .solid,
              hasArrowStart := false, hasArrowEnd := true,
              points := [⟨0, 0⟩, ⟨75, 0⟩, ⟨75, 40⟩, ⟨30, 40⟩],
              labelPosition := none }, ?_, ⟨75, 0⟩, ?_, ?_⟩
    · rw [c2edges_eq]
      exact List.mem_cons_self _ _
    · exact List.mem_cons_of_mem _ (List.mem_cons_self _ _)
    · rw [c2width_eq]
      norm_num [resolveOpts, c2coptions]
  · rw [hd]
    refine ⟨{ source := "x", target := "y", label := some "L", style := .solid,
              hasArrowStart := false, hasArrowEnd := true,
              points := [⟨0, 0⟩, ⟨0, 40⟩], labelPosition := some ⟨200, 57⟩ },
        ?_, ⟨200, 57⟩, rfl, rfl, ?_⟩
    · rw [c2drun_eq.1]
      exact List.mem_cons_self _ _
    · rw [c2drun_eq.2]
      norm_num [bigMeasure, DEFAULTS]

/-- C3 (corrected): the clustering threshold of `alignLayerNodes` is the fixed
constant `DEFAULTS.layerSpacing * 0.6 = 28.8`, computed from the module-level
default and NOT from the layer spacing configured for the layout call, and the
clustering walk admits the next sorted node into the current cluster exactly
when its flow-axis gap from the immediately preceding node is at most this
constant and it has no direct edge to any node already in the cluster. -/
theorem claim_C3 (connected : List String) (isHorizontal : Bool)
    (doneLayers : List (List PositionedNode))
    (currentLayer : List PositionedNode) (prev n : PositionedNode)
    (rest : List PositionedNode) :
    LAYER_ALIGN_THRESHOLD = DEFAULTS.layerSpacing * 0.6
      ∧ LAYER_ALIGN_THRESHOLD = 28.8
      ∧ buildLayersGo connected isHorizontal doneLayers currentLayer prev
          (n :: rest)
        = (if flowPos isHorizontal n - flowPos isHorizontal prev
                ≤ LAYER_ALIGN_THRESHOLD
              ∧ ¬(currentLayer.any
                  (fun m => connected.contains (m.id ++ ":" ++ n.id)) = true)
           then buildLayersGo connected isHorizontal doneLayers
              (currentLayer ++ [n]) n rest
           else buildLayersGo connected isHorizontal
              (doneLayers ++ [currentLayer]) [n] n rest) := by
  refine ⟨rfl, by norm_num [LAYER_ALIGN_THRESHOLD, DEFAULTS], ?_⟩
  by_cases hc : flowPos isHorizontal n - flowPos isHorizontal prev
        ≤ LAYER_ALIGN_THRESHOLD
      ∧ ¬(currentLayer.any
          (fun m => connected.contains (m.id ++ ":" ++ n.id)) = true)
  · rw [if_pos hc]
    have hb : (decide (flowPos isHorizontal n - flowPos isHorizontal prev
          ≤ LAYER_ALIGN_THRESHOLD)
        && !(currentLayer.any
            (fun m => connected.contains (m.id ++ ":" ++ n.id)))) = true := by
      rw [Bool.and_eq_true, decide_eq_true_eq, Bool.not_eq_true',
        ← Bool.not_eq_true]
      exact hc
    simp only [buildLayersGo, hb, if_true]
  · rw [if_neg hc]
    have hb : (decide (flowPos isHorizontal n - flowPos isHorizontal prev
          ≤ LAYER_ALIGN_THRESHOLD)
        && !(currentLayer.any
            (fun m => connected.contains (m.id ++ ":" ++ n.id)))) = false := by
      rw [← Bool.not_eq_true, Bool.and_eq_true, decide_eq_true_eq,
        Bool.not_eq_true', ← Bool.not_eq_true]
      exact hc
    simp only [buildLayersGo, hb, Bool.false_eq_true, if_false]

/-- C3 counterexample: with the layer spacing configured to 100, two nodes 50
units apart on the flow axis (within the claimed scaled threshold
`0.6 * 100 = 60`) are nevertheless left unclustered and unmoved by the full
pipeline, because the actual threshold is the fixed `28.8 < 50`. -/
theorem claim_C3_cex :
    (resolveOpts c3options).layerSpacing = 100
      ∧ (50 : ℚ) ≤ 0.6 * (resolveOpts c3options).layerSpacing
      ∧ LAYER_ALIGN_THRESHOLD < 50
      ∧ (layoutGraphSync c3solver idClip trivSqrt 8 constSize constMeasure
          c3graph c3options).nodes.map (fun n => n.y) = [0, 50] := by
  refine ⟨by norm_num [resolveOpts, c3options, DEFAULTS],
    by norm_num [resolveOpts, c3options, DEFAULTS],
    by norm_num [LAYER_ALIGN_THRESHOLD, DEFAULTS], ?_⟩
  have h : layoutGraphSync c3solver idClip trivSqrt 8 constSize constMeasure
      c3graph c3options
      = elkToPositioned idClip trivSqrt 8 c3result c3graph true := rfl
  rw [h]
  norm_num [elkToPositioned, allSubgraphIdsList, allSubgraphIds,
    extractNodesAndGroups, extractChildren, extractChild, findSubgraph,
    resolveNodeStyle, spreadRecord, mapGet, mapGetLast, computeMargins,
    flattenGroupBounds, qListMin, qListMax, extractEdgesRecursively,
    extractOneEdge, combineSegmentPoints, segPoints, collectEdgeSegmentsList,
    collectEdgeSegments, collectOneEdge, calculatePathMidpoint, walkToMidpoint,
    totalPolylineLength, segmentLength, orthogonalizeEdgePoints, orthoGo,
    orthoInsert, anyDiagonal, isDiagonalPair, orthoChanged, alignLayerNodes,
    buildLayers, buildLayersGo, flowPos, setFlowPos, connectedPairs,
    LAYER_ALIGN_THRESHOLD, layerSnapTarget, layerDeltas, collectDeltas,
    shiftFirstRun, shiftLastRun, adjustEdgeForDeltas, bundleEdgePaths,
    groupBySource, groupByTarget, processFanOutGroup, processFanInGroup,
    updatePointsAt, nodeMapGet, findGroupsContainingPoint,
    adjustJunctionForGroups, idClip, trivSqrt, c3result, c3graph, DEFAULTS,
    EDGE_SPACING, natMapGet, natMapSet, parseIntPrefix, jsTruthy, strEndsWith,
    charsIsPrefixOf, charsContainsSub, strContainsSub, pushEntry,
    elkEdgeLabels,
    show (Direction.TD == Direction.LR) = false from by decide,
    show (Direction.TD == Direction.RL) = false from by decide,
    show ¬ Direction.TD = Direction.LR from by decide,
    show ¬ Direction.TD = Direction.RL from by decide,
    show (("a":String) == "b") = false from by decide,
    show ¬ ("a":String) = "b" from by decide,
    show (("b":String) == "a") = false from by decide,
    show ¬ ("b":String) = "a" from by decide,
    List.enum, List.enumFrom, Option.getD, String.toList, List.find?_cons,
    List.find?_nil, List.filter, List.isEmpty, Option.map, Option.isSome,
    Option.or, List.mergeSort, List.filterMap_cons, List.filterMap_nil,
    List.getElem?_cons_zero, List.getElem?_cons_succ, List.getElem?_nil]

/-- C6 (corrected): each bundling sub-pass skips a disqualified candidate
group — one with fewer than two materialized members, a member carrying a
(truthy) label, or a member whose style differs from the first member's — and
returns its state (edge list and processed set) unchanged.  (The original
claim's stronger reading — that an edge belonging to a disqualified fan-out
group is left entirely unchanged by the whole bundling pass — is false: the
same edge can still be rewritten by the later fan-in sub-pass through its
target-side group, see the counterexample.) -/
theorem claim_C6 (nodes : List PositionedNode) (groups : List PositionedGroup)
    (direction : Direction) (st : List PositionedEdge × List ℕ)
    (entry : String × List ℕ) (j : ℕ) (e0 : PositionedEdge)
    (rest : List (ℕ × PositionedEdge))
    (hg : entry.2.filterMap (fun i => (st.1[i]?).map (fun e => (i, e)))
        = (j, e0) :: rest)
    (hbad : ((j, e0) :: rest).any
        (fun g => jsTruthy g.2.label || g.2.style != e0.style) = true
      ∨ ((j, e0) :: rest).length < 2) :
    processFanOutGroup nodes groups direction st entry = st
      ∧ processFanInGroup nodes groups direction st entry = st := by
  rcases st with ⟨edges, processed⟩
  rcases entry with ⟨gid, idxs⟩
  simp only at hg
  constructor
  · simp only [processFanOutGroup, hg]
    rcases hbad with hbad | hlen
    · by_cases hl : ((j, e0) :: rest).length < 2
      · rw [if_pos hl]
      · rw [if_neg hl, if_pos hbad]
    · rw [if_pos hlen]
  · simp only [processFanInGroup, hg]
    rcases hbad with hbad | hlen
    · by_cases hl : ((j, e0) :: rest).length < 2
      · rw [if_pos hl]
      · rw [if_neg hl, if_pos hbad]
    · rw [if_pos hlen]

/-- Witness for C6: the concrete style-mixed fan-out group at source `A` is
skipped unchanged by both sub-pass step functions. -/
theorem claim_C6_witness :
    processFanOutGroup c6nodes [] .TD (c6edges, []) ("A", [0, 1])
        = (c6edges, [])
      ∧ processFanInGroup c6nodes [] .TD (c6edges, []) ("A", [0, 1])
        = (c6edges, []) :=
  claim_C6 c6nodes [] .TD (c6edges, []) ("A", [0, 1]) 0
    { source := "A", target := "C", label := none, style := .solid,
      hasArrowStart := false, hasArrowEnd := true,
      points := [⟨0, 0⟩, ⟨1, 1⟩], labelPosition := none }
    [(1, { source := "A", target := "D", label := none, style := .dotted,
           hasArrowStart := false, hasArrowEnd := true,
           points := [⟨2, 2⟩, ⟨3, 3⟩], labelPosition := none })]
    rfl (Or.inl rfl)

/-- C6 counterexample: edge 0 (`A -> C`, solid) belongs to the style-mixed
fan-out group at `A` (edge 1 is dotted), yet the full bundling pass still
rewrites its point list — through the uniform fan-in group at `C`. -/
theorem claim_C6_cex :
    mapGet (groupBySource c6edges) "A" = some [0, 1]
      ∧ (c6edges[0]?).map (fun e => e.style) = some EdgeStyle.solid
      ∧ (c6edges[1]?).map (fun e => e.style) = some EdgeStyle.dotted
      ∧ (c6edges[0]?).map (fun e => e.points) = some [⟨0, 0⟩, ⟨1, 1⟩]
      ∧ ((bundleEdgePaths c6edges c6nodes [] .TD)[0]?).map (fun e => e.points)
        = some [⟨5, 10⟩, ⟨5, 30⟩, ⟨5, 30⟩, ⟨5, 50⟩] := by
  refine ⟨rfl, rfl, rfl, rfl, ?_⟩
  norm_num [bundleEdgePaths, groupBySource, groupByTarget, processFanOutGroup,
    processFanInGroup, updatePointsAt, nodeMapGet, mapGetLast, pushEntry,
    mapGet, qListMin, qListMax, findGroupsContainingPoint,
    adjustJunctionForGroups, jsTruthy, c6nodes, c6edges, bne,
    show (EdgeStyle.solid == EdgeStyle.dotted) = false from by decide,
    show ¬ EdgeStyle.solid = EdgeStyle.dotted from by decide,
    show (EdgeStyle.solid == EdgeStyle.thick) = false from by decide,
    show ¬ EdgeStyle.solid = EdgeStyle.thick from by decide,
    show (EdgeStyle.dotted == EdgeStyle.solid) = false from by decide,
    show ¬ EdgeStyle.dotted = EdgeStyle.solid from by decide,
    show (EdgeStyle.dotted == EdgeStyle.thick) = false from by decide,
    show ¬ EdgeStyle.dotted = EdgeStyle.thick from by decide,
    show (EdgeStyle.thick == EdgeStyle.solid) = false from by decide,
    show ¬ EdgeStyle.thick = EdgeStyle.solid from by decide,
    show (EdgeStyle.thick == EdgeStyle.dotted) = false from by decide,
    show ¬ EdgeStyle.thick = EdgeStyle.dotted from by decide,
    show (Direction.TD == Direction.LR) = false from by decide,
    show (Direction.TD == Direction.RL) = false from by decide,
    show (Direction.TD == Direction.BT) = false from by decide,
    show ¬ Direction.TD = Direction.LR from by decide,
    show ¬ Direction.TD = Direction.RL from by decide,
    show ¬ Direction.TD = Direction.BT from by decide,
    show (("A":String) == "B") = false from by decide,
    show ¬ ("A":String) = "B" from by decide,
    show (("B":String) == "A") = false from by decide,
    show ¬ ("B":String) = "A" from by decide,
    show (("A":String) == "C") = false from by decide,
    show ¬ ("A":String) = "C" from by decide,
    show (("A":String) == "D") = false from by decide,
    show ¬ ("A":String) = "D" from by decide,
    show (("B":String) == "C") = false from by decide,
    show ¬ ("B":String) = "C" from by decide,
    show (("B":String) == "D") = false from by decide,
    show ¬ ("B":String) = "D" from by decide,
    show (("C":String) == "A") = false from by decide,
    show ¬ ("C":String) = "A" from by decide,
    show (("C":String) == "B") = false from by decide,
    show ¬ ("C":String) = "B" from by decide,
    show (("C":String) == "D") = false from by decide,
    show ¬ ("C":String) = "D" from by decide,
    show (("D":String) == "A") = false from by decide,
    show ¬ ("D":String) = "A" from by decide,
    show (("D":String) == "B") = false from by decide,
    show ¬ ("D":String) = "B" from by decide,
    show (("D":String) == "C") = false from by decide,
    show ¬ ("D":String) = "C" from by decide,
    List.enum, List.enumFrom, Option.getD, List.find?_cons, List.find?_nil,
    List.filter, List.isEmpty, Option.map, Option.isSome, Option.or,
    List.filterMap_cons, List.filterMap_nil, List.getElem?_cons_zero,
    List.getElem?_cons_succ, List.getElem?_nil, List.mapIdx, List.mapIdx.go]

theorem setFlowPos_id (iH : Bool) (n : PositionedNode) (v : ℚ) :
    (setFlowPos iH n v).id = n.id := by
  unfold setFlowPos
  split <;> rfl

theorem flowPos_setFlowPos (iH : Bool) (n : PositionedNode) (v : ℚ) :
    flowPos iH (setFlowPos iH n v) = v := by
  cases iH <;> simp [flowPos, setFlowPos]

theorem qListMin_le_init : ∀ (l : List ℚ) (q : ℚ), qListMin q l ≤ q
  | [], q => le_refl q
  | a :: l, q => le_trans (qListMin_le_init l (min q a)) (min_le_left q a)

theorem qListMin_le_mem : ∀ (l : List ℚ) (q x : ℚ), x ∈ l → qListMin q l ≤ x
  | [], _, x, hx => absurd hx (List.not_mem_nil x)
  | a :: l, q, x, hx => by
      rcases List.mem_cons.mp hx with rfl | h
      · exact le_trans (qListMin_le_init l (min q x)) (min_le_right q x)
      · exact qListMin_le_mem l (min q a) x h

theorem qListMin_attained : ∀ (l : List ℚ) (q : ℚ),
    qListMin q l = q ∨ qListMin q l ∈ l
  | [], _ => Or.inl rfl
  | a :: l, q => by
      have hstep : qListMin q (a :: l) = qListMin (min q a) l := rfl
      rcases qListMin_attained l (min q a) with h | h
      · rcases min_choice q a with h2 | h2
        · exact Or.inl (by rw [hstep, h, h2])
        · exact Or.inr (by rw [hstep, h, h2]; exact List.mem_cons_self a l)
      · exact Or.inr (List.mem_cons_of_mem a (hstep ▸ h))

theorem qListMax_ge_init : ∀ (l : List ℚ) (q : ℚ), q ≤ qListMax q l
  | [], q => le_refl q
  | a :: l, q => le_trans (le_max_left q a) (qListMax_ge_init l (max q a))

theorem qListMax_ge_mem : ∀ (l : List ℚ) (q x : ℚ), x ∈ l → x ≤ qListMax q l
  | [], _, x, hx => absurd hx (List.not_mem_nil x)
  | a :: l, q, x, hx => by
      rcases List.mem_cons.mp hx with rfl | h
      · exact le_trans (le_max_right q x) (qListMax_ge_init l (max q x))
      · exact qListMax_ge_mem l (max q a) x h

theorem qListMax_attained : ∀ (l : List ℚ) (q : ℚ),
    qListMax q l = q ∨ qListMax q l ∈ l
  | [], _ => Or.inl rfl
  | a :: l, q => by
      have hstep : qListMax q (a :: l) = qListMax (max q a) l := rfl
      rcases qListMax_attained l (max q a) with h | h
      · rcases max_choice q a with h2 | h2
        · exact Or.inl (by rw [hstep, h, h2])
        · exact Or.inr (by rw [hstep, h, h2]; exact List.mem_cons_self a l)
      · exact Or.inr (List.mem_cons_of_mem a (hstep ▸ h))

/-- Characterization of a present snap target: the midpoint of an attained
range wider than one unit that bounds every member's flow position. -/
theorem layerSnapTarget_char (iH : Bool) (L : List PositionedNode) (t : ℚ)
    (h : layerSnapTarget iH L = some t) :
    ∃ mn mx : ℚ,
      (∀ x ∈ L, mn ≤ flowPos iH x ∧ flowPos iH x ≤ mx)
      ∧ (∃ u ∈ L, flowPos iH u = mn) ∧ (∃ v ∈ L, flowPos iH v = mx)
      ∧ 1 < mx - mn ∧ t = (mn + mx) / 2 := by
  rcases L with _ | ⟨p, ps⟩
  · exact Option.noConfusion h
  · simp only [layerSnapTarget] at h
    split at h
    · exact Option.noConfusion h
    · split at h
      · exact Option.noConfusion h
      · rename_i hlen hrange
        injection h with ht
        refine ⟨qListMin (flowPos iH p) (ps.map (flowPos iH)),
          qListMax (flowPos iH p) (ps.map (flowPos iH)), ?_, ?_, ?_, ?_, ht.symm⟩
        · intro x hx
          rcases List.mem_cons.mp hx with rfl | h2
          · exact ⟨qListMin_le_init _ _, qListMax_ge_init _ _⟩
          · exact ⟨qListMin_le_mem _ _ _ (List.mem_map_of_mem _ h2),
              qListMax_ge_mem _ _ _ (List.mem_map_of_mem _ h2)⟩
        · rcases qListMin_attained (ps.map (flowPos iH)) (flowPos iH p) with h2 | h2
          · exact ⟨p, List.mem_cons_self p ps, h2.symm⟩
          · obtain ⟨u, hu, hu2⟩ := List.mem_map.mp h2
            exact ⟨u, List.mem_cons_of_mem p hu, hu2⟩
        · rcases qListMax_attained (ps.map (flowPos iH)) (flowPos iH p) with h2 | h2
          · exact ⟨p, List.mem_cons_self p ps, h2.symm⟩
          · obtain ⟨v, hv, hv2⟩ := List.mem_map.mp h2
            exact ⟨v, List.mem_cons_of_mem p hv, hv2⟩
        · exact lt_of_not_le hrange

/-- Mutual independence of the members of one built layer: no member has a
direct edge (as recorded in `connected`) to a later member. -/
def layerIndep (connected : List String) (L : List PositionedNode) : Prop :=
  L.Pairwise (fun m n => connected.contains (m.id ++ ":" ++ n.id) = false)

theorem buildLayersGo_flatten (connected : List String) (iH : Bool) :
    ∀ (input : List PositionedNode) (doneLayers : List (List PositionedNode))
      (cur : List PositionedNode) (prev : PositionedNode),
    (buildLayersGo connected iH doneLayers cur prev input).flatten
      = doneLayers.flatten ++ cur ++ input
  | [], doneLayers, cur, prev => by
      simp [buildLayersGo]
  | n :: rest, doneLayers, cur, prev => by
      simp only [buildLayersGo]
      split
      · rw [buildLayersGo_flatten connected iH rest doneLayers (cur ++ [n]) n]
        simp
      · rw [buildLayersGo_flatten connected iH rest (doneLayers ++ [cur]) [n] n]
        simp

theorem buildLayersGo_indep (connected : List String) (iH : Bool) :
    ∀ (input : List PositionedNode) (doneLayers : List (List PositionedNode))
      (cur : List PositionedNode) (prev : PositionedNode),
      (∀ L ∈ doneLayers, layerIndep connected L) → layerIndep connected cur →
      ∀ L ∈ buildLayersGo connected iH doneLayers cur prev input,
        layerIndep connected L
  | [], doneLayers, cur, prev, hdone, hcur, L, hL => by
      unfold buildLayersGo at hL
      rcases List.mem_append.mp hL with h | h
      · exact hdone L h
      · rw [List.mem_singleton.mp h]
        exact hcur
  | n :: rest, doneLayers, cur, prev, hdone, hcur, L, hL => by
      simp only [buildLayersGo] at hL
      split at hL
      · rename_i hcond
        refine buildLayersGo_indep connected iH rest doneLayers (cur ++ [n]) n
          hdone ?_ L hL
        rw [Bool.and_eq_true] at hcond
        have hedge := hcond.2
        rw [Bool.not_eq_true'] at hedge
        refine List.pairwise_append.mpr
          ⟨hcur, List.pairwise_singleton _ _, fun m hm b hb => ?_⟩
        rw [List.mem_singleton.mp hb]
        have h2 := List.any_eq_false.mp hedge m hm
        exact Bool.eq_false_iff.mpr h2
      · rename_i hcond
        refine buildLayersGo_indep connected iH rest (doneLayers ++ [cur]) [n] n
          ?_ (List.pairwise_singleton _ _) L hL
        intro M hM
        rcases List.mem_append.mp hM with h | h
        · exact hdone M h
        · rw [List.mem_singleton.mp h]
          exact hcur

theorem connectedPairs_sub : ∀ (edges : List PositionedEdge)
    (acc : List String) (s : String), s ∈ acc →
    s ∈ edges.foldl (fun acc e =>
      acc ++ [e.source ++ ":" ++ e.target, e.target ++ ":" ++ e.source]) acc
  | [], _, _, hs => hs
  | _ :: edges, acc, s, hs =>
      connectedPairs_sub edges _ s (List.mem_append_left _ hs)

theorem connectedPairs_mem_go : ∀ (edges : List PositionedEdge)
    (acc : List String) (e : PositionedEdge), e ∈ edges →
    (e.source ++ ":" ++ e.target) ∈ edges.foldl (fun acc e =>
        acc ++ [e.source ++ ":" ++ e.target, e.target ++ ":" ++ e.source]) acc
      ∧ (e.target ++ ":" ++ e.source) ∈ edges.foldl (fun acc e =>
        acc ++ [e.source ++ ":" ++ e.target, e.target ++ ":" ++ e.source]) acc
  | [], _, e, he => absurd he (List.not_mem_nil e)
  | f :: edges, acc, e, he => by
      rcases List.mem_cons.mp he with rfl | h2
      · constructor <;>
          exact connectedPairs_sub edges _ _ (List.mem_append_right _ (by simp))
      · exact connectedPairs_mem_go edges _ e h2

/-- The `connectedPairs` set has no false negatives: a direct edge between
two ids puts both orientation strings into the set. -/
theorem connectedPairs_complete (edges : List PositionedEdge) (x y : String)
    (h : edgeBetween edges x y) :
    (connectedPairs edges).contains (x ++ ":" ++ y) = true
      ∧ (connectedPairs edges).contains (y ++ ":" ++ x) = true := by
  obtain ⟨e, he, hcase⟩ := h
  have hmem := connectedPairs_mem_go edges [] e he
  rcases hcase with ⟨h1, h2⟩ | ⟨h1, h2⟩
  · rw [← h1, ← h2]
    exact ⟨List.elem_iff.mpr hmem.1, List.elem_iff.mpr hmem.2⟩
  · rw [← h1, ← h2]
    exact ⟨List.elem_iff.mpr hmem.2, List.elem_iff.mpr hmem.1⟩

theorem mapGet_eq_some_unique {α : Type} : ∀ (m : StrMap α) (k : String) (v : α),
    (k, v) ∈ m → (∀ e ∈ m, e.1 = k → e = (k, v)) → mapGet m k = some v
  | [], k, v, hm, _ => absurd hm (List.not_mem_nil _)
  | e :: m, k, v, hm, hu => by
      unfold mapGet
      rw [List.find?_cons]
      cases hek : (e.1 == k) with
      | true =>
          have he : e = (k, v) :=
            hu e (List.mem_cons_self _ _) (eq_of_beq hek)
          rw [he]
          rfl
      | false =>
          have hm2 : (k, v) ∈ m := by
            rcases List.mem_cons.mp hm with rfl | h
            · rw [show ((k, v).1 == k) = true from beq_self_eq_true k] at hek
              exact Bool.noConfusion hek
            · exact h
          have hu2 : ∀ f ∈ m, f.1 = k → f = (k, v) := fun f hf =>
            hu f (List.mem_cons_of_mem _ hf)
          exact mapGet_eq_some_unique m k v hm2 hu2

theorem mapGet_eq_none_of_absent {α : Type} (m : StrMap α) (k : String)
    (h : ∀ e ∈ m, e.1 ≠ k) : mapGet m k = none := by
  unfold mapGet
  rw [List.find?_eq_none.mpr (fun e he hbe => h e he (eq_of_beq hbe))]
  rfl

theorem mapGetLast_eq_some_unique {α : Type} (m : StrMap α) (k : String)
    (v : α) (hm : (k, v) ∈ m) (hu : ∀ e ∈ m, e.1 = k → e = (k, v)) :
    mapGetLast m k = some v :=
  mapGet_eq_some_unique m.reverse k v (List.mem_reverse.mpr hm)
    (fun e he => hu e (List.mem_reverse.mp he))

theorem mapGetLast_eq_none_of_absent {α : Type} (m : StrMap α) (k : String)
    (h : ∀ e ∈ m, e.1 ≠ k) : mapGetLast m k = none :=
  mapGet_eq_none_of_absent m.reverse k (fun e he => h e (List.mem_reverse.mp he))

theorem collectDeltas_flatten (iH : Bool) :
    ∀ (layers : List (List PositionedNode)) (acc : StrMap ℚ),
    layers.foldl (fun acc L => acc ++ layerDeltas iH L) acc
      = acc ++ (layers.map (layerDeltas iH)).flatten
  | [], acc => by simp
  | L :: layers, acc => by
      rw [List.foldl_cons, collectDeltas_flatten iH layers (acc ++ layerDeltas iH L)]
      simp

/-- Every recorded delta entry names a member of a layer that snaps, moved by
more than half a unit, and records exactly the move to the target. -/
theorem layerDeltas_mem (iH : Bool) (L : List PositionedNode) (e : String × ℚ)
    (he : e ∈ layerDeltas iH L) :
    ∃ t, layerSnapTarget iH L = some t
      ∧ ∃ n ∈ L, e = (n.id, t - flowPos iH n)
        ∧ 1 / 2 < |t - flowPos iH n| := by
  unfold layerDeltas at he
  split at he
  · exact absurd he (List.not_mem_nil e)
  · rename_i t ht
    obtain ⟨n, hn, hg⟩ := List.mem_filterMap.mp he
    simp only at hg
    split at hg
    · rename_i hmv
      injection hg with hg2
      exact ⟨t, ht, n, hn, hg2.symm, of_decide_eq_true hmv⟩
    · exact Option.noConfusion hg

theorem layerDeltas_self_mem (iH : Bool) (L : List PositionedNode) (t : ℚ)
    (a : PositionedNode) (ht : layerSnapTarget iH L = some t) (ha : a ∈ L)
    (hmv : 1 / 2 < |t - flowPos iH a|) :
    (a.id, t - flowPos iH a) ∈ layerDeltas iH L := by
  unfold layerDeltas
  rw [ht]
  refine List.mem_filterMap.mpr ⟨a, ha, ?_⟩
  simp only [decide_eq_true hmv, if_true]

/-- The complete lookup characterization: with globally distinct ids, the
delta lookup of a member of layer `La` computes exactly `snapResult` on
`La`. -/
theorem delta_lookup (iH : Bool) (layers : List (List PositionedNode))
    (a : PositionedNode) (La : List PositionedNode)
    (hLa : La ∈ layers) (haL : a ∈ La)
    (hids : (layers.flatten.map (fun n => n.id)).Nodup) :
    (match mapGetLast (collectDeltas iH layers) a.id with
      | some d => flowPos iH a + d
      | none => flowPos iH a) = snapResult iH La a := by
  unfold collectDeltas
  have hrecords : layers.flatten.Nodup := hids.of_map
  have hdisj := (List.nodup_flatten.mp hrecords).2
  have haflat : a ∈ layers.flatten :=
    List.mem_flatten.mpr ⟨La, hLa, haL⟩
  have huniqL : ∀ M ∈ layers, a ∈ M → M = La := by
    intro M hM haM
    by_contra hneq
    exact absurd haL
      (List.disjoint_left.mp
        (hdisj.forall (fun _ _ h => h.symm) hM hLa hneq) haM)
  have hkey : ∀ e ∈ layers.foldl (fun acc L => acc ++ layerDeltas iH L) [],
      e.1 = a.id → ∃ t, layerSnapTarget iH La = some t
        ∧ e = (a.id, t - flowPos iH a) ∧ 1 / 2 < |t - flowPos iH a| := by
    intro e he hek
    rw [collectDeltas_flatten iH layers [], List.nil_append] at he
    obtain ⟨l, hl, hel⟩ := List.mem_flatten.mp he
    obtain ⟨M, hM, rfl⟩ := List.mem_map.mp hl
    obtain ⟨t, ht, n, hn, hen, hmv⟩ := layerDeltas_mem iH M e hel
    have hnid : n.id = a.id := by rw [hen] at hek; exact hek
    have hnflat : n ∈ layers.flatten := List.mem_flatten.mpr ⟨M, hM, hn⟩
    have hna : n = a := List.inj_on_of_nodup_map hids hnflat haflat hnid
    subst hna
    rw [huniqL M hM hn] at ht
    exact ⟨t, ht, by rw [hen], hmv⟩
  rcases hta : layerSnapTarget iH La with _ | t
  · have hnone : mapGetLast
        (layers.foldl (fun acc L => acc ++ layerDeltas iH L) []) a.id = none := by
      refine mapGetLast_eq_none_of_absent _ _ (fun e he hek => ?_)
      obtain ⟨t, ht, _, _⟩ := hkey e he hek
      rw [hta] at ht
      exact Option.noConfusion ht
    rw [hnone]
    unfold snapResult
    rw [hta]
  · by_cases hmv : 1 / 2 < |t - flowPos iH a|
    · have hin : (a.id, t - flowPos iH a)
          ∈ layers.foldl (fun acc L => acc ++ layerDeltas iH L) [] := by
        rw [collectDeltas_flatten iH layers [], List.nil_append]
        exact List.mem_flatten.mpr ⟨layerDeltas iH La,
          List.mem_map_of_mem _ hLa, layerDeltas_self_mem iH La t a hta haL hmv⟩
      have huniq2 : ∀ e ∈ layers.foldl (fun acc L => acc ++ layerDeltas iH L) [],
          e.1 = a.id → e = (a.id, t - flowPos iH a) := by
        intro e he hek
        obtain ⟨t2, ht2, he2, _⟩ := hkey e he hek
        rw [hta] at ht2
        injection ht2 with ht3
        rw [← ht3] at he2
        exact he2
      rw [mapGetLast_eq_some_unique _ _ _ hin huniq2]
      simp only [snapResult, hta]
      rw [if_pos hmv]
      ring
    · have hnone : mapGetLast
          (layers.foldl (fun acc L => acc ++ layerDeltas iH L) []) a.id = none := by
        refine mapGetLast_eq_none_of_absent _ _ (fun e he hek => ?_)
        obtain ⟨t2, ht2, _, hmv2⟩ := hkey e he hek
        rw [hta] at ht2
        injection ht2 with ht3
        rw [← ht3] at hmv2
        exact hmv hmv2
      rw [hnone]
      simp only [snapResult, hta]
      rw [if_neg hmv]

/-- Two members of cross-ordered layers cannot land on the same snapped
position when their original positions differ. -/
theorem snapResult_distinct (iH : Bool) (La Lb : List PositionedNode)
    (a b : PositionedNode) (haL : a ∈ La) (hbL : b ∈ Lb)
    (hcross : ∀ x ∈ La, ∀ y ∈ Lb, flowPos iH x ≤ flowPos iH y)
    (hne : flowPos iH a ≠ flowPos iH b) :
    snapResult iH La a ≠ snapResult iH Lb b := by
  rcases hta : layerSnapTarget iH La with _ | tA
  · rcases htb : layerSnapTarget iH Lb with _ | tB
    · simp only [snapResult, hta, htb]
      exact hne
    · obtain ⟨mnB, mxB, hBb, ⟨u, hu, humn⟩, _, hrangeB, htB2⟩ :=
        layerSnapTarget_char iH Lb tB htb
      simp only [snapResult, hta, htb]
      split
      · have h1 : flowPos iH a ≤ mnB := humn ▸ hcross a haL u hu
        have h2 : mnB < tB := by
          have h3 := (hBb u hu).2
          rw [htB2]
          linarith [humn ▸ h3]
        exact ne_of_lt (lt_of_le_of_lt h1 h2)
      · exact hne
  · obtain ⟨mnA, mxA, hAb, ⟨w, hw, hwmn⟩, ⟨v, hv, hvmx⟩, hrangeA, htA2⟩ :=
      layerSnapTarget_char iH La tA hta
    have hwle : mnA ≤ mxA := by
      have h3 := (hAb w hw).2
      linarith [hwmn ▸ h3]
    have htAlt : tA < mxA := by
      rw [htA2]
      linarith
    rcases htb : layerSnapTarget iH Lb with _ | tB
    · simp only [snapResult, hta, htb]
      split
      · have h1 : mxA ≤ flowPos iH b := hvmx ▸ hcross v hv b hbL
        exact ne_of_lt (lt_of_lt_of_le htAlt h1)
      · exact hne
    · obtain ⟨mnB, mxB, hBb, ⟨u, hu, humnB⟩, _, hrangeB, htB2⟩ :=
        layerSnapTarget_char iH Lb tB htb
      have hule : mnB ≤ mxB := by
        have h3 := (hBb u hu).2
        linarith [humnB ▸ h3]
      have htBgt : mnB < tB := by
        rw [htB2]
        linarith
      have hAB : mxA ≤ mnB := by
        rw [← hvmx, ← humnB]
        exact hcross v hv u hu
      simp only [snapResult, hta, htb]
      split
      · split
        · exact ne_of_lt (lt_of_lt_of_le htAlt (le_trans hAB (le_of_lt htBgt)))
        · have hb1 : mnB ≤ flowPos iH b := (hBb b hbL).1
          exact ne_of_lt (lt_of_lt_of_le htAlt (le_trans hAB hb1))
      · split
        · have ha1 : flowPos iH a ≤ mxA := (hAb a haL).2
          exact ne_of_lt (lt_of_le_of_lt ha1 (lt_of_le_of_lt hAB htBgt))
        · exact hne

theorem alignedNode_id (iH : Bool) (nodes : List PositionedNode)
    (edges : List PositionedEdge) (n : PositionedNode) :
    (alignedNode iH nodes edges n).id = n.id := by
  unfold alignedNode
  cases hm : mapGetLast
      (collectDeltas iH
        (buildLayers (connectedPairs edges) iH
          (nodes.mergeSort
            (fun x y => decide (flowPos iH x ≤ flowPos iH y)))))
      n.id with
  | none => rfl
  | some d => exact setFlowPos_id iH n _

theorem alignLayerNodes_fst (nodes : List PositionedNode)
    (edges : List PositionedEdge) (direction : Direction)
    (h : nodes.isEmpty = false) :
    (alignLayerNodes nodes edges direction).1
      = nodes.map
          (alignedNode (direction == Direction.LR || direction == Direction.RL)
            nodes edges) := by
  unfold alignLayerNodes
  rw [h]
  simp only [Bool.false_eq_true, if_false]
  split <;> rfl

theorem mergeSort_flow_sorted (iH : Bool) (nodes : List PositionedNode) :
    List.Pairwise (fun x y => flowPos iH x ≤ flowPos iH y)
      (nodes.mergeSort (fun x y => decide (flowPos iH x ≤ flowPos iH y))) := by
  have h := @List.sorted_mergeSort PositionedNode
    (fun x y => decide (flowPos iH x ≤ flowPos iH y))
    (fun x y z hab hbc => decide_eq_true
      (le_trans (of_decide_eq_true hab) (of_decide_eq_true hbc)))
    (fun x y => by
      rcases le_total (flowPos iH x) (flowPos iH y) with h | h
      · simp [decide_eq_true h]
      · simp [decide_eq_true h])
    nodes
  exact h.imp (fun hab => of_decide_eq_true hab)

/-- The aligned flow positions of two directly-connected nodes with
originally distinct flow positions stay distinct. -/
theorem alignedNode_separates (iH : Bool) (nodes : List PositionedNode)
    (edges : List PositionedEdge)
    (hnd : (nodes.map (fun n => n.id)).Nodup)
    (a b : PositionedNode) (ha : a ∈ nodes) (hb : b ∈ nodes)
    (hab : edgeBetween edges a.id b.id)
    (hne : flowPos iH a ≠ flowPos iH b) :
    flowPos iH (alignedNode iH nodes edges a)
      ≠ flowPos iH (alignedNode iH nodes edges b) := by
  have hperm := List.mergeSort_perm nodes
    (fun x y => decide (flowPos iH x ≤ flowPos iH y))
  have hsorted := mergeSort_flow_sorted iH nodes
  have hflat : (buildLayers (connectedPairs edges) iH
      (nodes.mergeSort (fun x y => decide (flowPos iH x ≤ flowPos iH y)))).flatten
      = nodes.mergeSort (fun x y => decide (flowPos iH x ≤ flowPos iH y)) := by
    cases hs : nodes.mergeSort (fun x y => decide (flowPos iH x ≤ flowPos iH y)) with
    | nil => simp [buildLayers]
    | cons x rest =>
        show (buildLayersGo (connectedPairs edges) iH [] [x] x rest).flatten
          = x :: rest
        rw [buildLayersGo_flatten]
        simp
  have hids2 : ((buildLayers (connectedPairs edges) iH
      (nodes.mergeSort
        (fun x y => decide (flowPos iH x ≤ flowPos iH y)))).flatten.map
      (fun n => n.id)).Nodup := by
    rw [hflat]
    exact (hperm.symm.map (fun n => n.id)).nodup hnd
  have hindepAll : ∀ L ∈ buildLayers (connectedPairs edges) iH
      (nodes.mergeSort (fun x y => decide (flowPos iH x ≤ flowPos iH y))),
      layerIndep (connectedPairs edges) L := by
    cases hs : nodes.mergeSort (fun x y => decide (flowPos iH x ≤ flowPos iH y)) with
    | nil =>
        intro L hL
        simp [buildLayers] at hL
    | cons x rest =>
        intro L hL
        exact buildLayersGo_indep (connectedPairs edges) iH rest [] [x] x
          (fun M hM => absurd hM (List.not_mem_nil M))
          (List.pairwise_singleton _ _) L hL
  have hasort : a ∈ nodes.mergeSort
      (fun x y => decide (flowPos iH x ≤ flowPos iH y)) := hperm.mem_iff.mpr ha
  have hbsort : b ∈ nodes.mergeSort
      (fun x y => decide (flowPos iH x ≤ flowPos iH y)) := hperm.mem_iff.mpr hb
  obtain ⟨La, hLa, haL⟩ := List.mem_flatten.mp (by rw [hflat]; exact hasort)
  obtain ⟨Lb, hLb, hbL⟩ := List.mem_flatten.mp (by rw [hflat]; exact hbsort)
  have hA : flowPos iH (alignedNode iH nodes edges a) = snapResult iH La a := by
    have hd := delta_lookup iH _ a La hLa haL hids2
    unfold alignedNode
    cases hm : mapGetLast
        (collectDeltas iH
          (buildLayers (connectedPairs edges) iH
            (nodes.mergeSort
              (fun x y => decide (flowPos iH x ≤ flowPos iH y)))))
        a.id with
    | none =>
        rw [hm] at hd
        exact hd
    | some d =>
        rw [hm] at hd
        show flowPos iH (setFlowPos iH a (flowPos iH a + d)) = snapResult iH La a
        rw [flowPos_setFlowPos]
        exact hd
  have hB : flowPos iH (alignedNode iH nodes edges b) = snapResult iH Lb b := by
    have hd := delta_lookup iH _ b Lb hLb hbL hids2
    unfold alignedNode
    cases hm : mapGetLast
        (collectDeltas iH
          (buildLayers (connectedPairs edges) iH
            (nodes.mergeSort
              (fun x y => decide (flowPos iH x ≤ flowPos iH y)))))
        b.id with
    | none =>
        rw [hm] at hd
        exact hd
    | some d =>
        rw [hm] at hd
        show flowPos iH (setFlowPos iH b (flowPos iH b + d)) = snapResult iH Lb b
        rw [flowPos_setFlowPos]
        exact hd
  rw [hA, hB]
  by_cases hLL : La = Lb
  · exfalso
    subst hLL
    have hindep := hindepAll La hLa
    have habne : a ≠ b := fun h => hne (by rw [h])
    have hsym : Symmetric (fun m n : PositionedNode =>
        (connectedPairs edges).contains (m.id ++ ":" ++ n.id) = false
          ∨ (connectedPairs edges).contains (n.id ++ ":" ++ m.id) = false) :=
      fun m n h => h.symm
    have hS := (hindep.imp (fun h => Or.inl h)).forall hsym haL hbL habne
    have hcomp := connectedPairs_complete edges a.id b.id hab
    rcases hS with h | h
    · rw [hcomp.1] at h
      exact Bool.noConfusion h
    · rw [hcomp.2] at h
      exact Bool.noConfusion h
  · have hpair : List.Pairwise (fun x y => flowPos iH x ≤ flowPos iH y)
        (buildLayers (connectedPairs edges) iH
          (nodes.mergeSort
            (fun x y => decide (flowPos iH x ≤ flowPos iH y)))).flatten := by
      rw [hflat]
      exact hsorted
    have hcross2 := (List.pairwise_flatten.mp hpair).2
    have hsymT : Symmetric (fun L M : List PositionedNode =>
        (∀ x ∈ L, ∀ y ∈ M, flowPos iH x ≤ flowPos iH y)
          ∨ (∀ x ∈ M, ∀ y ∈ L, flowPos iH x ≤ flowPos iH y)) :=
      fun L M h => h.symm
    have hT := ((hcross2.imp (fun h => Or.inl h)).forall hsymT) hLa hLb hLL
    rcases hT with hcr | hcr
    · exact snapResult_distinct iH La Lb a b haL hbL hcr hne
    · intro hEq
      exact snapResult_distinct iH Lb La b a hbL haL hcr (Ne.symm hne) hEq.symm

/-- C5: `alignLayerNodes` never snaps two directly-connected nodes (with
distinct pre-alignment flow positions) onto the same flow-axis coordinate:
their direct edge keeps them in different clusters, and distinct clusters
snap to provably distinct positions. -/
theorem claim_C5 (nodes : List PositionedNode) (edges : List PositionedEdge)
    (direction : Direction)
    (hnd : (nodes.map (fun n => n.id)).Nodup)
    (a b : PositionedNode) (ha : a ∈ nodes) (hb : b ∈ nodes)
    (hab : edgeBetween edges a.id b.id)
    (hne : flowPos (direction == Direction.LR || direction == Direction.RL) a
      ≠ flowPos (direction == Direction.LR || direction == Direction.RL) b)
    (a' b' : PositionedNode)
    (ha' : a' ∈ (alignLayerNodes nodes edges direction).1)
    (hb' : b' ∈ (alignLayerNodes nodes edges direction).1)
    (hida : a'.id = a.id) (hidb : b'.id = b.id) :
    flowPos (direction == Direction.LR || direction == Direction.RL) a'
      ≠ flowPos (direction == Direction.LR || direction == Direction.RL) b' := by
  have hne0 : nodes.isEmpty = false := by
    cases nodes with
    | nil => exact absurd ha (List.not_mem_nil a)
    | cons x l => rfl
  rw [alignLayerNodes_fst nodes edges direction hne0] at ha' hb'
  obtain ⟨na, hna, hna2⟩ := List.mem_map.mp ha'
  obtain ⟨nb, hnb, hnb2⟩ := List.mem_map.mp hb'
  have hnaid : na.id = a.id := by
    rw [← hida, ← hna2]
    exact (alignedNode_id _ nodes edges na).symm
  have hnbid : nb.id = b.id := by
    rw [← hidb, ← hnb2]
    exact (alignedNode_id _ nodes edges nb).symm
  have hna3 : na = a := List.inj_on_of_nodup_map hnd hna ha hnaid
  have hnb3 : nb = b := List.inj_on_of_nodup_map hnd hnb hb hnbid
  rw [← hna2, ← hnb2, hna3, hnb3]
  exact alignedNode_separates _ nodes edges hnd a b ha hb hab hne

/-- The concrete C5 run: ten units of gap are within the clustering threshold,
but the direct edge forces separate (singleton) layers, so nothing snaps. -/
theorem c5align : (alignLayerNodes c5nodes c5edges .TD).1 = c5nodes := by
  norm_num [alignLayerNodes, c5nodes, c5edges, connectedPairs, buildLayers,
    buildLayersGo, flowPos, setFlowPos, LAYER_ALIGN_THRESHOLD, DEFAULTS,
    collectDeltas, layerDeltas, layerSnapTarget, qListMin, qListMax,
    mapGetLast, mapGet, List.mergeSort,
    show (Direction.TD == Direction.LR) = false from by decide,
    show (Direction.TD == Direction.RL) = false from by decide,
    show ¬ Direction.TD = Direction.LR from by decide,
    show ¬ Direction.TD = Direction.RL from by decide,
    List.find?_cons, List.find?_nil, List.filter, List.isEmpty, Option.map,
    Option.isSome, Option.or, List.filterMap_cons, List.filterMap_nil]

/-- Witness for C5 at the concrete run: the two connected nodes keep distinct
flow positions through `alignLayerNodes`. -/
theorem claim_C5_witness :
    flowPos (Direction.TD == Direction.LR || Direction.TD == Direction.RL)
        ({ id := "p", label := "P", shape := "rectangle", x := 0, y := 0,
           width := 10, height := 10, inlineStyle := none } : PositionedNode)
      ≠ flowPos (Direction.TD == Direction.LR || Direction.TD == Direction.RL)
        ({ id := "q", label := "Q", shape := "rectangle", x := 0, y := 10,
           width := 10, height := 10, inlineStyle := none } : PositionedNode) :=
  claim_C5 c5nodes c5edges .TD (by simp [c5nodes])
    { id := "p", label := "P", shape := "rectangle", x := 0, y := 0,
      width := 10, height := 10, inlineStyle := none }
    { id := "q", label := "Q", shape := "rectangle", x := 0, y := 10,
      width := 10, height := 10, inlineStyle := none }
    (List.mem_cons_self _ _)
    (List.mem_cons_of_mem _ (List.mem_cons_self _ _))
    ⟨{ source := "p", target := "q", label := none, style := .solid,
       hasArrowStart := false, hasArrowEnd := true,
       points := [⟨5, 10⟩, ⟨5, 10⟩], labelPosition := none },
      List.mem_cons_self _ _, Or.inl ⟨rfl, rfl⟩⟩
    (by norm_num [flowPos,
      show ¬ Direction.TD = Direction.LR from by decide,
      show ¬ Direction.TD = Direction.RL from by decide])
    { id := "p", label := "P", shape := "rectangle", x := 0, y := 0,
      width := 10, height := 10, inlineStyle := none }
    { id := "q", label := "Q", shape := "rectangle", x := 0, y := 10,
      width := 10, height := 10, inlineStyle := none }
    (by rw [c5align]; exact List.mem_cons_self _ _)
    (by rw [c5align]; exact List.mem_cons_of_mem _ (List.mem_cons_self _ _))
    rfl rfl

end BM
